import Mathlib

/-!
Verification development for the `malloc_lab` allocator (`mm.c`).

The C source is shallowly embedded as follows.

* `word_t` is modelled as `Nat`; the places where 64-bit wrap-around of
  `size_t` matters (the `calloc` multiplication) take an explicit `% 2^64`.
* The metadata codec (`pack` / `extract_*`) is embedded bit-for-bit over `Nat`
  with `Nat.lor` / `Nat.land` / `Nat.shiftRight`, exactly as the C.
* The arena is modelled as a list of blocks in physical order.  Each block
  records its start address (byte offset from the start of the managed range,
  which `mem_sbrk` hands out from offset 0), its size, and the three header
  flags.  The prologue pair occupies bytes [0,16) and the first real block
  starts at address 8 (the second prologue word is overwritten by the first
  block header, exactly as `mm_init` + `extend_heap` do in the C).  The
  epilogue word (size 0, allocated) sits at `heapTop`; only its live
  palloc/mpalloc flags are state, kept in `epiPalloc` / `epiMpalloc`.
* A header store (`write_block`) is modelled as replacing every block whose
  start address falls inside the written extent by the newly written block;
  the footer of a free normal block is a byte-identical mirror of its header
  and is not tracked separately (`find_prev` reads it back as the
  predecessor's recorded size, see its comment).
* The doubly linked seglist buckets and the singly linked mini list are
  modelled as lists of block addresses; `explicit_insert_block` /
  `insert_mini_block` push at the head exactly like the C, and the pointer
  surgery of the two removal routines coincides with erasing the first
  occurrence of the address.
* The heap growth primitive `mem_sbrk` is external to the repository
  (`memlib`).  Modelled from the spec: it extends the managed range by the
  requested amount and returns its old end, or fails when the range cannot
  grow further; the model gives each state a fixed capacity `maxHeap` and
  lets `mem_sbrk` succeed exactly while the break stays within it.
-/

namespace MallocLab

/-! ### Basic constants (mm.c lines 67-78) -/

def wsize : Nat := 8
def dsize : Nat := 2 * wsize
def min_block_size : Nat := dsize
def chunksize : Nat := 2^9
def alloc_mask : Nat := 0x1
def palloc_mask : Nat := 0x2
def mpalloc_mask : Nat := 0x4
def size_mask : Nat := 2^64 - 0x10
def BUCKET_COUNT : Nat := 14
def MINI_BLOCK_SIZE : Nat := 16

/-! ### Pure helpers -/

/-- mm.c `max`: takes in two numbers and returns the max of the two. -/
def mm_max (x y : Nat) : Nat := if x > y then x else y

/-- mm.c `round_up`: given `(size, n)`, round `size` up to a multiple of `n`. -/
def round_up (size n : Nat) : Nat := n * ((size + (n - 1)) / n)

/-! ### Block metadata codec (mm.c lines 116-207) -/

/-- mm.c `pack`: package a size and the three flags into one header word. -/
def pack (size : Nat) (mpalloc palloc alloc : Bool) : Nat :=
  let word := size
  let word := if alloc then word ||| alloc_mask else word
  let word := if palloc then word ||| palloc_mask else word
  let word := if mpalloc then word ||| mpalloc_mask else word
  word

/-- mm.c `extract_size`: the size encoded in a header word. -/
def extract_size (word : Nat) : Nat := word &&& size_mask

/-- mm.c `extract_alloc`: the alloc bit of a header word. -/
def extract_alloc (word : Nat) : Bool := (word &&& alloc_mask) ≠ 0

/-- mm.c `extract_palloc`: the palloc bit of a header word. -/
def extract_palloc (word : Nat) : Bool := ((word &&& palloc_mask) >>> 1) ≠ 0

/-- mm.c `extract_mpalloc`: the mpalloc bit of a header word. -/
def extract_mpalloc (word : Nat) : Bool := ((word &&& mpalloc_mask) >>> 2) ≠ 0

/-! ### Seglist bucket table (mm.c `home_address`, lines 336-369) -/

/-- mm.c `home_address`: given a size, the index of its seglist bucket.
The size should be ≥ 32 to begin with. -/
def home_address (size : Nat) : Nat :=
  if size = 32 then 0
  else if 33 ≤ size ∧ size ≤ 64 then 1
  else if 65 ≤ size ∧ size ≤ 85 then 2
  else if 86 ≤ size ∧ size ≤ 112 then 3
  else if 113 ≤ size ∧ size ≤ 128 then 4
  else if 129 ≤ size ∧ size ≤ 160 then 5
  else if 161 ≤ size ∧ size ≤ 200 then 6
  else if 201 ≤ size ∧ size ≤ 256 then 7
  else if 257 ≤ size ∧ size ≤ 512 then 8
  else if 513 ≤ size ∧ size ≤ 1024 then 9
  else if 1025 ≤ size ∧ size ≤ 2048 then 10
  else if 2049 ≤ size ∧ size ≤ 4096 then 11
  else if 4097 ≤ size ∧ size ≤ 8192 then 12
  else 13

/-! ### The arena model -/

/-- One block of the managed range: start address, size recorded in the
header, and the three header flags. -/
structure Block where
  addr : Nat
  size : Nat
  alloc : Bool
  palloc : Bool
  mpalloc : Bool
deriving Repr, DecidableEq

/-- The allocator state: the blocks of the arena in physical order, the live
flags of the epilogue word, the mini free list and the 14 seglist buckets
(as lists of block addresses), the epilogue address `heapTop`
(`mem_heap_hi() - 7`), the capacity of the growth source, and whether
`heap_start` has been set (lazy initialisation in `malloc`). -/
structure AState where
  blocks : List Block
  epiPalloc : Bool
  epiMpalloc : Bool
  miniRoot : List Nat
  seglist : List (List Nat)
  heapTop : Nat
  maxHeap : Nat
  initialized : Bool
deriving Repr, DecidableEq

/-- The fresh process state: zero-initialised globals (`heap_start = NULL`,
`mini_root = NULL`, all buckets `NULL`), empty managed range. -/
def freshState (M : Nat) : AState :=
  { blocks := [], epiPalloc := false, epiMpalloc := false,
    miniRoot := [], seglist := List.replicate 14 [],
    heapTop := 0, maxHeap := M, initialized := false }

/-- Reading the header at address `a`: the block starting there, the epilogue
word when `a` is the current top of the managed range, or (out-of-model read,
unreachable under well-formedness) a zero-size allocated word. -/
def readBlock (s : AState) (a : Nat) : Block :=
  match s.blocks.find? (fun b => b.addr == a) with
  | some b => b
  | none =>
    if a == s.heapTop then ⟨a, 0, true, s.epiPalloc, s.epiMpalloc⟩
    else ⟨a, 0, true, true, false⟩

/-- mm.c `get_size` at an address. -/
def sizeAt (s : AState) (a : Nat) : Nat := (readBlock s a).size

/-- mm.c `get_alloc` at an address. -/
def allocAt (s : AState) (a : Nat) : Bool := (readBlock s a).alloc

/-- mm.c `get_palloc` at an address. -/
def pallocAt (s : AState) (a : Nat) : Bool := (readBlock s a).palloc

/-- mm.c `get_mpalloc` at an address. -/
def mpallocAt (s : AState) (a : Nat) : Bool := (readBlock s a).mpalloc

/-- Storing a header word: the new block covers `[b.addr, b.addr + b.size)`,
so every block starting inside that extent is superseded (its header words
are now payload of the written block), and blocks outside it are untouched. -/
def storeBlock (bs : List Block) (b : Block) : List Block :=
  bs.filter (fun c => c.addr < b.addr) ++ b ::
    bs.filter (fun c => b.addr + b.size ≤ c.addr)

/-- mm.c `write_block`: write a header (and, for a free normal block, the
byte-identical footer mirror, which the model does not track separately). -/
def write_block (s : AState) (a size : Nat) (mpalloc palloc alloc : Bool) :
    AState :=
  { s with blocks := storeBlock s.blocks ⟨a, size, alloc, palloc, mpalloc⟩ }

/-- mm.c `write_epilogue`: rewrite the epilogue word's live flags
(size 0 and alloc = true are implicit in the model). -/
def write_epilogue (s : AState) (mpalloc palloc : Bool) : AState :=
  { s with epiMpalloc := mpalloc, epiPalloc := palloc }

/-- mm.c `isEpilogue`: the address is `mem_heap_hi() - 7` and the word there
is allocated with size 0. -/
def isEpilogue (s : AState) (a : Nat) : Bool :=
  a == s.heapTop && allocAt s a && (sizeAt s a == 0)

/-- mm.c `isMiniSize`. -/
def isMiniSize (size : Nat) : Bool := size == MINI_BLOCK_SIZE

/-- mm.c `isMiniBlock` at an address. -/
def isMiniBlockAt (s : AState) (a : Nat) : Bool := isMiniSize (sizeAt s a)

/-- mm.c `find_next`: the address of the block immediately after `a`. -/
def find_next (s : AState) (a : Nat) : Nat := a + sizeAt s a

/-- mm.c `find_prev`: the physical predecessor of the block at `a`.  If the
predecessor is a mini block, step back exactly 16 bytes.  Otherwise the C
reads the trailing tag word just below the header (for a free normal
predecessor this is the byte-identical mirror of its header) and steps back
by the size recorded there; reading size 0 means the tag is the prologue.
In the arena model that tag read resolves to the block whose extent ends at
`a` (the first real block starts at address 8, immediately above the
prologue word at 0). -/
def find_prev (s : AState) (a : Nat) (mpalloc : Bool) : Option Nat :=
  if mpalloc then some (a - MINI_BLOCK_SIZE)
  else if a = 8 then none
  else (s.blocks.find? (fun b => b.addr + b.size = a)).map (·.addr)

/-! ### Seglist and mini list management -/

/-- The bucket list at index `idx`. -/
def bucket (s : AState) (idx : Nat) : List Nat := s.seglist.getD idx []

/-- mm.c `explicit_insert_block`: push the block at the head of bucket `idx`
(both the empty and the non-empty branch of the C put the block first with
the old head, possibly NULL, after it). -/
def explicit_insert_block (s : AState) (a : Nat) (idx : Nat) : AState :=
  { s with seglist := s.seglist.set idx (a :: bucket s idx) }

/-- mm.c `explicit_remove_block`: unlink the block from bucket `idx`.  The
C patches the block's `prev`/`next` neighbours (or the bucket head); given
that the block occurs in the bucket's chain, this is erasing its first
occurrence. -/
def explicit_remove_block (s : AState) (a : Nat) (idx : Nat) : AState :=
  { s with seglist := s.seglist.set idx ((bucket s idx).erase a) }

/-- mm.c `update_next_palloc`: rewrite the successor's header so that its
palloc bit reflects this block's alloc bit. -/
def update_next_palloc (s : AState) (a : Nat) : AState :=
  let alloc := allocAt s a
  let next := find_next s a
  let next_size := sizeAt s next
  let next_alloc := allocAt s next
  let next_mpalloc := mpallocAt s next
  if isEpilogue s next then write_epilogue s next_mpalloc alloc
  else write_block s next next_size next_mpalloc alloc next_alloc

/-- mm.c `update_next_mpalloc`: rewrite the successor's header so that its
mpalloc bit records whether this block is a mini block. -/
def update_next_mpalloc (s : AState) (a : Nat) : AState :=
  let new_next_mpalloc := isMiniBlockAt s a
  let next := find_next s a
  let next_size := sizeAt s next
  let next_alloc := allocAt s next
  let next_palloc := pallocAt s next
  if isEpilogue s next then write_epilogue s new_next_mpalloc next_palloc
  else write_block s next next_size new_next_mpalloc next_palloc next_alloc

/-- mm.c `insert_mini_block`: push at the head of the mini list (both C
branches), then refresh the successor's palloc and mpalloc bits. -/
def insert_mini_block (s : AState) (a : Nat) : AState :=
  let s := { s with miniRoot := a :: s.miniRoot }
  let s := update_next_palloc s a
  update_next_mpalloc s a

/-- mm.c `remove_mini_block`: linear scan of the singly linked mini list.
An empty list returns at once; removing the head falls through to the two
flag updates; removing from the middle returns early without them; a block
that is not found leaves the list unchanged and still runs the updates. -/
def remove_mini_block (s : AState) (a : Nat) : AState :=
  match s.miniRoot with
  | [] => s
  | r :: rest =>
    if r = a then
      let s := { s with miniRoot := rest }
      let s := update_next_palloc s a
      update_next_mpalloc s a
    else if a ∈ rest then { s with miniRoot := r :: rest.erase a }
    else
      let s := update_next_palloc s a
      update_next_mpalloc s a

/-- mm.c `insertVagueBlock`: insert into the mini list or the home bucket. -/
def insertVagueBlock (s : AState) (a : Nat) : AState :=
  if isMiniBlockAt s a then insert_mini_block s a
  else explicit_insert_block s a (home_address (sizeAt s a))

/-- mm.c `removeVagueBlock`: remove from the mini list or the home bucket. -/
def removeVagueBlock (s : AState) (a : Nat) : AState :=
  if isMiniBlockAt s a then remove_mini_block s a
  else explicit_remove_block s a (home_address (sizeAt s a))

/-! ### Fit search (mm.c `find_fit`, lines 441-491) -/

/-- The loop state of `find_fit`: the better-fit switch, the remaining
candidate counter, the current best block and its leftover. -/
structure FitSt where
  count_switch : Bool
  counter : Nat
  best_block : Option Nat
  best_gap : Nat
deriving Repr, DecidableEq

/-- The body of the inner loop of `find_fit` for one candidate: on a fit,
either initialise the best block (entering better-fit mode) or replace it
when the candidate's leftover is strictly smaller. -/
def fitVisit (sz : Nat → Nat) (asize : Nat) (st : FitSt) (cur : Nat) : FitSt :=
  if asize ≤ sz cur then
    match st.best_block with
    | none =>
      { st with best_block := some cur, best_gap := sz cur - asize,
                count_switch := true }
    | some _ =>
      if sz cur - asize < st.best_gap then
        { st with best_gap := sz cur - asize, best_block := some cur }
      else st
  else st

/-- The inner loop of `find_fit` over one bucket chain: visit candidates
while they exist and have nonzero size; once in better-fit mode the counter
is decremented after every visit (including the one that found the first
fit) and hitting 0 returns the best block (`Sum.inl`); running off the chain
hands the loop state back to the outer loop (`Sum.inr`). -/
def fitBucket (sz : Nat → Nat) (asize : Nat) :
    List Nat → FitSt → Option Nat ⊕ FitSt
  | [], st => Sum.inr st
  | cur :: rest, st =>
    if 0 < sz cur then
      let st := fitVisit sz asize st cur
      if st.count_switch then
        if st.counter - 1 = 0 then Sum.inl st.best_block
        else fitBucket sz asize rest { st with counter := st.counter - 1 }
      else fitBucket sz asize rest st
    else Sum.inr st

/-- The outer loop of `find_fit` over the buckets from the starting index:
after finishing a bucket, return the best block if one was found there (the
next buckets only hold larger blocks), else move on. -/
def fitBuckets (sz : Nat → Nat) (asize : Nat) :
    List (List Nat) → FitSt → Option Nat
  | [], st => st.best_block
  | b :: rest, st =>
    match fitBucket sz asize b st with
    | Sum.inl r => r
    | Sum.inr st =>
      if st.best_block.isSome then st.best_block
      else fitBuckets sz asize rest st

/-- mm.c `find_fit`: better-fit search of the seglist from bucket `idx`,
with `count_switch = false`, `counter = 3` and no best block initially
(`best_gap` is uninitialised in the C and unread until a best block exists;
the model starts it at 0). -/
def find_fit (s : AState) (asize : Nat) (idx : Nat) : Option Nat :=
  fitBuckets (sizeAt s) asize (s.seglist.drop idx)
    { count_switch := false, counter := 3, best_block := none, best_gap := 0 }

/-! ### Coalescing, heap growth, init (mm.c lines 516-618) -/

/-- mm.c `coalesce_block`: merge a freed block with its free physical
neighbours, classified by the block's palloc flag and the successor's alloc
flag; returns the state and the address of the (possibly merged) free block.
In the two cases that read the predecessor the C dereferences it
unconditionally; `find_prev` returning `none` there is unreachable under
well-formedness (palloc = false guarantees a free predecessor above the
prologue) and the model returns the state unchanged. -/
def coalesce_block (s : AState) (a : Nat) : AState × Nat :=
  let next := find_next s a
  let prev_allocated := pallocAt s a
  let next_allocated := allocAt s next
  let mpalloc := mpallocAt s a
  if !prev_allocated && !next_allocated then
    match find_prev s a mpalloc with
    | none => (s, a)
    | some prev =>
      let prev_mpalloc := mpallocAt s prev
      let prev_palloc := pallocAt s prev
      let newSum := sizeAt s prev + sizeAt s a + sizeAt s next
      let s := removeVagueBlock s prev
      let s := removeVagueBlock s next
      let s := write_block s prev newSum prev_mpalloc prev_palloc false
      let s := insertVagueBlock s prev
      let s := update_next_palloc s prev
      let s := update_next_mpalloc s prev
      (s, prev)
  else if !next_allocated && prev_allocated then
    let newSum := sizeAt s a + sizeAt s next
    let s := removeVagueBlock s next
    let block_mpalloc := mpallocAt s a
    let block_palloc := pallocAt s a
    let s := write_block s a newSum block_mpalloc block_palloc false
    let s := insertVagueBlock s a
    let s := update_next_mpalloc s a
    let s := update_next_palloc s a
    (s, a)
  else if !prev_allocated && next_allocated then
    match find_prev s a mpalloc with
    | none => (s, a)
    | some prev =>
      let prev_mpalloc := mpallocAt s prev
      let prev_palloc := pallocAt s prev
      let newSum := sizeAt s prev + sizeAt s a
      let s := removeVagueBlock s prev
      let s := write_block s prev newSum prev_mpalloc prev_palloc false
      let s := insertVagueBlock s prev
      let s := update_next_palloc s prev
      let s := update_next_mpalloc s prev
      (s, prev)
  else
    let s := insertVagueBlock s a
    let s := update_next_palloc s a
    let s := update_next_mpalloc s a
    (s, a)

/-- mm.c `extend_heap`: grow the managed range, format the new region as one
free block starting at the old epilogue's address (`payload_to_header` of
the old break), write a fresh epilogue after it, and coalesce.  `mem_sbrk`
(modelled from the spec, see the header comment) succeeds exactly when the
new break stays within the capacity. -/
def extend_heap (s : AState) (size : Nat) (mpalloc palloc : Bool) :
    AState × Option Nat :=
  let size := round_up size dsize
  if s.heapTop + wsize + size ≤ s.maxHeap then
    let a := s.heapTop
    let s := { s with heapTop := s.heapTop + size }
    let s := write_block s a size mpalloc palloc false
    let s := write_epilogue s (isMiniBlockAt s a) false
    let r := coalesce_block s a
    (r.1, some r.2)
  else (s, none)

/-- mm.c `mm_init`: reset the free lists, obtain the two prologue words
(the second one, at address 8, is the initial epilogue: size 0, allocated,
palloc = true), set `heap_start`, and extend the heap by one chunk. -/
def mm_init (s : AState) : AState × Bool :=
  let s := { s with seglist := List.replicate 14 [], miniRoot := [] }
  if 16 ≤ s.maxHeap then
    let s := { s with heapTop := 8, epiPalloc := true, epiMpalloc := false,
                      initialized := true }
    match extend_heap s chunksize false true with
    | (s, some _) => (s, true)
    | (s, none) => (s, false)
  else (s, false)

/-! ### Splitting and the four entry points (mm.c lines 620-803) -/

/-- mm.c `split_block`: allocate `asize` bytes out of the block at `a`
(already marked allocated by `malloc`).  With a leftover of at least the
minimum block size, take the block out of its free structure, shrink it to
exactly `asize`, format the remainder as a free block right after it,
insert the remainder and refresh the flags of the block after the
remainder; otherwise allocate the whole block as-is.  (The C computes the
leftover with unsigned subtraction; callers guarantee `asize ≤ block_size`,
where it agrees with truncated subtraction.) -/
def split_block (s : AState) (a : Nat) (asize : Nat) : AState :=
  let block_size := sizeAt s a
  if min_block_size ≤ block_size - asize then
    let mpalloc := mpallocAt s a
    let palloc := pallocAt s a
    let s := removeVagueBlock s a
    let s := write_block s a asize mpalloc palloc true
    let block_next := find_next s a
    let s := write_block s block_next (block_size - asize)
      (isMiniBlockAt s a) true false
    let s := insertVagueBlock s block_next
    let s := update_next_mpalloc s block_next
    update_next_palloc s block_next
  else
    let mpalloc := mpallocAt s a
    let palloc := pallocAt s a
    let s := removeVagueBlock s a
    let s := write_block s a block_size mpalloc palloc true
    let s := update_next_palloc s a
    update_next_mpalloc s a

/-- The tail of mm.c `malloc` once a free block is in hand: mark it
allocated, split it, and return its payload address (`header_to_payload`,
wsize past the header). -/
def mm_alloc_finish (s : AState) (a asize : Nat) : AState × Option Nat :=
  let block_size := sizeAt s a
  let mpalloc := mpallocAt s a
  let palloc := pallocAt s a
  let s := write_block s a block_size mpalloc palloc true
  let s := split_block s a asize
  (s, some (a + wsize))

/-- The block-choosing step of mm.c `malloc`: a mini-sized request takes the
head of the mini list, falling back to a fit search from bucket 0; any other
request goes straight to the fit search at its home bucket. -/
def mm_choose (s : AState) (asize : Nat) : Option Nat :=
  if asize = MINI_BLOCK_SIZE then
    match s.miniRoot with
    | a :: _ => some a
    | [] => find_fit s asize 0
  else find_fit s asize (home_address asize)

/-- mm.c `malloc`: lazily initialise, return null (0 is the model's NULL)
for size 0, round the request up to payload + header aligned to 16, search
the mini list and/or the seglist, extend the heap on a miss (carrying the
old epilogue's flags), then mark, split and hand out the payload. -/
def mm_malloc (s : AState) (size : Nat) : AState × Option Nat :=
  let s := if s.initialized then s else (mm_init s).1
  if size = 0 then (s, none)
  else
    let asize := round_up (size + wsize) dsize
    match mm_choose s asize with
    | some a => mm_alloc_finish s a asize
    | none =>
      let old_mpalloc := mpallocAt s s.heapTop
      let old_palloc := pallocAt s s.heapTop
      let extendsize := mm_max asize chunksize
      match extend_heap s extendsize old_mpalloc old_palloc with
      | (s, none) => (s, none)
      | (s, some a) => mm_alloc_finish s a asize

/-- mm.c `free`: a null payload pointer is a no-op; otherwise mark the owning
block free, coalesce, and refresh the successor's flags. -/
def mm_free (s : AState) (bp : Nat) : AState :=
  if bp = 0 then s
  else
    let a := bp - wsize
    let size := sizeAt s a
    let mpalloc := mpallocAt s a
    let palloc := pallocAt s a
    let s := write_block s a size mpalloc palloc false
    let r := coalesce_block s a
    let s := update_next_mpalloc r.1 r.2
    update_next_palloc s r.2

/-- mm.c `realloc`: size 0 frees and returns null; a null pointer is
`malloc`; otherwise allocate fresh, copy (payload bytes are not tracked by
the arena model), free the old block; on allocation failure return null with
the original block untouched. -/
def mm_realloc (s : AState) (ptr : Nat) (size : Nat) : AState × Option Nat :=
  if size = 0 then (mm_free s ptr, none)
  else if ptr = 0 then mm_malloc s size
  else
    match mm_malloc s size with
    | (s, none) => (s, none)
    | (s, some newptr) =>
      let s := mm_free s ptr
      (s, some newptr)

/-- mm.c `calloc`: the element count and size are multiplied in `size_t`
(64-bit wrap-around); count 0 and a detected overflow return null before
anything is allocated; otherwise `malloc` and zero-fill (the fill is not
tracked by the arena model). -/
def mm_calloc (s : AState) (elements size : Nat) : AState × Option Nat :=
  let asize := (elements * size) % 2^64
  if elements = 0 then (s, none)
  else if asize / elements ≠ size then (s, none)
  else
    match mm_malloc s asize with
    | (s, none) => (s, none)
    | (s, some bp) => (s, some bp)


/-! ### Definitions used by the fit-search theorems -/

/-- Modelled from the spec (§4.5): among the first fitting block and a
window of further candidates, the best candidate is the one with the
strictly smallest leftover (`size` minus requested size), earliest first —
the current best is replaced whenever a (sufficient) candidate with a
strictly smaller leftover is found. -/
def bestCandidate (sz : Nat → Nat) (asize : Nat) (first : Nat)
    (cands : List Nat) : Nat :=
  cands.foldl
    (fun best c =>
      if asize ≤ sz c ∧ sz c - asize < sz best - asize then c else best)
    first

/-- A concrete allocator state for exercising `find_fit`: bucket 1 holds
four free blocks of sizes 64, 64, 64, 48. -/
def fitCex : AState :=
  { blocks := [⟨8, 64, false, true, false⟩, ⟨72, 64, false, true, false⟩,
               ⟨136, 64, false, true, false⟩, ⟨200, 48, false, true, false⟩],
    epiPalloc := false, epiMpalloc := false,
    miniRoot := [],
    seglist := [[], [8, 72, 136, 200], [], [], [], [], [], [], [], [], [], [],
                [], []],
    heapTop := 248, maxHeap := 1000, initialized := true }

/-! ## Theorems

The remainder of the file states and proves the verified properties; no
definitions below are part of the embedding. -/

/-! ### The metadata codec (bit-level lemmas) -/



/-! ### Well-formedness of the arena -/

/-- Physical well-formedness of a block sequence starting at address `a`
whose physical predecessor has allocation state `pa` and mini-ness `pm`:
addresses are contiguous, sizes are multiples of 16 no smaller than the
minimum block size, the palloc/mpalloc flags record the predecessor's
state, and no two adjacent blocks are both free (a block whose predecessor
is free is allocated). -/
def seg : Nat → Bool → Bool → List Block → Prop
  | _, _, _, [] => True
  | a, pa, pm, b :: l =>
    b.addr = a ∧ min_block_size ≤ b.size ∧ b.size % 16 = 0 ∧
    b.palloc = pa ∧ b.mpalloc = pm ∧ (pa = false → b.alloc = true) ∧
    seg (a + b.size) b.alloc (isMiniSize b.size) l

/-- The address one past a block sequence starting at `a`, together with the
allocation state and mini-ness of its last block (or of the presumed
predecessor when the sequence is empty): exactly what the epilogue word
must record. -/
def segEnd : Nat → Bool → Bool → List Block → Nat × Bool × Bool
  | a, pa, pm, [] => (a, pa, pm)
  | a, _, _, b :: l => segEnd (a + b.size) b.alloc (isMiniSize b.size) l

/-- No two physically adjacent blocks are both free. -/
def noAdjFree : List Block → Prop
  | [] => True
  | [_] => True
  | b :: c :: l => (b.alloc = true ∨ c.alloc = true) ∧ noAdjFree (c :: l)

/-- Every mini-list entry is the address of a free 16-byte block of the
arena. -/
def miniSound (s : AState) : Prop :=
  ∀ a ∈ s.miniRoot, ∃ b ∈ s.blocks, b.addr = a ∧ b.alloc = false ∧
    b.size = MINI_BLOCK_SIZE

/-- Every seglist entry is the address of a free normal block of the arena
sitting in its home bucket. -/
def segSound (s : AState) : Prop :=
  ∀ k a, a ∈ bucket s k → ∃ b ∈ s.blocks, b.addr = a ∧ b.alloc = false ∧
    b.size ≠ MINI_BLOCK_SIZE ∧ home_address b.size = k

/-- The allocator-state invariant for an initialized heap: the arena is a
well-formed chain from address 8 below the prologue-allocated boundary, the
epilogue word sits at the end of the chain and records the last block, the
seglist has its 14 buckets, and the two free-list structures hold exactly
addresses of free blocks of the right class, without duplicates. -/
structure Wf (s : AState) : Prop where
  init : s.initialized = true
  chain : seg 8 true false s.blocks
  top : segEnd 8 true false s.blocks = (s.heapTop, s.epiPalloc, s.epiMpalloc)
  seg_len : s.seglist.length = 14
  mini_sound : miniSound s
  seg_sound : segSound s
  mini_nodup : s.miniRoot.Nodup
  bucket_nodup : ∀ k, (bucket s k).Nodup

/-- A payload pointer of a currently allocated block (the precondition of
`release` and `resize`; anything else is undefined behaviour per the spec). -/
def validPayload (s : AState) (bp : Nat) : Prop :=
  ∃ b ∈ s.blocks, b.addr + wsize = bp ∧ b.alloc = true

/-- One external call to the allocator, with the documented preconditions on
pointers passed to `release`/`resize`. -/
inductive Step : AState → AState → Prop
  | alloc (s : AState) (size : Nat) : Step s (mm_malloc s size).1
  | release (s : AState) (bp : Nat) (h : bp = 0 ∨ validPayload s bp) :
      Step s (mm_free s bp)
  | resize (s : AState) (bp size : Nat) (h : bp = 0 ∨ validPayload s bp) :
      Step s (mm_realloc s bp size).1
  | zeroedAlloc (s : AState) (elements size : Nat) :
      Step s (mm_calloc s elements size).1

/-- The states reachable from the fresh process state by any sequence of
allocate / release / resize / zeroedAllocate calls. -/
inductive Reachable (M : Nat) : AState → Prop
  | base : Reachable M (freshState M)
  | step {s s' : AState} : Reachable M s → Step s s' → Reachable M s'

/-- The global invariant: an initialized state is well-formed; an
uninitialized state is still the fresh state. -/
def Inv (s : AState) : Prop :=
  if s.initialized = true then Wf s else s = freshState s.maxHeap

/-- Specification helper: drop the address of block `x` from its free
structure (the mini list for 16-byte blocks, the home bucket otherwise). -/
def eraseListed (s : AState) (x : Block) : AState :=
  if x.size = 16 then { s with miniRoot := s.miniRoot.erase x.addr }
  else { s with seglist := (s.seglist.set (home_address x.size)
    ((bucket s (home_address x.size)).erase x.addr)) }

/-- Specification helper: push the address of block `x` at the head of its
free structure. -/
def consListed (s : AState) (x : Block) : AState :=
  if x.size = 16 then { s with miniRoot := x.addr :: s.miniRoot }
  else { s with seglist := (s.seglist.set (home_address x.size)
    (x.addr :: bucket s (home_address x.size))) }


/-- The total byte size of a run of blocks. -/
def sumSizes : List Block → Nat
  | [] => 0
  | b :: t => b.size + sumSizes t


/-- The placement-relevant data of a block: address, size and whether it is
allocated (the palloc/mpalloc bookkeeping bits are excluded). -/
def blockLayout (b : Block) : Nat × Nat × Bool := (b.addr, b.size, b.alloc)

/-- Two arenas have the same layout when they agree block by block on
addresses, sizes and allocation status. -/
def sameLayout (l1 l2 : List Block) : Prop :=
  l1.map blockLayout = l2.map blockLayout

/-- An address is listed in the free structures: on the mini list or in some
seglist bucket. -/
def listedIn (s : AState) (a : Nat) : Prop :=
  a ∈ s.miniRoot ∨ ∃ k, a ∈ bucket s k


lemma size_mask_eq : size_mask = (2^60 - 1) <<< 4 := by
  norm_num [size_mask, Nat.shiftLeft_eq]

lemma testBit_size_mask (i : Nat) :
    size_mask.testBit i = (decide (4 ≤ i) && decide (i < 64)) := by
  rw [size_mask_eq, Nat.testBit_shiftLeft]
  rcases Nat.lt_or_ge i 4 with h | h
  · have h1 : decide (i ≥ 4) = false := by simp; omega
    rw [h1, Bool.false_and, Bool.false_and]
  · have h1 : decide (i ≥ 4) = true := by simp [h]
    rw [h1, Bool.true_and, Bool.true_and, Nat.testBit_two_pow_sub_one,
       decide_eq_decide]
    omega

lemma testBit_low4 {x : Nat} (h : x % 16 = 0) {i : Nat} (hi : i < 4) :
    x.testBit i = false := by
  have h0 : (x % 2^4).testBit i = (decide (i < 4) && x.testBit i) :=
    Nat.testBit_mod_two_pow x 4 i
  rw [show (2:Nat)^4 = 16 by norm_num, h] at h0
  simpa [hi] using h0.symm

lemma extract_size_lor (x c : Nat) (hc : c < 16) (h16 : x % 16 = 0)
    (h64 : x < 2^64) : extract_size (x ||| c) = x := by
  unfold extract_size
  apply Nat.eq_of_testBit_eq
  intro i
  rw [Nat.testBit_and, Nat.testBit_or, testBit_size_mask]
  rcases Nat.lt_or_ge i 4 with hi | hi
  · simp [testBit_low4 h16 hi, Nat.not_le.2 hi]
  · rcases Nat.lt_or_ge i 64 with hi64 | hi64
    · have hc' : c < 2^i :=
        lt_of_lt_of_le hc (by calc (16:Nat) = 2^4 := by norm_num
                                _ ≤ 2^i := Nat.pow_le_pow_right (by norm_num) hi)
      simp [Nat.testBit_lt_two_pow hc', hi, hi64]
    · have hx : x < 2^i :=
        lt_of_lt_of_le h64 (Nat.pow_le_pow_right (by norm_num) hi64)
      simp [Nat.testBit_lt_two_pow hx, Nat.not_lt.2 hi64]

lemma and_two_pow' (w i : Nat) : w &&& 2^i = (w.testBit i).toNat * 2^i :=
  Nat.and_two_pow w i

lemma extract_alloc_lor (x c : Nat) (h16 : x % 16 = 0) :
    extract_alloc (x ||| c) = c.testBit 0 := by
  unfold extract_alloc alloc_mask
  have h1 : (x ||| c) &&& 1 = ((x ||| c).testBit 0).toNat := by
    have := and_two_pow' (x ||| c) 0; simpa using this
  rw [h1, Nat.testBit_or, testBit_low4 h16 (by norm_num)]
  cases c.testBit 0 <;> simp

lemma extract_palloc_lor (x c : Nat) (h16 : x % 16 = 0) :
    extract_palloc (x ||| c) = c.testBit 1 := by
  unfold extract_palloc palloc_mask
  have h1 : (x ||| c) &&& 2 = ((x ||| c).testBit 1).toNat * 2 := by
    have := and_two_pow' (x ||| c) 1; simpa using this
  rw [h1, Nat.testBit_or, testBit_low4 h16 (by norm_num)]
  cases c.testBit 1 <;> simp [Nat.shiftRight_succ]

lemma extract_mpalloc_lor (x c : Nat) (h16 : x % 16 = 0) :
    extract_mpalloc (x ||| c) = c.testBit 2 := by
  unfold extract_mpalloc mpalloc_mask
  have h1 : (x ||| c) &&& 4 = ((x ||| c).testBit 2).toNat * 4 := by
    have := and_two_pow' (x ||| c) 2; simpa using this
  rw [h1, Nat.testBit_or, testBit_low4 h16 (by norm_num)]
  cases c.testBit 2 <;> simp [Nat.shiftRight_succ]

lemma pack_lor (size : Nat) (m p a : Bool) :
    pack size m p a = size |||
      ((if m then 4 else 0) ||| (if p then 2 else 0) ||| (if a then 1 else 0)) := by
  cases m <;> cases p <;> cases a <;>
    simp [pack, alloc_mask, palloc_mask, mpalloc_mask, Nat.lor_assoc, Nat.lor_comm]

/-- C8: the metadata codec round-trips — for every size that is a multiple
of 16 (callers guarantee pre-rounded sizes) and every combination of the
three flags, the extractors recover exactly what `pack` packed. -/
theorem pack_extract_roundtrip (size : Nat) (m p a : Bool) (h16 : size % 16 = 0)
    (h64 : size < 2^64) :
    extract_size (pack size m p a) = size ∧
    extract_alloc (pack size m p a) = a ∧
    extract_palloc (pack size m p a) = p ∧
    extract_mpalloc (pack size m p a) = m := by
  cases m <;> cases p <;> cases a <;> rw [pack_lor] <;>
    exact ⟨extract_size_lor _ _ (by decide) h16 h64,
           by rw [extract_alloc_lor _ _ h16]; decide,
           by rw [extract_palloc_lor _ _ h16]; decide,
           by rw [extract_mpalloc_lor _ _ h16]; decide⟩

/-- C8 (witness). -/
theorem pack_extract_roundtrip_witness :
    (32 % 16 = 0 ∧ 32 < 2^64) ∧
    (extract_size (pack 32 true false true) = 32 ∧
     extract_alloc (pack 32 true false true) = true ∧
     extract_palloc (pack 32 true false true) = false ∧
     extract_mpalloc (pack 32 true false true) = true) :=
  ⟨⟨by decide, by norm_num⟩,
    pack_extract_roundtrip 32 true false true (by decide) (by norm_num)⟩

/-! ### Helper lemmas for the fit search -/

lemma fitVisit_nofit {sz : Nat → Nat} {asize : Nat} {st : FitSt} {c : Nat}
    (h : ¬ asize ≤ sz c) : fitVisit sz asize st c = st := by
  simp [fitVisit, h]

lemma fitBucket_skip (sz : Nat → Nat) (asize : Nat) (pre rest : List Nat)
    (st : FitSt) (hsw : st.count_switch = false)
    (hpre : ∀ c ∈ pre, 0 < sz c ∧ sz c < asize) :
    fitBucket sz asize (pre ++ rest) st = fitBucket sz asize rest st := by
  induction pre with
  | nil => rfl
  | cons c t ih =>
    have hc := hpre c (by simp)
    have hvis : fitVisit sz asize st c = st :=
      fitVisit_nofit (Nat.not_le.2 hc.2)
    simp only [List.cons_append, fitBucket, hc.1, if_pos, hvis, hsw,
      Bool.false_eq_true, if_false, if_true]
    exact ih (fun x hx => hpre x (by simp [hx]))

lemma fitBucket_window (sz : Nat → Nat) (asize : Nat) :
    ∀ (tail : List Nat) (k best gap : Nat), 1 ≤ k →
    (∀ c ∈ tail.take k, 0 < sz c) → gap = sz best - asize →
    fitBucket sz asize tail ⟨true, k, some best, gap⟩ =
      Sum.inl (some (bestCandidate sz asize best (tail.take k))) ∨
    ∃ k' gap', fitBucket sz asize tail ⟨true, k, some best, gap⟩ =
      Sum.inr ⟨true, k', some (bestCandidate sz asize best (tail.take k)), gap'⟩ := by
  intro tail
  induction tail with
  | nil =>
    intro k best gap _ _ _
    exact Or.inr ⟨k, gap, by simp [fitBucket, bestCandidate]⟩
  | cons c t ih =>
    intro k best gap hk h hg
    have hc : 0 < sz c := h c (by cases k with
      | zero => omega
      | succ n => simp)
    have htake : (c :: t).take k = c :: t.take (k - 1) := by
      cases k with
      | zero => omega
      | succ n => simp
    set best1 : Nat :=
      if asize ≤ sz c ∧ sz c - asize < sz best - asize then c else best with hb1
    have hfold : bestCandidate sz asize best ((c :: t).take k) =
        bestCandidate sz asize best1 (t.take (k - 1)) := by
      rw [htake]; simp only [bestCandidate, List.foldl_cons]
    have hvis : fitVisit sz asize ⟨true, k, some best, gap⟩ c =
        ⟨true, k, some best1, sz best1 - asize⟩ := by
      by_cases hfit : asize ≤ sz c
      · by_cases himp : sz c - asize < sz best - asize
        · simp [fitVisit, hfit, hg, himp, hb1]
        · simp [fitVisit, hfit, hg, himp, hb1]
      · have : best1 = best := by simp [hb1, hfit]
        simp [fitVisit, hfit, this, hg]
    rw [hfold]
    by_cases hk1 : k - 1 = 0
    · left
      have : t.take (k - 1) = [] := by rw [hk1]; rfl
      rw [this]
      simp only [fitBucket, hc, if_pos, hvis, hk1, if_true, bestCandidate,
        List.foldl_nil]
    · have step : fitBucket sz asize (c :: t) ⟨true, k, some best, gap⟩ =
          fitBucket sz asize t ⟨true, k - 1, some best1, sz best1 - asize⟩ := by
        simp only [fitBucket, hc, if_pos, hvis, hk1, if_false]
      rw [step]
      exact ih (k - 1) best1 (sz best1 - asize) (by omega)
        (fun x hx => h x (by rw [htake]; simp [hx])) rfl

lemma fitBuckets_cons (sz : Nat → Nat) (asize : Nat) (b : List Nat)
    (rest : List (List Nat)) (st : FitSt) :
    fitBuckets sz asize (b :: rest) st =
      match fitBucket sz asize b st with
      | Sum.inl r => r
      | Sum.inr st =>
        if st.best_block.isSome then st.best_block
        else fitBuckets sz asize rest st := rfl

/-- C2 (amended): with the freed counter accounting of `find_fit`, once the
first sufficient block of a bucket is found, exactly 2 (not 3) further
candidates of that bucket are examined, and the best-leftover candidate
among the first fit and those up-to-2 further candidates is returned. -/
theorem find_fit_improvement_window (s : AState) (asize idx f : Nat)
    (pre tail : List Nat) (rest : List (List Nat))
    (hseg : s.seglist.drop idx = (pre ++ f :: tail) :: rest)
    (hpre : ∀ c ∈ pre, 0 < sizeAt s c ∧ sizeAt s c < asize)
    (hf : 0 < sizeAt s f) (hfit : asize ≤ sizeAt s f)
    (htail : ∀ c ∈ tail.take 2, 0 < sizeAt s c) :
    find_fit s asize idx =
      some (bestCandidate (sizeAt s) asize f (tail.take 2)) := by
  unfold find_fit
  rw [hseg, fitBuckets_cons,
    fitBucket_skip (sizeAt s) asize pre (f :: tail) _ rfl hpre]
  have hvis : fitVisit (sizeAt s) asize ⟨false, 3, none, 0⟩ f =
      ⟨true, 3, some f, sizeAt s f - asize⟩ := by
    simp [fitVisit, hfit]
  have step : fitBucket (sizeAt s) asize (f :: tail) ⟨false, 3, none, 0⟩ =
      fitBucket (sizeAt s) asize tail ⟨true, 2, some f, sizeAt s f - asize⟩ := by
    simp only [fitBucket, hf, if_pos, hvis]
    norm_num
  rw [step]
  rcases fitBucket_window (sizeAt s) asize tail 2 f (sizeAt s f - asize)
      (by omega) htail rfl with h | ⟨k', gap', h⟩
  · rw [h]
  · rw [h]; simp

/-- C2 (counterexample): on `fitCex` with request 48 starting at bucket 1,
the first fit is the block at 8 (leftover 16) and the best candidate among
the 3 further candidates 72, 136, 200 is the block at 200 (leftover 0),
yet `find_fit` returns the block at 8: the third further candidate is never
examined. -/
theorem find_fit_three_window_cex :
    find_fit fitCex 48 1 = some 8 ∧
    bestCandidate (sizeAt fitCex) 48 8 [72, 136, 200] = 200 ∧ (8 : Nat) ≠ 200 := by
  decide

/-- C2 (witness). -/
theorem find_fit_improvement_window_witness :
    find_fit fitCex 48 1 = some (bestCandidate (sizeAt fitCex) 48 8 ([72, 136, 200].take 2)) :=
  find_fit_improvement_window fitCex 48 1 8 [] [72, 136, 200]
    [[], [], [], [], [], [], [], [], [], [], [], []]
    (by decide) (by decide) (by decide) (by decide) (by decide)

/-! ### Entry-point helper lemmas -/

lemma mm_malloc_zero_snd (s : AState) : (mm_malloc s 0).2 = none := rfl

lemma mm_alloc_finish_snd (s : AState) (a asize : Nat) :
    (mm_alloc_finish s a asize).2 = some (a + wsize) := rfl

lemma extend_heap_none {s s' : AState} {sz : Nat} {m p : Bool}
    (h : extend_heap s sz m p = (s', none)) : s' = s := by
  unfold extend_heap at h
  by_cases hc : s.heapTop + wsize + round_up sz dsize ≤ s.maxHeap
  · simp only [if_pos hc] at h
    simp at h
  · simp only [if_neg hc] at h
    cases h; rfl

lemma mm_malloc_fail_frame (s : AState) (size : Nat)
    (hinit : s.initialized = true) (h : (mm_malloc s size).2 = none) :
    (mm_malloc s size).1 = s := by
  unfold mm_malloc at h ⊢
  simp only [hinit, if_true] at h ⊢
  by_cases hsz : size = 0
  · simp [hsz]
  · simp only [if_neg hsz] at h ⊢
    rcases hblk : mm_choose s (round_up (size + wsize) dsize) with _ | a
    · simp only [hblk] at h ⊢
      rcases hext : extend_heap s
          (mm_max (round_up (size + wsize) dsize) chunksize)
          (mpallocAt s s.heapTop) (pallocAt s s.heapTop) with ⟨s1, o⟩
      rcases o with _ | a
      · simp only [hext]
        exact extend_heap_none hext
      · simp only [hext, mm_alloc_finish_snd] at h
        exact absurd h (Option.some_ne_none _)
    · simp only [hblk, mm_alloc_finish_snd] at h
      exact absurd h (Option.some_ne_none _)

/-! ### Claim theorems: C9, C3, C6, C10, C4 -/

/-- C9: for every size ≥ 32, `home_address` maps the size to the bucket
index given by the 14-entry inclusive boundary table. -/
theorem home_address_buckets (size : Nat) (h : 32 ≤ size) :
    (size = 32 → home_address size = 0) ∧
    (33 ≤ size ∧ size ≤ 64 → home_address size = 1) ∧
    (65 ≤ size ∧ size ≤ 85 → home_address size = 2) ∧
    (86 ≤ size ∧ size ≤ 112 → home_address size = 3) ∧
    (113 ≤ size ∧ size ≤ 128 → home_address size = 4) ∧
    (129 ≤ size ∧ size ≤ 160 → home_address size = 5) ∧
    (161 ≤ size ∧ size ≤ 200 → home_address size = 6) ∧
    (201 ≤ size ∧ size ≤ 256 → home_address size = 7) ∧
    (257 ≤ size ∧ size ≤ 512 → home_address size = 8) ∧
    (513 ≤ size ∧ size ≤ 1024 → home_address size = 9) ∧
    (1025 ≤ size ∧ size ≤ 2048 → home_address size = 10) ∧
    (2049 ≤ size ∧ size ≤ 4096 → home_address size = 11) ∧
    (4097 ≤ size ∧ size ≤ 8192 → home_address size = 12) ∧
    (8193 ≤ size → home_address size = 13) := by
  refine ⟨?_, ?_, ?_, ?_, ?_, ?_, ?_, ?_, ?_, ?_, ?_, ?_, ?_, ?_⟩
  · intro h1
    unfold home_address
    rw [if_pos (show size = 32 by omega)]
  · intro h1
    unfold home_address
    rw [if_neg (show ¬(size = 32) by omega),
      if_pos (show 33 ≤ size ∧ size ≤ 64 by omega)]
  · intro h1
    unfold home_address
    rw [if_neg (show ¬(size = 32) by omega),
      if_neg (show ¬(33 ≤ size ∧ size ≤ 64) by omega),
      if_pos (show 65 ≤ size ∧ size ≤ 85 by omega)]
  · intro h1
    unfold home_address
    rw [if_neg (show ¬(size = 32) by omega),
      if_neg (show ¬(33 ≤ size ∧ size ≤ 64) by omega),
      if_neg (show ¬(65 ≤ size ∧ size ≤ 85) by omega),
      if_pos (show 86 ≤ size ∧ size ≤ 112 by omega)]
  · intro h1
    unfold home_address
    rw [if_neg (show ¬(size = 32) by omega),
      if_neg (show ¬(33 ≤ size ∧ size ≤ 64) by omega),
      if_neg (show ¬(65 ≤ size ∧ size ≤ 85) by omega),
      if_neg (show ¬(86 ≤ size ∧ size ≤ 112) by omega),
      if_pos (show 113 ≤ size ∧ size ≤ 128 by omega)]
  · intro h1
    unfold home_address
    rw [if_neg (show ¬(size = 32) by omega),
      if_neg (show ¬(33 ≤ size ∧ size ≤ 64) by omega),
      if_neg (show ¬(65 ≤ size ∧ size ≤ 85) by omega),
      if_neg (show ¬(86 ≤ size ∧ size ≤ 112) by omega),
      if_neg (show ¬(113 ≤ size ∧ size ≤ 128) by omega),
      if_pos (show 129 ≤ size ∧ size ≤ 160 by omega)]
  · intro h1
    unfold home_address
    rw [if_neg (show ¬(size = 32) by omega),
      if_neg (show ¬(33 ≤ size ∧ size ≤ 64) by omega),
      if_neg (show ¬(65 ≤ size ∧ size ≤ 85) by omega),
      if_neg (show ¬(86 ≤ size ∧ size ≤ 112) by omega),
      if_neg (show ¬(113 ≤ size ∧ size ≤ 128) by omega),
      if_neg (show ¬(129 ≤ size ∧ size ≤ 160) by omega),
      if_pos (show 161 ≤ size ∧ size ≤ 200 by omega)]
  · intro h1
    unfold home_address
    rw [if_neg (show ¬(size = 32) by omega),
      if_neg (show ¬(33 ≤ size ∧ size ≤ 64) by omega),
      if_neg (show ¬(65 ≤ size ∧ size ≤ 85) by omega),
      if_neg (show ¬(86 ≤ size ∧ size ≤ 112) by omega),
      if_neg (show ¬(113 ≤ size ∧ size ≤ 128) by omega),
      if_neg (show ¬(129 ≤ size ∧ size ≤ 160) by omega),
      if_neg (show ¬(161 ≤ size ∧ size ≤ 200) by omega),
      if_pos (show 201 ≤ size ∧ size ≤ 256 by omega)]
  · intro h1
    unfold home_address
    rw [if_neg (show ¬(size = 32) by omega),
      if_neg (show ¬(33 ≤ size ∧ size ≤ 64) by omega),
      if_neg (show ¬(65 ≤ size ∧ size ≤ 85) by omega),
      if_neg (show ¬(86 ≤ size ∧ size ≤ 112) by omega),
      if_neg (show ¬(113 ≤ size ∧ size ≤ 128) by omega),
      if_neg (show ¬(129 ≤ size ∧ size ≤ 160) by omega),
      if_neg (show ¬(161 ≤ size ∧ size ≤ 200) by omega),
      if_neg (show ¬(201 ≤ size ∧ size ≤ 256) by omega),
      if_pos (show 257 ≤ size ∧ size ≤ 512 by omega)]
  · intro h1
    unfold home_address
    rw [if_neg (show ¬(size = 32) by omega),
      if_neg (show ¬(33 ≤ size ∧ size ≤ 64) by omega),
      if_neg (show ¬(65 ≤ size ∧ size ≤ 85) by omega),
      if_neg (show ¬(86 ≤ size ∧ size ≤ 112) by omega),
      if_neg (show ¬(113 ≤ size ∧ size ≤ 128) by omega),
      if_neg (show ¬(129 ≤ size ∧ size ≤ 160) by omega),
      if_neg (show ¬(161 ≤ size ∧ size ≤ 200) by omega),
      if_neg (show ¬(201 ≤ size ∧ size ≤ 256) by omega),
      if_neg (show ¬(257 ≤ size ∧ size ≤ 512) by omega),
      if_pos (show 513 ≤ size ∧ size ≤ 1024 by omega)]
  · intro h1
    unfold home_address
    rw [if_neg (show ¬(size = 32) by omega),
      if_neg (show ¬(33 ≤ size ∧ size ≤ 64) by omega),
      if_neg (show ¬(65 ≤ size ∧ size ≤ 85) by omega),
      if_neg (show ¬(86 ≤ size ∧ size ≤ 112) by omega),
      if_neg (show ¬(113 ≤ size ∧ size ≤ 128) by omega),
      if_neg (show ¬(129 ≤ size ∧ size ≤ 160) by omega),
      if_neg (show ¬(161 ≤ size ∧ size ≤ 200) by omega),
      if_neg (show ¬(201 ≤ size ∧ size ≤ 256) by omega),
      if_neg (show ¬(257 ≤ size ∧ size ≤ 512) by omega),
      if_neg (show ¬(513 ≤ size ∧ size ≤ 1024) by omega),
      if_pos (show 1025 ≤ size ∧ size ≤ 2048 by omega)]
  · intro h1
    unfold home_address
    rw [if_neg (show ¬(size = 32) by omega),
      if_neg (show ¬(33 ≤ size ∧ size ≤ 64) by omega),
      if_neg (show ¬(65 ≤ size ∧ size ≤ 85) by omega),
      if_neg (show ¬(86 ≤ size ∧ size ≤ 112) by omega),
      if_neg (show ¬(113 ≤ size ∧ size ≤ 128) by omega),
      if_neg (show ¬(129 ≤ size ∧ size ≤ 160) by omega),
      if_neg (show ¬(161 ≤ size ∧ size ≤ 200) by omega),
      if_neg (show ¬(201 ≤ size ∧ size ≤ 256) by omega),
      if_neg (show ¬(257 ≤ size ∧ size ≤ 512) by omega),
      if_neg (show ¬(513 ≤ size ∧ size ≤ 1024) by omega),
      if_neg (show ¬(1025 ≤ size ∧ size ≤ 2048) by omega),
      if_pos (show 2049 ≤ size ∧ size ≤ 4096 by omega)]
  · intro h1
    unfold home_address
    rw [if_neg (show ¬(size = 32) by omega),
      if_neg (show ¬(33 ≤ size ∧ size ≤ 64) by omega),
      if_neg (show ¬(65 ≤ size ∧ size ≤ 85) by omega),
      if_neg (show ¬(86 ≤ size ∧ size ≤ 112) by omega),
      if_neg (show ¬(113 ≤ size ∧ size ≤ 128) by omega),
      if_neg (show ¬(129 ≤ size ∧ size ≤ 160) by omega),
      if_neg (show ¬(161 ≤ size ∧ size ≤ 200) by omega),
      if_neg (show ¬(201 ≤ size ∧ size ≤ 256) by omega),
      if_neg (show ¬(257 ≤ size ∧ size ≤ 512) by omega),
      if_neg (show ¬(513 ≤ size ∧ size ≤ 1024) by omega),
      if_neg (show ¬(1025 ≤ size ∧ size ≤ 2048) by omega),
      if_neg (show ¬(2049 ≤ size ∧ size ≤ 4096) by omega),
      if_pos (show 4097 ≤ size ∧ size ≤ 8192 by omega)]
  · intro h1
    unfold home_address
    rw [if_neg (show ¬(size = 32) by omega),
      if_neg (show ¬(33 ≤ size ∧ size ≤ 64) by omega),
      if_neg (show ¬(65 ≤ size ∧ size ≤ 85) by omega),
      if_neg (show ¬(86 ≤ size ∧ size ≤ 112) by omega),
      if_neg (show ¬(113 ≤ size ∧ size ≤ 128) by omega),
      if_neg (show ¬(129 ≤ size ∧ size ≤ 160) by omega),
      if_neg (show ¬(161 ≤ size ∧ size ≤ 200) by omega),
      if_neg (show ¬(201 ≤ size ∧ size ≤ 256) by omega),
      if_neg (show ¬(257 ≤ size ∧ size ≤ 512) by omega),
      if_neg (show ¬(513 ≤ size ∧ size ≤ 1024) by omega),
      if_neg (show ¬(1025 ≤ size ∧ size ≤ 2048) by omega),
      if_neg (show ¬(2049 ≤ size ∧ size ≤ 4096) by omega),
      if_neg (show ¬(4097 ≤ size ∧ size ≤ 8192) by omega)]

/-- C9 (witness). -/
theorem home_address_buckets_witness :
    32 ≤ 8200 ∧ home_address 8200 = 13 :=
  ⟨by decide,
    (home_address_buckets 8200
      (by decide)).2.2.2.2.2.2.2.2.2.2.2.2.2 (by decide)⟩

set_option maxHeartbeats 2000000 in
/-- C3 (counterexample): on the uninitialized fresh state, `allocate(0)`
returns null but does not leave the allocator state unchanged — `malloc`
runs the lazy `mm_init` (which grows the heap by a prologue and one chunk)
before it checks for size 0. -/
theorem malloc_zero_fresh_side_effect :
    (mm_malloc (freshState 1000) 0).2 = none ∧
    (mm_malloc (freshState 1000) 0).1 ≠ freshState 1000 := by
  decide

/-- C3 (amended): `allocate(0)` always returns a null pointer, and leaves
the allocator state unchanged provided the allocator is already
initialized; on the uninitialized fresh state it first runs the lazy heap
initialisation as a side effect. -/
theorem malloc_zero_null_initialized_frame (s : AState) :
    (mm_malloc s 0).2 = none ∧
    (s.initialized = true → (mm_malloc s 0).1 = s) := by
  refine ⟨rfl, fun h => ?_⟩
  unfold mm_malloc
  simp only [h, if_true]

set_option maxHeartbeats 2000000 in
/-- C3 (witness). -/
theorem malloc_zero_null_initialized_frame_witness :
    (mm_malloc (freshState 1000) 0).1.initialized = true ∧
    (mm_malloc ((mm_malloc (freshState 1000) 0).1) 0).1 =
      (mm_malloc (freshState 1000) 0).1 :=
  ⟨by decide, (malloc_zero_null_initialized_frame _).2 (by decide)⟩

/-- C6: `zeroedAllocate(count, size)` returns null when the count is 0, and
returns null when the 64-bit product `count * size` overflows; in both
cases the state is returned unchanged — nothing is allocated or mutated. -/
theorem calloc_zero_count_and_overflow (s : AState) (elements size : Nat)
    (hs : size < 2^64) :
    (elements = 0 → mm_calloc s elements size = (s, none)) ∧
    (2^64 ≤ elements * size → mm_calloc s elements size = (s, none)) := by
  constructor
  · intro h; subst h; rfl
  · intro hov
    have he : elements ≠ 0 := by
      rintro rfl
      simp at hov
    have hne : (elements * size) % 2^64 / elements ≠ size := by
      have h1 : (elements * size) % 2^64 < 2^64 :=
        Nat.mod_lt _ (by positivity)
      have h2 : (elements * size) % 2^64 < elements * size :=
        lt_of_lt_of_le h1 hov
      have h3 : (elements * size) % 2^64 / elements < size := by
        rw [Nat.div_lt_iff_lt_mul (Nat.pos_of_ne_zero he)]
        exact lt_of_lt_of_le h2 (le_of_eq (Nat.mul_comm _ _))
      omega
    unfold mm_calloc
    simp only [if_neg he, if_pos hne]

/-- C6 (witness). -/
theorem calloc_zero_count_and_overflow_witness :
    (2:Nat)^63 < 2^64 ∧ 2^64 ≤ 2 * 2^63 ∧
    mm_calloc (freshState 5) 2 (2^63) = (freshState 5, none) :=
  ⟨by norm_num, by norm_num,
    (calloc_zero_count_and_overflow (freshState 5) 2 (2^63)
      (by norm_num)).2 (by norm_num)⟩

/-- C10: for every nonzero count, `zeroedAllocate(count, 0)` returns null:
the product is 0, the overflow check passes, and the underlying
`allocate(0)` returns null. -/
theorem calloc_zero_size_null (s : AState) (elements : Nat)
    (he : elements ≠ 0) : (mm_calloc s elements 0).2 = none := by
  have hz : (mm_malloc s 0).2 = none := mm_malloc_zero_snd s
  unfold mm_calloc
  simp only [Nat.mul_zero, Nat.zero_mod, Nat.zero_div, if_neg he]
  rw [if_neg (by simp)]
  rcases hmm : mm_malloc s 0 with ⟨s1, o⟩
  rw [hmm] at hz
  rcases o with _ | a
  · simp [hmm]
  · simp at hz

/-- C10 (witness). -/
theorem calloc_zero_size_null_witness :
    (3 : Nat) ≠ 0 ∧ (mm_calloc (freshState 7) 3 0).2 = none :=
  ⟨by decide, calloc_zero_size_null (freshState 7) 3 (by decide)⟩

/-- C4: for every non-null `ptr` and nonzero `size`, if the fresh
allocation inside `resize` fails, `resize` returns null and the allocator
state — in particular the original block, its allocation status, size and
payload — is completely untouched. -/
theorem realloc_fail_original_untouched (s : AState) (ptr size : Nat)
    (hp : ptr ≠ 0) (hs : size ≠ 0) (hinit : s.initialized = true)
    (hfail : (mm_malloc s size).2 = none) :
    mm_realloc s ptr size = (s, none) := by
  have h1 : (mm_malloc s size).1 = s :=
    mm_malloc_fail_frame s size hinit hfail
  unfold mm_realloc
  rw [if_neg hs, if_neg hp]
  rcases hmm : mm_malloc s size with ⟨s1, o⟩
  rw [hmm] at hfail h1
  rcases o with _ | a
  · simp only []
    rw [show s1 = s from h1]
  · simp at hfail

set_option maxHeartbeats 4000000 in
/-- C4 (witness). -/
theorem realloc_fail_original_untouched_witness :
    ((mm_malloc (freshState 528) 0).1.initialized = true ∧
      (mm_malloc ((mm_malloc (freshState 528) 0).1) 4000).2 = none) ∧
    mm_realloc ((mm_malloc (freshState 528) 0).1) 16 4000 =
      ((mm_malloc (freshState 528) 0).1, none) :=
  ⟨⟨by decide, by decide⟩,
    realloc_fail_original_untouched _ 16 4000 (by decide) (by decide)
      (by decide) (by decide)⟩

/-! ### Basic facts about `seg`, `segEnd` and `storeBlock` -/

lemma seg_append (P Q : List Block) : ∀ (a : Nat) (pa pm : Bool),
    seg a pa pm (P ++ Q) ↔ seg a pa pm P ∧
      seg (segEnd a pa pm P).1 (segEnd a pa pm P).2.1 (segEnd a pa pm P).2.2
        Q := by
  induction P with
  | nil => intro a pa pm; simp [seg, segEnd]
  | cons b t ih =>
    intro a pa pm
    simp only [List.cons_append, seg, segEnd, List.append_eq]
    rw [ih]
    tauto

lemma segEnd_append (P Q : List Block) : ∀ (a : Nat) (pa pm : Bool),
    segEnd a pa pm (P ++ Q) =
      segEnd (segEnd a pa pm P).1 (segEnd a pa pm P).2.1
        (segEnd a pa pm P).2.2 Q := by
  induction P with
  | nil => intro a pa pm; simp [segEnd]
  | cons b t ih =>
    intro a pa pm
    simp only [List.cons_append, segEnd, List.append_eq]
    rw [ih]

lemma segEnd_ge (l : List Block) : ∀ (a : Nat) (pa pm : Bool),
    a ≤ (segEnd a pa pm l).1 := by
  induction l with
  | nil => intro a _ _; exact Nat.le_refl a
  | cons b t ih =>
    intro a pa pm
    exact Nat.le_trans (Nat.le_add_right a b.size) (ih (a + b.size) _ _)

lemma seg_mem (l : List Block) : ∀ (a : Nat) (pa pm : Bool), seg a pa pm l →
    ∀ b ∈ l, a ≤ b.addr ∧ b.addr + b.size ≤ (segEnd a pa pm l).1 ∧
      min_block_size ≤ b.size ∧ b.size % 16 = 0 ∧ b.addr % 16 = a % 16 := by
  induction l with
  | nil => intro a pa pm _ b hb; cases hb
  | cons c t ih =>
    intro a pa pm h b hb
    obtain ⟨ha, hs, hm, _, _, _, ht⟩ := h
    rcases List.mem_cons.1 hb with hb | hb
    · subst hb
      refine ⟨Nat.le_of_eq ha.symm, ?_, hs, hm, by rw [ha]⟩
      calc b.addr + b.size = a + b.size := by rw [ha]
        _ ≤ (segEnd (a + b.size) b.alloc (isMiniSize b.size) t).1 :=
            segEnd_ge t _ _ _
        _ = (segEnd a pa pm (b :: t)).1 := rfl
    · obtain ⟨h1, h2, h3, h4, h5⟩ := ih (a + c.size) c.alloc _ ht b hb
      refine ⟨Nat.le_trans (Nat.le_add_right a c.size) h1, h2, h3, h4, ?_⟩
      rw [h5]
      omega

lemma seg_front (P : List Block) (b : Block) (S : List Block)
    {a : Nat} {pa pm : Bool} (h : seg a pa pm (P ++ b :: S)) :
    ∀ c ∈ P, c.addr + c.size ≤ b.addr ∧ c.addr < b.addr := by
  intro c hc
  obtain ⟨hP, hQ⟩ := (seg_append P (b :: S) a pa pm).1 h
  obtain ⟨hb, -⟩ := hQ
  obtain ⟨-, h2, h3, -⟩ := seg_mem P a pa pm hP c hc
  constructor
  · omega
  · have : min_block_size ≤ c.size := h3
    unfold min_block_size dsize wsize at this
    omega

lemma seg_suffix (P : List Block) (b : Block) (S : List Block)
    {a : Nat} {pa pm : Bool} (h : seg a pa pm (P ++ b :: S)) :
    ∀ c ∈ S, b.addr + b.size ≤ c.addr := by
  intro c hc
  obtain ⟨hP, hQ⟩ := (seg_append P (b :: S) a pa pm).1 h
  obtain ⟨hb, -, -, -, -, -, ht⟩ := hQ
  obtain ⟨h1, -⟩ := seg_mem S _ _ _ ht c hc
  omega

lemma storeBlock_decomp (P M S : List Block) (nb : Block)
    (hP : ∀ c ∈ P, c.addr < nb.addr)
    (hM : ∀ c ∈ M, nb.addr ≤ c.addr ∧ c.addr < nb.addr + nb.size)
    (hS : ∀ c ∈ S, nb.addr + nb.size ≤ c.addr) :
    storeBlock (P ++ M ++ S) nb = P ++ nb :: S := by
  unfold storeBlock
  rw [List.filter_append, List.filter_append, List.filter_append,
    List.filter_append]
  have e1 : P.filter (fun c => c.addr < nb.addr) = P :=
    List.filter_eq_self.2 (fun c hc => by
      simpa using hP c hc)
  have e2 : M.filter (fun c => c.addr < nb.addr) = [] :=
    List.filter_eq_nil_iff.2 (fun c hc => by
      simpa using Nat.not_lt.2 (hM c hc).1)
  have e3 : S.filter (fun c => c.addr < nb.addr) = [] :=
    List.filter_eq_nil_iff.2 (fun c hc => by
      simpa using Nat.not_lt.2 (Nat.le_trans (Nat.le_add_right _ _) (hS c hc)))
  have e4 : P.filter (fun c => nb.addr + nb.size ≤ c.addr) = [] :=
    List.filter_eq_nil_iff.2 (fun c hc => by
      have := hP c hc
      simpa using Nat.not_le.2 (by omega))
  have e5 : M.filter (fun c => nb.addr + nb.size ≤ c.addr) = [] :=
    List.filter_eq_nil_iff.2 (fun c hc => by
      simpa using Nat.not_le.2 (hM c hc).2)
  have e6 : S.filter (fun c => nb.addr + nb.size ≤ c.addr) = S :=
    List.filter_eq_self.2 (fun c hc => by simpa using hS c hc)
  rw [e1, e2, e3, e4, e5, e6]
  simp

lemma find?_decomp (P S : List Block) (b : Block)
    (hP : ∀ c ∈ P, c.addr ≠ b.addr) :
    (P ++ b :: S).find? (fun c => c.addr == b.addr) = some b := by
  induction P with
  | nil => simp [List.find?]
  | cons c t ih =>
    have hc : (c.addr == b.addr) = false := by
      simpa using hP c (by simp)
    rw [List.cons_append, List.find?_cons, hc]
    exact ih (fun x hx => hP x (by simp [hx]))

lemma readBlock_decomp (s : AState) (P S : List Block) (b : Block)
    (hs : s.blocks = P ++ b :: S) (hP : ∀ c ∈ P, c.addr ≠ b.addr) :
    readBlock s b.addr = b := by
  unfold readBlock
  rw [hs, find?_decomp P S b hP]

lemma readBlock_none (s : AState) (a : Nat)
    (h : ∀ c ∈ s.blocks, c.addr ≠ a) (htop : a = s.heapTop) :
    readBlock s a = ⟨a, 0, true, s.epiPalloc, s.epiMpalloc⟩ := by
  unfold readBlock
  have : s.blocks.find? (fun c => c.addr == a) = none := by
    rw [List.find?_eq_none]
    intro c hc
    simpa using h c hc
  rw [this, htop]
  simp

/-! ### Effect lemmas for the flag-refresh helpers -/

lemma isEpilogue_ne (s : AState) (a : Nat) (h : a ≠ s.heapTop) :
    isEpilogue s a = false := by
  unfold isEpilogue
  simp [h]

lemma isEpilogue_top (s : AState) (h : ∀ c ∈ s.blocks, c.addr ≠ s.heapTop) :
    isEpilogue s s.heapTop = true := by
  unfold isEpilogue allocAt sizeAt
  rw [readBlock_none s s.heapTop h rfl]
  simp

lemma update_next_palloc_mid (s : AState) (P S : List Block) (a : Nat)
    (b c : Block) (hba : b.addr = a)
    (hs : s.blocks = P ++ b :: c :: S)
    (hP : ∀ x ∈ P, x.addr < b.addr)
    (hadj : c.addr = b.addr + b.size)
    (hbc : b.addr < c.addr)
    (hS : ∀ x ∈ S, c.addr + c.size ≤ x.addr)
    (hctop : c.addr ≠ s.heapTop)
    (hcsz : 0 < c.size) :
    update_next_palloc s a =
      { s with blocks :=
          P ++ b :: (⟨c.addr, c.size, c.alloc, b.alloc, c.mpalloc⟩ : Block)
            :: S } := by
  subst hba
  have hrb : readBlock s b.addr = b :=
    readBlock_decomp s P (c :: S) b hs (fun x hx => Nat.ne_of_lt (hP x hx))
  have hrc : readBlock s c.addr = c := by
    apply readBlock_decomp s (P ++ [b]) S c (by simp [hs])
    intro x hx
    rcases List.mem_append.1 hx with h | h
    · exact Nat.ne_of_lt (Nat.lt_trans (hP x h) hbc)
    · simp at h; subst h; exact Nat.ne_of_lt hbc
  have hst : storeBlock s.blocks
      ⟨c.addr, c.size, c.alloc, b.alloc, c.mpalloc⟩ =
      P ++ b :: (⟨c.addr, c.size, c.alloc, b.alloc, c.mpalloc⟩ : Block)
        :: S := by
    rw [hs, show P ++ b :: c :: S = (P ++ [b]) ++ [c] ++ S by simp]
    rw [storeBlock_decomp (P ++ [b]) [c] S _ ?_ ?_ ?_]
    · simp
    · intro x hx
      rcases List.mem_append.1 hx with h | h
      · exact Nat.lt_trans (hP x h) hbc
      · simp at h; subst h; exact hbc
    · intro x hx
      simp at hx; subst hx
      refine ⟨by simp, ?_⟩
      simp
      omega
    · exact hS
  unfold update_next_palloc
  simp only [allocAt, sizeAt, mpallocAt, find_next, hrb]
  rw [← hadj, isEpilogue_ne s c.addr hctop]
  simp only [Bool.false_eq_true, if_false, hrc]
  unfold write_block
  rw [hst]

lemma update_next_palloc_last (s : AState) (P : List Block) (a : Nat)
    (b : Block) (hba : b.addr = a)
    (hs : s.blocks = P ++ [b])
    (hP : ∀ x ∈ P, x.addr < b.addr)
    (htop : b.addr + b.size = s.heapTop)
    (hbsz : 0 < b.size) :
    update_next_palloc s a = { s with epiPalloc := b.alloc } := by
  subst hba
  have hrb : readBlock s b.addr = b :=
    readBlock_decomp s P [] b hs (fun x hx => Nat.ne_of_lt (hP x hx))
  have hne : ∀ c ∈ s.blocks, c.addr ≠ s.heapTop := by
    intro c hc
    rw [hs] at hc
    rcases List.mem_append.1 hc with h | h
    · have := hP c h; omega
    · simp at h; subst h; omega
  have hrt : readBlock s s.heapTop =
      ⟨s.heapTop, 0, true, s.epiPalloc, s.epiMpalloc⟩ :=
    readBlock_none s s.heapTop hne rfl
  unfold update_next_palloc
  simp only [allocAt, sizeAt, mpallocAt, find_next, hrb]
  rw [htop, isEpilogue_top s hne]
  simp only [if_true, hrt]
  rfl

lemma update_next_mpalloc_mid (s : AState) (P S : List Block) (a : Nat)
    (b c : Block) (hba : b.addr = a)
    (hs : s.blocks = P ++ b :: c :: S)
    (hP : ∀ x ∈ P, x.addr < b.addr)
    (hadj : c.addr = b.addr + b.size)
    (hbc : b.addr < c.addr)
    (hS : ∀ x ∈ S, c.addr + c.size ≤ x.addr)
    (hctop : c.addr ≠ s.heapTop)
    (hcsz : 0 < c.size) :
    update_next_mpalloc s a =
      { s with blocks :=
          P ++ b :: (⟨c.addr, c.size, c.alloc, c.palloc,
            isMiniSize b.size⟩ : Block) :: S } := by
  subst hba
  have hrb : readBlock s b.addr = b :=
    readBlock_decomp s P (c :: S) b hs (fun x hx => Nat.ne_of_lt (hP x hx))
  have hrc : readBlock s c.addr = c := by
    apply readBlock_decomp s (P ++ [b]) S c (by simp [hs])
    intro x hx
    rcases List.mem_append.1 hx with h | h
    · exact Nat.ne_of_lt (Nat.lt_trans (hP x h) hbc)
    · simp at h; subst h; exact Nat.ne_of_lt hbc
  have hst : storeBlock s.blocks
      ⟨c.addr, c.size, c.alloc, c.palloc, isMiniSize b.size⟩ =
      P ++ b :: (⟨c.addr, c.size, c.alloc, c.palloc,
        isMiniSize b.size⟩ : Block) :: S := by
    rw [hs, show P ++ b :: c :: S = (P ++ [b]) ++ [c] ++ S by simp]
    rw [storeBlock_decomp (P ++ [b]) [c] S _ ?_ ?_ ?_]
    · simp
    · intro x hx
      rcases List.mem_append.1 hx with h | h
      · exact Nat.lt_trans (hP x h) hbc
      · simp at h; subst h; exact hbc
    · intro x hx
      simp at hx; subst hx
      refine ⟨by simp, ?_⟩
      simp
      omega
    · exact hS
  unfold update_next_mpalloc
  simp only [allocAt, sizeAt, pallocAt, isMiniBlockAt, find_next, hrb]
  rw [← hadj, isEpilogue_ne s c.addr hctop]
  simp only [Bool.false_eq_true, if_false, hrc]
  unfold write_block
  rw [hst]

lemma update_next_mpalloc_last (s : AState) (P : List Block) (a : Nat)
    (b : Block) (hba : b.addr = a)
    (hs : s.blocks = P ++ [b])
    (hP : ∀ x ∈ P, x.addr < b.addr)
    (htop : b.addr + b.size = s.heapTop)
    (hbsz : 0 < b.size) :
    update_next_mpalloc s a =
      { s with epiMpalloc := isMiniSize b.size } := by
  subst hba
  have hrb : readBlock s b.addr = b :=
    readBlock_decomp s P [] b hs (fun x hx => Nat.ne_of_lt (hP x hx))
  have hne : ∀ c ∈ s.blocks, c.addr ≠ s.heapTop := by
    intro c hc
    rw [hs] at hc
    rcases List.mem_append.1 hc with h | h
    · have := hP c h; omega
    · simp at h; subst h; omega
  have hrt : readBlock s s.heapTop =
      ⟨s.heapTop, 0, true, s.epiPalloc, s.epiMpalloc⟩ :=
    readBlock_none s s.heapTop hne rfl
  unfold update_next_mpalloc
  simp only [allocAt, sizeAt, pallocAt, isMiniBlockAt, find_next, hrb]
  rw [htop, isEpilogue_top s hne]
  simp only [if_true, hrt]
  rfl

/-! ### Effect lemmas for writes and free-list management -/

lemma write_block_decomp (s : AState) (P M S : List Block) (a sz : Nat)
    (m p al : Bool) (hs : s.blocks = P ++ M ++ S)
    (hP : ∀ c ∈ P, c.addr < a) (hM : ∀ c ∈ M, a ≤ c.addr ∧ c.addr < a + sz)
    (hS : ∀ c ∈ S, a + sz ≤ c.addr) :
    write_block s a sz m p al =
      { s with blocks := P ++ (⟨a, sz, al, p, m⟩ : Block) :: S } := by
  unfold write_block
  rw [hs, storeBlock_decomp P M S ⟨a, sz, al, p, m⟩ hP hM hS]

lemma block_eta (c : Block) :
    (⟨c.addr, c.size, c.alloc, c.palloc, c.mpalloc⟩ : Block) = c := rfl

lemma bucket_set_self (s : AState) (k : Nat) (l : List Nat)
    (hk : k < s.seglist.length) :
    bucket { s with seglist := s.seglist.set k l } k = l := by
  unfold bucket
  simp [List.getD_eq_getElem?_getD, List.getElem?_set_self (by simpa using hk)]

lemma bucket_set_ne (s : AState) (k j : Nat) (l : List Nat) (h : k ≠ j) :
    bucket { s with seglist := s.seglist.set k l } j = bucket s j := by
  unfold bucket
  simp [List.getD_eq_getElem?_getD, List.getElem?_set_ne h]

lemma insert_mini_unfold (s : AState) (a : Nat) :
    insert_mini_block s a =
      update_next_mpalloc (update_next_palloc
        { s with miniRoot := a :: s.miniRoot } a) a := rfl

lemma remove_mini_head (s : AState) (a : Nat) (rest : List Nat)
    (h : s.miniRoot = a :: rest) :
    remove_mini_block s a =
      update_next_mpalloc (update_next_palloc
        { s with miniRoot := rest } a) a := by
  unfold remove_mini_block
  rw [h]
  simp

lemma remove_mini_tail (s : AState) (a r : Nat) (rest : List Nat)
    (h : s.miniRoot = r :: rest) (hne : r ≠ a) (hmem : a ∈ rest) :
    remove_mini_block s a = { s with miniRoot := r :: rest.erase a } := by
  unfold remove_mini_block
  rw [h]
  simp [hne, hmem]

lemma insertVague_normal (s : AState) (P S : List Block) (a : Nat)
    (b : Block) (hba : b.addr = a)
    (hs : s.blocks = P ++ b :: S) (hP : ∀ x ∈ P, x.addr ≠ b.addr)
    (hsz : b.size ≠ 16) :
    insertVagueBlock s a =
      { s with seglist := (s.seglist.set (home_address b.size)
          (b.addr :: bucket s (home_address b.size))) } := by
  subst hba
  have hrb := readBlock_decomp s P S b hs hP
  unfold insertVagueBlock isMiniBlockAt isMiniSize sizeAt MINI_BLOCK_SIZE
  rw [hrb]
  rw [if_neg (by simpa using hsz)]
  rfl

lemma insertVague_mini (s : AState) (P S : List Block) (a : Nat)
    (b : Block) (hba : b.addr = a)
    (hs : s.blocks = P ++ b :: S) (hP : ∀ x ∈ P, x.addr ≠ b.addr)
    (hsz : b.size = 16) :
    insertVagueBlock s a = insert_mini_block s a := by
  subst hba
  have hrb := readBlock_decomp s P S b hs hP
  unfold insertVagueBlock isMiniBlockAt isMiniSize sizeAt MINI_BLOCK_SIZE
  rw [hrb]
  rw [if_pos (by simpa using hsz)]

lemma removeVague_normal (s : AState) (P S : List Block) (a : Nat)
    (b : Block) (hba : b.addr = a)
    (hs : s.blocks = P ++ b :: S) (hP : ∀ x ∈ P, x.addr ≠ b.addr)
    (hsz : b.size ≠ 16) :
    removeVagueBlock s a =
      { s with seglist := (s.seglist.set (home_address b.size)
          ((bucket s (home_address b.size)).erase b.addr)) } := by
  subst hba
  have hrb := readBlock_decomp s P S b hs hP
  unfold removeVagueBlock isMiniBlockAt isMiniSize sizeAt MINI_BLOCK_SIZE
  rw [hrb]
  rw [if_neg (by simpa using hsz)]
  rfl

lemma removeVague_mini (s : AState) (P S : List Block) (a : Nat)
    (b : Block) (hba : b.addr = a)
    (hs : s.blocks = P ++ b :: S) (hP : ∀ x ∈ P, x.addr ≠ b.addr)
    (hsz : b.size = 16) :
    removeVagueBlock s a = remove_mini_block s a := by
  subst hba
  have hrb := readBlock_decomp s P S b hs hP
  unfold removeVagueBlock isMiniBlockAt isMiniSize sizeAt MINI_BLOCK_SIZE
  rw [hrb]
  rw [if_pos (by simpa using hsz)]

/-! ### Case selection in `coalesce_block` -/

lemma coalesce_case_d (s : AState) (a : Nat) (b : Block)
    (hrb : readBlock s a = b) (hp : b.palloc = true)
    (hn : allocAt s (a + b.size) = true) :
    coalesce_block s a =
      (update_next_mpalloc (update_next_palloc
        (insertVagueBlock s a) a) a, a) := by
  unfold coalesce_block
  simp only [find_next, sizeAt, pallocAt, mpallocAt, hrb, hp, hn,
    Bool.not_true, Bool.false_and, Bool.and_false, Bool.true_and,
    Bool.and_true, Bool.not_false, Bool.false_eq_true, if_false]

lemma coalesce_case_b (s : AState) (a : Nat) (b : Block)
    (hrb : readBlock s a = b) (hp : b.palloc = true)
    (hn : allocAt s (a + b.size) = false) :
    coalesce_block s a =
      (update_next_palloc (update_next_mpalloc (insertVagueBlock
        (write_block (removeVagueBlock s (a + b.size)) a
          (b.size + sizeAt s (a + b.size))
          (mpallocAt (removeVagueBlock s (a + b.size)) a)
          (pallocAt (removeVagueBlock s (a + b.size)) a) false)
        a) a) a, a) := by
  unfold coalesce_block
  simp only [find_next, sizeAt, pallocAt, mpallocAt, hrb, hp, hn,
    Bool.not_true, Bool.not_false, Bool.false_and, Bool.true_and,
    Bool.and_false, Bool.and_true, Bool.false_eq_true, if_false, if_true]

lemma coalesce_case_c (s : AState) (a : Nat) (b : Block) (pa : Nat)
    (hrb : readBlock s a = b) (hp : b.palloc = false)
    (hn : allocAt s (a + b.size) = true)
    (hfp : find_prev s a b.mpalloc = some pa) :
    coalesce_block s a =
      (update_next_mpalloc (update_next_palloc (insertVagueBlock
        (write_block (removeVagueBlock s pa) pa
          (sizeAt s pa + b.size)
          (mpallocAt s pa) (pallocAt s pa) false)
        pa) pa) pa, pa) := by
  unfold coalesce_block
  simp only [find_next, sizeAt, pallocAt, mpallocAt, hrb, hp, hn,
    Bool.not_true, Bool.not_false, Bool.false_and, Bool.true_and,
    Bool.and_false, Bool.and_true, Bool.false_eq_true, if_false, if_true,
    hfp]

lemma coalesce_case_a (s : AState) (a : Nat) (b : Block) (pa : Nat)
    (hrb : readBlock s a = b) (hp : b.palloc = false)
    (hn : allocAt s (a + b.size) = false)
    (hfp : find_prev s a b.mpalloc = some pa) :
    coalesce_block s a =
      (update_next_mpalloc (update_next_palloc (insertVagueBlock
        (write_block (removeVagueBlock (removeVagueBlock s pa)
            (a + b.size)) pa
          (sizeAt s pa + b.size + sizeAt s (a + b.size))
          (mpallocAt s pa) (pallocAt s pa) false)
        pa) pa) pa, pa) := by
  unfold coalesce_block
  simp only [find_next, sizeAt, pallocAt, mpallocAt, hrb, hp, hn,
    Bool.not_true, Bool.not_false, Bool.true_and, Bool.and_true,
    Bool.false_eq_true, if_true, hfp]

/-! ### Composition of the two flag refreshes -/

lemma update_pair_mid (s : AState) (P S : List Block) (a : Nat)
    (b c : Block) (hba : b.addr = a)
    (hs : s.blocks = P ++ b :: c :: S)
    (hP : ∀ x ∈ P, x.addr < b.addr)
    (hadj : c.addr = b.addr + b.size)
    (hbc : b.addr < c.addr)
    (hS : ∀ x ∈ S, c.addr + c.size ≤ x.addr)
    (hctop : c.addr ≠ s.heapTop)
    (hcsz : 0 < c.size) :
    update_next_mpalloc (update_next_palloc s a) a =
      { s with blocks :=
          P ++ b :: (⟨c.addr, c.size, c.alloc, b.alloc,
            isMiniSize b.size⟩ : Block) :: S } := by
  subst hba
  rw [update_next_palloc_mid s P S b.addr b c rfl hs hP hadj hbc hS hctop
    hcsz]
  exact update_next_mpalloc_mid _ P S b.addr b
    ⟨c.addr, c.size, c.alloc, b.alloc, c.mpalloc⟩ rfl rfl hP hadj hbc hS
    hctop hcsz

lemma update_pair_mid' (s : AState) (P S : List Block) (a : Nat)
    (b c : Block) (hba : b.addr = a)
    (hs : s.blocks = P ++ b :: c :: S)
    (hP : ∀ x ∈ P, x.addr < b.addr)
    (hadj : c.addr = b.addr + b.size)
    (hbc : b.addr < c.addr)
    (hS : ∀ x ∈ S, c.addr + c.size ≤ x.addr)
    (hctop : c.addr ≠ s.heapTop)
    (hcsz : 0 < c.size) :
    update_next_palloc (update_next_mpalloc s a) a =
      { s with blocks :=
          P ++ b :: (⟨c.addr, c.size, c.alloc, b.alloc,
            isMiniSize b.size⟩ : Block) :: S } := by
  subst hba
  rw [update_next_mpalloc_mid s P S b.addr b c rfl hs hP hadj hbc hS hctop
    hcsz]
  exact update_next_palloc_mid _ P S b.addr b
    ⟨c.addr, c.size, c.alloc, c.palloc, isMiniSize b.size⟩ rfl rfl hP hadj
    hbc hS hctop hcsz

lemma update_pair_last (s : AState) (P : List Block) (a : Nat)
    (b : Block) (hba : b.addr = a)
    (hs : s.blocks = P ++ [b])
    (hP : ∀ x ∈ P, x.addr < b.addr)
    (htop : b.addr + b.size = s.heapTop)
    (hbsz : 0 < b.size) :
    update_next_mpalloc (update_next_palloc s a) a =
      { s with epiPalloc := b.alloc, epiMpalloc := isMiniSize b.size } := by
  subst hba
  rw [update_next_palloc_last s P b.addr b rfl hs hP htop hbsz]
  exact update_next_mpalloc_last _ P b.addr b rfl hs hP htop hbsz

lemma update_pair_last' (s : AState) (P : List Block) (a : Nat)
    (b : Block) (hba : b.addr = a)
    (hs : s.blocks = P ++ [b])
    (hP : ∀ x ∈ P, x.addr < b.addr)
    (htop : b.addr + b.size = s.heapTop)
    (hbsz : 0 < b.size) :
    update_next_palloc (update_next_mpalloc s a) a =
      { s with epiPalloc := b.alloc, epiMpalloc := isMiniSize b.size } := by
  subst hba
  rw [update_next_mpalloc_last s P b.addr b rfl hs hP htop hbsz]
  exact update_next_palloc_last _ P b.addr b rfl hs hP htop hbsz

/-! ### Removing a sound free-list entry -/

lemma remove_mini_notfound (s : AState) (a r : Nat) (rest : List Nat)
    (h : s.miniRoot = r :: rest) (hne : r ≠ a) (hnm : a ∉ rest) :
    remove_mini_block s a =
      update_next_mpalloc (update_next_palloc s a) a := by
  unfold remove_mini_block
  rw [h]
  simp [hne, hnm]

lemma removeVague_eq_eraseListed (s : AState) (P S : List Block) (a : Nat)
    (x : Block) (hba : x.addr = a)
    (hs : s.blocks = P ++ x :: S)
    (hP : ∀ c ∈ P, c.addr < x.addr)
    (hsz : 0 < x.size)
    (hacc : (∃ c S', S = c :: S' ∧ c.addr = x.addr + x.size ∧
        c.palloc = x.alloc ∧ c.mpalloc = isMiniSize x.size ∧ 0 < c.size ∧
        c.addr ≠ s.heapTop ∧ (∀ y ∈ S', c.addr + c.size ≤ y.addr)) ∨
      (S = [] ∧ x.addr + x.size = s.heapTop ∧ s.epiPalloc = x.alloc ∧
        s.epiMpalloc = isMiniSize x.size)) :
    removeVagueBlock s a = eraseListed s x := by
  subst hba
  have hupd : ∀ (l : List Nat),
      update_next_mpalloc (update_next_palloc { s with miniRoot := l }
        x.addr) x.addr = { s with miniRoot := l } := by
    intro l
    rcases hacc with ⟨c, S', hSS, hadj, hpal, hmp, hcsz, hctop, hS2⟩ |
      ⟨hSnil, htop, hept, hemt⟩
    · subst hSS
      rw [update_pair_mid { s with miniRoot := l } P S' x.addr x c rfl
        (by simpa using hs) hP hadj (by omega) hS2 hctop hcsz]
      have hc2 : (⟨c.addr, c.size, c.alloc, x.alloc,
          isMiniSize x.size⟩ : Block) = c := by
        rw [← hpal, ← hmp]
      rw [hc2, ← hs]
    · subst hSnil
      rw [update_pair_last { s with miniRoot := l } P x.addr x rfl
        (by simpa using hs) hP htop hsz]
      rw [← hept, ← hemt]
  by_cases h16 : x.size = 16
  · rw [removeVague_mini s P S x.addr x rfl hs
      (fun c hc => Nat.ne_of_lt (hP c hc)) h16]
    unfold eraseListed
    rw [if_pos h16]
    rcases hr : s.miniRoot with _ | ⟨r, rest⟩
    · unfold remove_mini_block
      rw [hr]
      show s = { s with miniRoot := ([] : List Nat).erase x.addr }
      rw [show (([] : List Nat).erase x.addr) = [] from rfl, ← hr]
    · by_cases hra : r = x.addr
      · subst hra
        rw [remove_mini_head s x.addr rest hr]
        have herase : (x.addr :: rest).erase x.addr = rest := by simp
        rw [herase]
        exact hupd rest
      · by_cases hmem : x.addr ∈ rest
        · rw [remove_mini_tail s x.addr r rest hr (fun he => hra he) hmem]
          have herase : (r :: rest).erase x.addr =
              r :: rest.erase x.addr := by
            rw [List.erase_cons]
            simp [hra]
          rw [herase]
        · rw [remove_mini_notfound s x.addr r rest hr
            (fun he => hra he) hmem]
          have hnm0 : x.addr ∉ r :: rest := by
            intro hc
            rcases List.mem_cons.1 hc with h | h
            · exact hra h.symm
            · exact hmem h
          have h1 : (r :: rest).erase x.addr = r :: rest :=
            List.erase_of_not_mem hnm0
          rw [h1, ← hr]
          exact hupd s.miniRoot
  · rw [removeVague_normal s P S x.addr x rfl hs
      (fun c hc => Nat.ne_of_lt (hP c hc)) h16]
    unfold eraseListed
    rw [if_neg h16]

/-! ### Derived facts from well-formedness -/

lemma home_address_lt (n : Nat) : home_address n < 14 := by
  unfold home_address
  by_cases h0 : n = 32
  · rw [if_pos h0]; omega
  rw [if_neg h0]
  by_cases h1 : 33 ≤ n ∧ n ≤ 64
  · rw [if_pos h1]; omega
  rw [if_neg h1]
  by_cases h2 : 65 ≤ n ∧ n ≤ 85
  · rw [if_pos h2]; omega
  rw [if_neg h2]
  by_cases h3 : 86 ≤ n ∧ n ≤ 112
  · rw [if_pos h3]; omega
  rw [if_neg h3]
  by_cases h4 : 113 ≤ n ∧ n ≤ 128
  · rw [if_pos h4]; omega
  rw [if_neg h4]
  by_cases h5 : 129 ≤ n ∧ n ≤ 160
  · rw [if_pos h5]; omega
  rw [if_neg h5]
  by_cases h6 : 161 ≤ n ∧ n ≤ 200
  · rw [if_pos h6]; omega
  rw [if_neg h6]
  by_cases h7 : 201 ≤ n ∧ n ≤ 256
  · rw [if_pos h7]; omega
  rw [if_neg h7]
  by_cases h8 : 257 ≤ n ∧ n ≤ 512
  · rw [if_pos h8]; omega
  rw [if_neg h8]
  by_cases h9 : 513 ≤ n ∧ n ≤ 1024
  · rw [if_pos h9]; omega
  rw [if_neg h9]
  by_cases h10 : 1025 ≤ n ∧ n ≤ 2048
  · rw [if_pos h10]; omega
  rw [if_neg h10]
  by_cases h11 : 2049 ≤ n ∧ n ≤ 4096
  · rw [if_pos h11]; omega
  rw [if_neg h11]
  by_cases h12 : 4097 ≤ n ∧ n ≤ 8192
  · rw [if_pos h12]; omega
  rw [if_neg h12]
  omega

lemma seg_addr_inj (l : List Block) : ∀ (a : Nat) (pa pm : Bool),
    seg a pa pm l → ∀ b1 ∈ l, ∀ b2 ∈ l, b1.addr = b2.addr → b1 = b2 := by
  induction l with
  | nil => intro a pa pm _ b1 hb1; cases hb1
  | cons c t ih =>
    intro a pa pm h b1 hb1 b2 hb2 he
    obtain ⟨ha, hsz, -, -, -, -, ht⟩ := h
    have hbound : ∀ b ∈ t, a + c.size ≤ b.addr := by
      intro b hb
      exact (seg_mem t (a + c.size) _ _ ht b hb).1
    rcases List.mem_cons.1 hb1 with h1 | h1 <;>
      rcases List.mem_cons.1 hb2 with h2 | h2
    · rw [h1, h2]
    · subst h1
      have := hbound b2 h2
      unfold min_block_size dsize wsize at hsz
      omega
    · subst h2
      have := hbound b1 h1
      unfold min_block_size dsize wsize at hsz
      omega
    · exact ih (a + c.size) c.alloc _ ht b1 h1 b2 h2 he

lemma alloc_not_listed (s : AState) (hch : seg 8 true false s.blocks)
    (hm : miniSound s) (hg : segSound s) (x : Block) (hx : x ∈ s.blocks)
    (hal : x.alloc = true) :
    x.addr ∉ s.miniRoot ∧ ∀ k, x.addr ∉ bucket s k := by
  constructor
  · intro hmem
    obtain ⟨b, hb, hba, hbf, -⟩ := hm x.addr hmem
    have : b = x := seg_addr_inj s.blocks 8 true false hch b hb x hx hba
    rw [this] at hbf
    rw [hal] at hbf
    cases hbf
  · intro k hmem
    obtain ⟨b, hb, hba, hbf, -⟩ := hg k x.addr hmem
    have : b = x := seg_addr_inj s.blocks 8 true false hch b hb x hx hba
    rw [this] at hbf
    rw [hal] at hbf
    cases hbf

lemma free_listed_unique (s : AState) (hch : seg 8 true false s.blocks)
    (hm : miniSound s) (hg : segSound s) (x : Block) (hx : x ∈ s.blocks)
    (hfr : x.alloc = false) :
    (x.size = 16 → ∀ k, x.addr ∉ bucket s k) ∧
    (x.size ≠ 16 → (x.addr ∉ s.miniRoot ∧
      ∀ k, k ≠ home_address x.size → x.addr ∉ bucket s k)) := by
  constructor
  · intro h16 k hmem
    obtain ⟨b, hb, hba, -, hbs, -⟩ := hg k x.addr hmem
    have : b = x := seg_addr_inj s.blocks 8 true false hch b hb x hx hba
    rw [this, h16] at hbs
    exact hbs rfl
  · intro h16
    constructor
    · intro hmem
      obtain ⟨b, hb, hba, -, hbs⟩ := hm x.addr hmem
      have : b = x := seg_addr_inj s.blocks 8 true false hch b hb x hx hba
      rw [this] at hbs
      exact h16 hbs
    · intro k hk hmem
      obtain ⟨b, hb, hba, -, -, hbh⟩ := hg k x.addr hmem
      have : b = x := seg_addr_inj s.blocks 8 true false hch b hb x hx hba
      rw [this] at hbh
      exact hk hbh.symm

lemma seg_set_head_flags (a : Nat) (pa pm npa npm : Bool) (c : Block)
    (S : List Block) (h : seg a pa pm (c :: S))
    (hna : npa = false → c.alloc = true) :
    seg a npa npm
      ((⟨c.addr, c.size, c.alloc, npa, npm⟩ : Block) :: S) := by
  obtain ⟨h1, h2, h3, -, -, -, h7⟩ := h
  exact ⟨h1, h2, h3, rfl, rfl, hna, h7⟩

/-! ### Run sizes -/

lemma segEnd_fst (l : List Block) : ∀ (a : Nat) (pa pm : Bool),
    (segEnd a pa pm l).1 = a + sumSizes l := by
  induction l with
  | nil => intro a pa pm; simp [segEnd, sumSizes]
  | cons b t ih =>
    intro a pa pm
    simp only [segEnd, sumSizes]
    rw [ih]
    omega

lemma seg_sumSizes_mod (l : List Block) : ∀ (a : Nat) (pa pm : Bool),
    seg a pa pm l → sumSizes l % 16 = 0 := by
  induction l with
  | nil => intro a pa pm _; rfl
  | cons b t ih =>
    intro a pa pm h
    obtain ⟨-, -, hm, -, -, -, ht⟩ := h
    have := ih (a + b.size) b.alloc _ ht
    simp only [sumSizes]
    omega

/-! ### Reassembling well-formedness after a coalescing merge -/

lemma witness_transfer (P R' T : List Block) (r0 c b : Block)
    (hb : b ∈ P ++ r0 :: (R' ++ c :: T)) (hbal : b.alloc = false)
    (hcal : c.alloc = true) (hne0 : b.addr ≠ r0.addr)
    (hneR : ∀ r ∈ R', b.addr ≠ r.addr) :
    b ∈ P ∨ b ∈ T := by
  rcases List.mem_append.1 hb with h | h
  · exact Or.inl h
  rcases List.mem_cons.1 h with h | h
  · rw [h] at hne0; exact absurd rfl hne0
  rcases List.mem_append.1 h with h | h
  · exact absurd rfl (hneR b h)
  rcases List.mem_cons.1 h with h | h
  · rw [h] at hbal; rw [hcal] at hbal; cases hbal
  · exact Or.inr h

lemma witness_transfer_nil (P R' : List Block) (r0 b : Block)
    (hb : b ∈ P ++ r0 :: (R' ++ [])) (hne0 : b.addr ≠ r0.addr)
    (hneR : ∀ r ∈ R', b.addr ≠ r.addr) :
    b ∈ P := by
  rcases List.mem_append.1 hb with h | h
  · exact h
  rcases List.mem_cons.1 h with h | h
  · rw [h] at hne0; exact absurd rfl hne0
  rcases List.mem_append.1 h with h | h
  · exact absurd rfl (hneR b h)
  · cases h

lemma Wf_merge (s s' : AState) (hw : Wf s)
    (P R' S : List Block) (r0 : Block)
    (hs : s.blocks = P ++ r0 :: (R' ++ S))
    (hr0p : r0.palloc = true)
    (hS : (∃ c T, S = c :: T ∧ c.alloc = true ∧
        s'.blocks = P ++ (⟨r0.addr, r0.size + sumSizes R', false, r0.palloc,
            r0.mpalloc⟩ : Block) :: (⟨c.addr, c.size, c.alloc, false,
            isMiniSize (r0.size + sumSizes R')⟩ : Block) :: T ∧
        s'.epiPalloc = s.epiPalloc ∧ s'.epiMpalloc = s.epiMpalloc) ∨
      (S = [] ∧ s'.blocks = P ++ [⟨r0.addr, r0.size + sumSizes R', false,
          r0.palloc, r0.mpalloc⟩] ∧ s'.epiPalloc = false ∧
        s'.epiMpalloc = isMiniSize (r0.size + sumSizes R')))
    (hminiSub : ∀ a ∈ s'.miniRoot,
      (a = r0.addr ∧ r0.size + sumSizes R' = 16) ∨
      (a ∈ s.miniRoot ∧ a ≠ r0.addr ∧ ∀ r ∈ R', a ≠ r.addr))
    (hsegSub : ∀ k a, a ∈ bucket s' k →
      (a = r0.addr ∧ r0.size + sumSizes R' ≠ 16 ∧
        home_address (r0.size + sumSizes R') = k) ∨
      (a ∈ bucket s k ∧ a ≠ r0.addr ∧ ∀ r ∈ R', a ≠ r.addr))
    (hmnd : s'.miniRoot.Nodup) (hbnd : ∀ k, (bucket s' k).Nodup)
    (hlen : s'.seglist.length = 14)
    (hht : s'.heapTop = s.heapTop) (hini : s'.initialized = true) :
    Wf s' := by
  have hchain := hw.chain
  rw [hs] at hchain
  obtain ⟨hchP, hchQ⟩ :=
    (seg_append P (r0 :: (R' ++ S)) 8 true false).1 hchain
  obtain ⟨hr0a, hr0s, hr0m, hr0pE, hr0mE, -, hchQt⟩ := hchQ
  obtain ⟨hchR', hchS⟩ := (seg_append R' S _ _ _).1 hchQt
  have htopE := hw.top
  rw [hs, segEnd_append] at htopE
  have hmgsz : min_block_size ≤ r0.size + sumSizes R' := by
    unfold min_block_size dsize wsize at hr0s ⊢
    omega
  have hmgmod : (r0.size + sumSizes R') % 16 = 0 := by
    have h1 := seg_sumSizes_mod R' _ _ _ hchR'
    omega
  have hSstart :
      (segEnd ((segEnd 8 true false P).1 + r0.size) r0.alloc
        (isMiniSize r0.size) R').1 =
      (segEnd 8 true false P).1 + (r0.size + sumSizes R') := by
    rw [segEnd_fst]
    omega
  have hnoadj : (segEnd 8 true false P).2.1 = false → False := by
    intro h
    rw [← hr0pE, hr0p] at h
    cases h
  rcases hS with ⟨c, T, hSeq, hcal, hsb, hep, hem⟩ |
    ⟨hSeq, hsb, hep, hem⟩
  · subst hSeq
    have hchST : seg ((segEnd 8 true false P).1 + (r0.size + sumSizes R'))
        false (isMiniSize (r0.size + sumSizes R'))
        ((⟨c.addr, c.size, c.alloc, false,
          isMiniSize (r0.size + sumSizes R')⟩ : Block) :: T) := by
      rw [← hSstart]
      exact seg_set_head_flags _ _ _ _ _ c T hchS (fun _ => hcal)
    refine ⟨hini, ?_, ?_, hlen, ?_, ?_, hmnd, hbnd⟩
    · rw [hsb]
      apply (seg_append P _ 8 true false).2
      refine ⟨hchP, hr0a, hmgsz, hmgmod, hr0pE, hr0mE,
        fun h => absurd h hnoadj, ?_⟩
      simpa using hchST
    · rw [hsb, segEnd_append]
      have hgoal : segEnd (segEnd 8 true false P).1
          (segEnd 8 true false P).2.1 (segEnd 8 true false P).2.2
          ((⟨r0.addr, r0.size + sumSizes R', false, r0.palloc,
            r0.mpalloc⟩ : Block) :: (⟨c.addr, c.size, c.alloc, false,
            isMiniSize (r0.size + sumSizes R')⟩ : Block) :: T) =
          segEnd ((segEnd 8 true false P).1 + (r0.size + sumSizes R') +
            c.size) c.alloc (isMiniSize c.size) T := by
        simp [segEnd]
      rw [hgoal]
      have horig : segEnd ((segEnd 8 true false P).1 + r0.size) r0.alloc
          (isMiniSize r0.size) (R' ++ c :: T) =
          segEnd ((segEnd 8 true false P).1 + (r0.size + sumSizes R') +
            c.size) c.alloc (isMiniSize c.size) T := by
        rw [segEnd_append, hSstart]
        simp [segEnd]
      simp only [segEnd] at htopE
      rw [horig] at htopE
      rw [htopE, hht, hep, hem]
    · intro a ha
      rcases hminiSub a ha with ⟨haeq, h16⟩ | ⟨haold, hne0, hneR⟩
      · refine ⟨⟨r0.addr, r0.size + sumSizes R', false, r0.palloc,
          r0.mpalloc⟩, ?_, ?_, rfl, ?_⟩
        · rw [hsb]; simp
        · rw [haeq]
        · simpa using h16
      · obtain ⟨b, hbmem, hba, hbal, hbsz⟩ := hw.mini_sound a haold
        rw [hs] at hbmem
        have hb' : b ∈ P ∨ b ∈ T := by
          apply witness_transfer P R' T r0 c b hbmem hbal hcal
          · rw [hba]; exact hne0
          · intro r hr; rw [hba]; exact hneR r hr
        refine ⟨b, ?_, hba, hbal, hbsz⟩
        rw [hsb]
        rcases hb' with h | h
        · simp [h]
        · simp [h]
    · intro k a ha
      rcases hsegSub k a ha with ⟨haeq, h16, hhome⟩ | ⟨haold, hne0, hneR⟩
      · refine ⟨⟨r0.addr, r0.size + sumSizes R', false, r0.palloc,
          r0.mpalloc⟩, ?_, ?_, rfl, ?_, ?_⟩
        · rw [hsb]; simp
        · rw [haeq]
        · simpa using h16
        · simpa using hhome
      · obtain ⟨b, hbmem, hba, hbal, hbsz, hbh⟩ := hw.seg_sound k a haold
        rw [hs] at hbmem
        have hb' : b ∈ P ∨ b ∈ T := by
          apply witness_transfer P R' T r0 c b hbmem hbal hcal
          · rw [hba]; exact hne0
          · intro r hr; rw [hba]; exact hneR r hr
        refine ⟨b, ?_, hba, hbal, hbsz, hbh⟩
        rw [hsb]
        rcases hb' with h | h
        · simp [h]
        · simp [h]
  · subst hSeq
    refine ⟨hini, ?_, ?_, hlen, ?_, ?_, hmnd, hbnd⟩
    · rw [hsb]
      apply (seg_append P _ 8 true false).2
      refine ⟨hchP, hr0a, hmgsz, hmgmod, hr0pE, hr0mE,
        fun h => absurd h hnoadj, ?_⟩
      simp [seg]
    · rw [hsb, segEnd_append]
      have hgoal : segEnd (segEnd 8 true false P).1
          (segEnd 8 true false P).2.1 (segEnd 8 true false P).2.2
          [(⟨r0.addr, r0.size + sumSizes R', false, r0.palloc,
            r0.mpalloc⟩ : Block)] =
          ((segEnd 8 true false P).1 + (r0.size + sumSizes R'), false,
            isMiniSize (r0.size + sumSizes R')) := by
        simp [segEnd]
      rw [hgoal]
      have horig : segEnd ((segEnd 8 true false P).1 + r0.size) r0.alloc
          (isMiniSize r0.size) (R' ++ []) =
          ((segEnd 8 true false P).1 + (r0.size + sumSizes R'),
            (segEnd ((segEnd 8 true false P).1 + r0.size) r0.alloc
              (isMiniSize r0.size) R').2.1,
            (segEnd ((segEnd 8 true false P).1 + r0.size) r0.alloc
              (isMiniSize r0.size) R').2.2) := by
        rw [List.append_nil]
        rw [show (segEnd ((segEnd 8 true false P).1 + r0.size) r0.alloc
          (isMiniSize r0.size) R') = (((segEnd ((segEnd 8 true false P).1 +
            r0.size) r0.alloc (isMiniSize r0.size) R')).1,
          ((segEnd ((segEnd 8 true false P).1 + r0.size) r0.alloc
            (isMiniSize r0.size) R')).2.1,
          ((segEnd ((segEnd 8 true false P).1 + r0.size) r0.alloc
            (isMiniSize r0.size) R')).2.2) from rfl]
        rw [hSstart]
      simp only [segEnd] at htopE
      rw [horig] at htopE
      have h1 : s'.heapTop =
          (segEnd 8 true false P).1 + (r0.size + sumSizes R') := by
        rw [hht]
        have := congrArg Prod.fst htopE
        simpa using this.symm
      rw [h1, hep, hem]
    · intro a ha
      rcases hminiSub a ha with ⟨haeq, h16⟩ | ⟨haold, hne0, hneR⟩
      · refine ⟨⟨r0.addr, r0.size + sumSizes R', false, r0.palloc,
          r0.mpalloc⟩, ?_, ?_, rfl, ?_⟩
        · rw [hsb]; simp
        · rw [haeq]
        · simpa using h16
      · obtain ⟨b, hbmem, hba, hbal, hbsz⟩ := hw.mini_sound a haold
        rw [hs] at hbmem
        have hb' : b ∈ P := by
          apply witness_transfer_nil P R' r0 b hbmem
          · rw [hba]; exact hne0
          · intro r hr; rw [hba]; exact hneR r hr
        refine ⟨b, ?_, hba, hbal, hbsz⟩
        rw [hsb]
        simp [hb']
    · intro k a ha
      rcases hsegSub k a ha with ⟨haeq, h16, hhome⟩ | ⟨haold, hne0, hneR⟩
      · refine ⟨⟨r0.addr, r0.size + sumSizes R', false, r0.palloc,
          r0.mpalloc⟩, ?_, ?_, rfl, ?_, ?_⟩
        · rw [hsb]; simp
        · rw [haeq]
        · simpa using h16
        · simpa using hhome
      · obtain ⟨b, hbmem, hba, hbal, hbsz, hbh⟩ := hw.seg_sound k a haold
        rw [hs] at hbmem
        have hb' : b ∈ P := by
          apply witness_transfer_nil P R' r0 b hbmem
          · rw [hba]; exact hne0
          · intro r hr; rw [hba]; exact hneR r hr
        refine ⟨b, ?_, hba, hbal, hbsz, hbh⟩
        rw [hsb]
        simp [hb']

/-! ### Preservation of well-formedness by `free` -/

lemma mm_free_unfold (s : AState) (x : Block)
    (hrb : readBlock s x.addr = x) :
    mm_free s (x.addr + wsize) =
      update_next_palloc (update_next_mpalloc
        (coalesce_block (write_block s x.addr x.size x.mpalloc x.palloc
          false) x.addr).1
        (coalesce_block (write_block s x.addr x.size x.mpalloc x.palloc
          false) x.addr).2)
        (coalesce_block (write_block s x.addr x.size x.mpalloc x.palloc
          false) x.addr).2 := by
  unfold mm_free
  rw [if_neg (by unfold wsize; omega)]
  rw [show x.addr + wsize - wsize = x.addr from by omega]
  simp only [sizeAt, mpallocAt, pallocAt, hrb]

lemma find?_prev_decomp (P' rest : List Block) (p : Block) (t : Nat)
    (hP' : ∀ y ∈ P', y.addr + y.size ≠ t) (hp : p.addr + p.size = t) :
    (P' ++ p :: rest).find? (fun b => b.addr + b.size = t) = some p := by
  induction P' with
  | nil => simp [List.find?, hp]
  | cons c tl ih =>
    have hc : (decide (c.addr + c.size = t)) = false := by
      simpa using hP' c (by simp)
    rw [List.cons_append, List.find?_cons, hc]
    exact ih (fun y hy => hP' y (by simp [hy]))

lemma find_prev_eq (s1 : AState) (P' Q : List Block) (p xf : Block)
    (hs1 : s1.blocks = P' ++ p :: xf :: Q)
    (hP' : ∀ y ∈ P', y.addr + y.size ≤ p.addr)
    (hadj : xf.addr = p.addr + p.size)
    (hpsz : 16 ≤ p.size) (hp8 : 8 ≤ p.addr)
    (hmp : xf.mpalloc = isMiniSize p.size) :
    find_prev s1 xf.addr xf.mpalloc = some p.addr := by
  unfold find_prev
  rw [hmp]
  by_cases h16 : p.size = 16
  · have hmini : isMiniSize p.size = true := by
      simp [isMiniSize, MINI_BLOCK_SIZE, h16]
    rw [hmini, if_pos rfl]
    have : xf.addr - MINI_BLOCK_SIZE = p.addr := by
      unfold MINI_BLOCK_SIZE
      omega
    rw [this]
  · have hmini : isMiniSize p.size = false := by
      simp [isMiniSize, MINI_BLOCK_SIZE, h16]
    rw [hmini]
    rw [if_neg (by simp)]
    rw [if_neg (by omega)]
    rw [hs1]
    rw [show P' ++ p :: xf :: Q = (P' ++ [p]) ++ xf :: Q from by simp] at hs1
    rw [show P' ++ p :: xf :: Q = P' ++ p :: (xf :: Q) from rfl]
    rw [find?_prev_decomp P' (xf :: Q) p xf.addr
      (fun y hy => by have := hP' y hy; omega) hadj.symm]
    rfl


lemma free_wf_d (s : AState) (hw : Wf s) (P Q : List Block) (x : Block)
    (hs : s.blocks = P ++ x :: Q)
    (hal : x.alloc = true) (hxp : x.palloc = true)
    (hnext : Q = [] ∨ ∃ c S', Q = c :: S' ∧ c.alloc = true) :
    Wf (mm_free s (x.addr + wsize)) := by
  have hchain := hw.chain
  rw [hs] at hchain
  have hPlt : ∀ y ∈ P, y.addr < x.addr :=
    fun y hy => (seg_front P x Q hchain y hy).2
  have hQge : ∀ y ∈ Q, x.addr + x.size ≤ y.addr := seg_suffix P x Q hchain
  obtain ⟨-, hxtop', hxsz, hxmod, -⟩ :=
    seg_mem s.blocks 8 true false hw.chain x (by rw [hs]; simp)
  have htopfst : (segEnd 8 true false s.blocks).1 = s.heapTop := by
    rw [hw.top]
  have hxtop : x.addr + x.size ≤ s.heapTop := by rw [← htopfst]; exact hxtop'
  have hxsz' : (16 : Nat) ≤ x.size := hxsz
  have hrb : readBlock s x.addr = x :=
    readBlock_decomp s P Q x hs (fun y hy => Nat.ne_of_lt (hPlt y hy))
  have hnl : x.addr ∉ s.miniRoot ∧ ∀ k, x.addr ∉ bucket s k :=
    alloc_not_listed s hw.chain hw.mini_sound hw.seg_sound x
      (by rw [hs]; simp) hal
  set xfL : Block := ⟨x.addr, x.size, false, x.palloc, x.mpalloc⟩
    with hxfdef
  have hw1 : write_block s x.addr x.size x.mpalloc x.palloc false =
      { s with blocks := P ++ xfL :: Q } :=
    write_block_decomp s P [x] Q x.addr x.size x.mpalloc x.palloc false
      (by simpa using hs) hPlt
      (by intro cc hcc
          simp at hcc
          subst hcc
          exact ⟨Nat.le_refl _, by omega⟩)
      hQge
  rw [mm_free_unfold s x hrb, hw1]
  set s1 : AState := { s with blocks := P ++ xfL :: Q } with hs1def
  have hrb1 : readBlock s1 x.addr = xfL :=
    readBlock_decomp s1 P Q xfL rfl (fun y hy => Nat.ne_of_lt (hPlt y hy))
  have hp1 : xfL.palloc = true := hxp
  rcases hnext with hQnil | ⟨c, S', hQeq, hcal⟩
  · subst hQnil
    have htopx : x.addr + x.size = s.heapTop := by
      have h0 := hw.top
      rw [hs, segEnd_append] at h0
      simp only [segEnd] at h0
      have h1 := congrArg Prod.fst h0
      simp at h1
      obtain ⟨hchP', hchX'⟩ := (seg_append P [x] 8 true false).1 hchain
      obtain ⟨hxa', -⟩ := hchX'
      omega
    have hn : allocAt s1 (x.addr + xfL.size) = true := by
      show allocAt s1 (x.addr + x.size) = true
      unfold allocAt
      rw [readBlock_none s1 (x.addr + x.size) ?_ (by simp [htopx])]
      intro y hy
      simp [hs1def] at hy
      rcases hy with hy | hy
      · have := hPlt y hy; omega
      · subst hy; simp [hxfdef]; omega
    rw [coalesce_case_d s1 x.addr xfL hrb1 hp1 hn]
    have hPne : ∀ y ∈ P, y.addr ≠ xfL.addr :=
      fun y hy => Nat.ne_of_lt (hPlt y hy)
    have htopx1 : xfL.addr + xfL.size = s1.heapTop := htopx
    have hszpos : 0 < xfL.size := by show 0 < x.size; omega
    by_cases h16 : x.size = 16
    · rw [insertVague_mini s1 P [] x.addr xfL rfl rfl hPne h16]
      rw [insert_mini_unfold s1 x.addr]
      set s2 : AState := { s1 with miniRoot := x.addr :: s1.miniRoot }
        with hs2def
      rw [update_pair_last s2 P x.addr xfL rfl rfl hPlt htopx1 hszpos]
      set s3 : AState := { s2 with epiPalloc := xfL.alloc, epiMpalloc := isMiniSize xfL.size } with hs3def
      rw [update_pair_last s3 P x.addr xfL rfl rfl hPlt htopx1 hszpos]
      set s4 : AState := { s3 with epiPalloc := xfL.alloc, epiMpalloc := isMiniSize xfL.size } with hs4def
      rw [update_pair_last' s4 P x.addr xfL rfl rfl hPlt htopx1 hszpos]
      apply Wf_merge s _ hw P [] [] x (by simpa using hs) hxp
      · right
        refine ⟨rfl, ?_, ?_, ?_⟩
        · simp [hs4def, hs3def, hs2def, hs1def, hxfdef, sumSizes]
        · simp [hs4def, hs3def, hxfdef]
        · simp [hs4def, hs3def, hxfdef, sumSizes]
      · intro a ha
        simp [hs4def, hs3def, hs2def, hs1def] at ha
        rcases ha with ha | ha
        · left; exact ⟨ha, by simp [sumSizes, h16]⟩
        · right
          exact ⟨ha, fun he => hnl.1 (he ▸ ha), by simp⟩
      · intro k a ha
        simp only [hs4def, hs3def, hs2def, hs1def] at ha
        right
        refine ⟨?_, ?_, by simp⟩
        · simpa [bucket] using ha
        · intro he
          apply hnl.2 k
          rw [← he]
          simpa [bucket] using ha
      · simp [hs4def, hs3def, hs2def, hs1def]
        exact ⟨hnl.1, hw.mini_nodup⟩
      · intro k
        have : bucket s4 k = bucket s k := by
          simp [hs4def, hs3def, hs2def, hs1def, bucket]
        rw [this]
        exact hw.bucket_nodup k
      · simp [hs4def, hs3def, hs2def, hs1def]
        exact hw.seg_len
      · simp [hs4def, hs3def, hs2def, hs1def]
      · simp [hs4def, hs3def, hs2def, hs1def]
        exact hw.init
    · rw [insertVague_normal s1 P [] x.addr xfL rfl rfl hPne
        (by simpa using h16)]
      set s2 : AState := { s1 with seglist := (s1.seglist.set (home_address xfL.size) (xfL.addr :: bucket s1 (home_address xfL.size))) } with hs2def
      rw [update_pair_last s2 P x.addr xfL rfl rfl hPlt htopx1 hszpos]
      set s3 : AState := { s2 with epiPalloc := xfL.alloc, epiMpalloc := isMiniSize xfL.size } with hs3def
      rw [update_pair_last' s3 P x.addr xfL rfl rfl hPlt htopx1 hszpos]
      have hbuck : ∀ k, bucket s3 k =
          bucket { s with seglist := (s.seglist.set (home_address x.size)
            (x.addr :: bucket s (home_address x.size))) } k := by
        intro k
        simp [hs3def, hs2def, hs1def, bucket, hxfdef]
      apply Wf_merge s _ hw P [] [] x (by simpa using hs) hxp
      · right
        refine ⟨rfl, ?_, ?_, ?_⟩
        · simp [hs3def, hs2def, hs1def, hxfdef, sumSizes]
        · simp [hs3def, hxfdef]
        · simp [hs3def, hxfdef, sumSizes]
      · intro a ha
        simp [hs3def, hs2def, hs1def] at ha
        right
        exact ⟨ha, fun he => hnl.1 (he ▸ ha), by simp⟩
      · intro k a ha
        rw [hbuck k] at ha
        by_cases hk : k = home_address x.size
        · subst hk
          rw [show bucket { s with seglist := (s.seglist.set
              (home_address x.size) (x.addr :: bucket s
                (home_address x.size))) } (home_address x.size) =
              x.addr :: bucket s (home_address x.size) from by
            apply bucket_set_self
            rw [hw.seg_len]
            exact home_address_lt x.size] at ha
          rcases List.mem_cons.1 ha with ha | ha
          · left
            exact ⟨ha, by simpa [sumSizes] using h16, by simp [sumSizes]⟩
          · right
            exact ⟨ha, fun he => (hnl.2 _) (he ▸ ha), by simp⟩
        · rw [show bucket { s with seglist := (s.seglist.set
              (home_address x.size) (x.addr :: bucket s
                (home_address x.size))) } k = bucket s k from
            bucket_set_ne _ _ _ _ (fun he => hk he.symm)] at ha
          right
          exact ⟨ha, fun he => (hnl.2 k) (he ▸ ha), by simp⟩
      · simp [hs3def, hs2def, hs1def]
        exact hw.mini_nodup
      · intro k
        rw [hbuck k]
        by_cases hk : k = home_address x.size
        · subst hk
          rw [show bucket { s with seglist := (s.seglist.set
              (home_address x.size) (x.addr :: bucket s
                (home_address x.size))) } (home_address x.size) =
              x.addr :: bucket s (home_address x.size) from by
            apply bucket_set_self
            rw [hw.seg_len]
            exact home_address_lt x.size]
          exact List.nodup_cons.2 ⟨hnl.2 _, hw.bucket_nodup _⟩
        · rw [show bucket { s with seglist := (s.seglist.set
              (home_address x.size) (x.addr :: bucket s
                (home_address x.size))) } k = bucket s k from
            bucket_set_ne _ _ _ _ (fun he => hk he.symm)]
          exact hw.bucket_nodup k
      · simp [hs3def, hs2def, hs1def, List.length_set]
        exact hw.seg_len
      · simp [hs3def, hs2def, hs1def]
      · simp [hs3def, hs2def, hs1def]
        exact hw.init
  · subst hQeq
    obtain ⟨hchP2, hchX⟩ :=
      (seg_append P (x :: c :: S') 8 true false).1 hchain
    obtain ⟨hxa, -, -, -, -, -, hchC⟩ := hchX
    obtain ⟨hca, hcszm, -, -, -, -, -⟩ := hchC
    have hadj : c.addr = x.addr + x.size := by omega
    have hcszpos : 0 < c.size := by
      unfold min_block_size dsize wsize at hcszm
      omega
    have hbc : x.addr < c.addr := by omega
    have hS'ge : ∀ y ∈ S', c.addr + c.size ≤ y.addr :=
      seg_suffix (P ++ [x]) c S' (by simpa using hchain)
    obtain ⟨-, hctop', hcsz16, -, -⟩ :=
      seg_mem s.blocks 8 true false hw.chain c (by rw [hs]; simp)
    have hctop : c.addr ≠ s.heapTop := by
      rw [htopfst] at hctop'
      unfold min_block_size dsize wsize at hcsz16
      omega
    have hrc1 : readBlock s1 c.addr = c := by
      apply readBlock_decomp s1 (P ++ [xfL]) S' c (by simp [hs1def])
      intro y hy
      rcases List.mem_append.1 hy with hy | hy
      · exact Nat.ne_of_lt (lt_trans (hPlt y hy) hbc)
      · simp at hy
        subst hy
        exact Nat.ne_of_lt hbc
    have hn : allocAt s1 (x.addr + xfL.size) = true := by
      show allocAt s1 (x.addr + x.size) = true
      unfold allocAt
      rw [← hadj, hrc1, hcal]
    rw [coalesce_case_d s1 x.addr xfL hrb1 hp1 hn]
    have hPne : ∀ y ∈ P, y.addr ≠ xfL.addr :=
      fun y hy => Nat.ne_of_lt (hPlt y hy)
    by_cases h16 : x.size = 16
    · rw [insertVague_mini s1 P (c :: S') x.addr xfL rfl rfl hPne h16]
      rw [insert_mini_unfold s1 x.addr]
      set s2 : AState := { s1 with miniRoot := x.addr :: s1.miniRoot } with hs2def
      rw [update_pair_mid s2 P S' x.addr xfL c rfl rfl hPlt hadj hbc hS'ge hctop hcszpos]
      set cf1 : Block := ⟨c.addr, c.size, c.alloc, xfL.alloc, isMiniSize xfL.size⟩ with hcf1def
      set s3 : AState := { s2 with blocks := P ++ xfL :: cf1 :: S' } with hs3def
      rw [update_pair_mid s3 P S' x.addr xfL cf1 rfl rfl hPlt hadj hbc hS'ge hctop hcszpos]
      set cf2 : Block := ⟨cf1.addr, cf1.size, cf1.alloc, xfL.alloc, isMiniSize xfL.size⟩ with hcf2def
      set s4 : AState := { s3 with blocks := P ++ xfL :: cf2 :: S' } with hs4def
      rw [update_pair_mid' s4 P S' x.addr xfL cf2 rfl rfl hPlt hadj hbc hS'ge hctop hcszpos]
      have hbuck : ∀ k, bucket { s4 with blocks :=
          P ++ xfL :: (⟨cf2.addr, cf2.size, cf2.alloc, xfL.alloc,
            isMiniSize xfL.size⟩ : Block) :: S' } k = bucket s k := by
        intro k
        simp [hs4def, hs3def, hs2def, hs1def, bucket]
      apply Wf_merge s _ hw P [] (c :: S') x (by simpa using hs) hxp
      · refine Or.inl ⟨c, S', rfl, hcal, ?_, ?_, ?_⟩
        · simp [hs4def, hcf2def, hcf1def, hs3def, hs2def, hs1def, hxfdef,
            sumSizes]
        · simp [hs4def, hs3def, hs2def, hs1def]
        · simp [hs4def, hs3def, hs2def, hs1def]
      · intro a ha
        simp [hs4def, hs3def, hs2def, hs1def] at ha
        rcases ha with ha | ha
        · left
          exact ⟨ha, by simp [sumSizes, h16]⟩
        · right
          exact ⟨ha, fun he => hnl.1 (he ▸ ha), by simp⟩
      · intro k a ha
        rw [hbuck k] at ha
        right
        exact ⟨ha, fun he => (hnl.2 k) (he ▸ ha), by simp⟩
      · simp [hs4def, hs3def, hs2def, hs1def]
        exact ⟨hnl.1, hw.mini_nodup⟩
      · intro k
        rw [hbuck k]
        exact hw.bucket_nodup k
      · simp [hs4def, hs3def, hs2def, hs1def]
        exact hw.seg_len
      · simp [hs4def, hs3def, hs2def, hs1def]
      · simp [hs4def, hs3def, hs2def, hs1def]
        exact hw.init
    · rw [insertVague_normal s1 P (c :: S') x.addr xfL rfl rfl hPne
        (by simpa using h16)]
      set s2 : AState := { s1 with seglist := (s1.seglist.set (home_address xfL.size) (xfL.addr :: bucket s1 (home_address xfL.size))) } with hs2def
      rw [update_pair_mid s2 P S' x.addr xfL c rfl rfl hPlt hadj hbc hS'ge hctop hcszpos]
      set cf1 : Block := ⟨c.addr, c.size, c.alloc, xfL.alloc, isMiniSize xfL.size⟩ with hcf1def
      set s3 : AState := { s2 with blocks := P ++ xfL :: cf1 :: S' } with hs3def
      rw [update_pair_mid' s3 P S' x.addr xfL cf1 rfl rfl hPlt hadj hbc hS'ge hctop hcszpos]
      have hbuck : ∀ k, bucket { s3 with blocks :=
          P ++ xfL :: (⟨cf1.addr, cf1.size, cf1.alloc, xfL.alloc,
            isMiniSize xfL.size⟩ : Block) :: S' } k =
          bucket { s with seglist := (s.seglist.set (home_address x.size)
            (x.addr :: bucket s (home_address x.size))) } k := by
        intro k
        simp [hs3def, hs2def, hs1def, bucket, hxfdef]
      apply Wf_merge s _ hw P [] (c :: S') x (by simpa using hs) hxp
      · refine Or.inl ⟨c, S', rfl, hcal, ?_, ?_, ?_⟩
        · simp [hcf1def, hs3def, hs2def, hs1def, hxfdef, sumSizes]
        · simp [hs3def, hs2def, hs1def]
        · simp [hs3def, hs2def, hs1def]
      · intro a ha
        simp [hs3def, hs2def, hs1def] at ha
        right
        exact ⟨ha, fun he => hnl.1 (he ▸ ha), by simp⟩
      · intro k a ha
        rw [hbuck k] at ha
        by_cases hk : k = home_address x.size
        · subst hk
          rw [show bucket { s with seglist := (s.seglist.set
              (home_address x.size) (x.addr :: bucket s
                (home_address x.size))) } (home_address x.size) =
              x.addr :: bucket s (home_address x.size) from by
            apply bucket_set_self
            rw [hw.seg_len]
            exact home_address_lt x.size] at ha
          rcases List.mem_cons.1 ha with ha | ha
          · left
            exact ⟨ha, by simpa [sumSizes] using h16, by simp [sumSizes]⟩
          · right
            exact ⟨ha, fun he => (hnl.2 _) (he ▸ ha), by simp⟩
        · rw [show bucket { s with seglist := (s.seglist.set
              (home_address x.size) (x.addr :: bucket s
                (home_address x.size))) } k = bucket s k from
            bucket_set_ne _ _ _ _ (fun he => hk he.symm)] at ha
          right
          exact ⟨ha, fun he => (hnl.2 k) (he ▸ ha), by simp⟩
      · simp [hs3def, hs2def, hs1def]
        exact hw.mini_nodup
      · intro k
        rw [hbuck k]
        by_cases hk : k = home_address x.size
        · subst hk
          rw [show bucket { s with seglist := (s.seglist.set
              (home_address x.size) (x.addr :: bucket s
                (home_address x.size))) } (home_address x.size) =
              x.addr :: bucket s (home_address x.size) from by
            apply bucket_set_self
            rw [hw.seg_len]
            exact home_address_lt x.size]
          exact List.nodup_cons.2 ⟨hnl.2 _, hw.bucket_nodup _⟩
        · rw [show bucket { s with seglist := (s.seglist.set
              (home_address x.size) (x.addr :: bucket s
                (home_address x.size))) } k = bucket s k from
            bucket_set_ne _ _ _ _ (fun he => hk he.symm)]
          exact hw.bucket_nodup k
      · simp [hs3def, hs2def, hs1def, List.length_set]
        exact hw.seg_len
      · simp [hs3def, hs2def, hs1def]
      · simp [hs3def, hs2def, hs1def]
        exact hw.init

lemma free_wf_b (s : AState) (hw : Wf s) (P S' : List Block) (x c : Block)
    (hs : s.blocks = P ++ x :: c :: S')
    (hal : x.alloc = true) (hxp : x.palloc = true)
    (hcal : c.alloc = false) :
    Wf (mm_free s (x.addr + wsize)) := by
  have hchain := hw.chain
  rw [hs] at hchain
  have hPlt : ∀ y ∈ P, y.addr < x.addr :=
    fun y hy => (seg_front P x (c :: S') hchain y hy).2
  obtain ⟨-, -, hxsz, hxmod, -⟩ :=
    seg_mem s.blocks 8 true false hw.chain x (by rw [hs]; simp)
  have hxsz' : (16 : Nat) ≤ x.size := hxsz
  have htopfst : (segEnd 8 true false s.blocks).1 = s.heapTop := by
    rw [hw.top]
  obtain ⟨hchP2, hchX⟩ :=
    (seg_append P (x :: c :: S') 8 true false).1 hchain
  obtain ⟨hxa, -, -, -, -, -, hchC⟩ := hchX
  obtain ⟨hca, hcszm, hcmod, hcpal, hcmpal, -, hchS'⟩ := hchC
  have hadj : c.addr = x.addr + x.size := by omega
  have hcsz' : (16 : Nat) ≤ c.size := hcszm
  have hbc : x.addr < c.addr := by omega
  have hS'ge : ∀ y ∈ S', c.addr + c.size ≤ y.addr :=
    seg_suffix (P ++ [x]) c S' (by simpa using hchain)
  obtain ⟨-, hctop', -, -, -⟩ :=
    seg_mem s.blocks 8 true false hw.chain c (by rw [hs]; simp)
  have hctople : c.addr + c.size ≤ s.heapTop := by
    rw [← htopfst]; exact hctop'
  have hrb : readBlock s x.addr = x :=
    readBlock_decomp s P (c :: S') x hs
      (fun y hy => Nat.ne_of_lt (hPlt y hy))
  have hnl : x.addr ∉ s.miniRoot ∧ ∀ k, x.addr ∉ bucket s k :=
    alloc_not_listed s hw.chain hw.mini_sound hw.seg_sound x
      (by rw [hs]; simp) hal
  have hcnl := free_listed_unique s hw.chain hw.mini_sound hw.seg_sound c
    (by rw [hs]; simp) hcal
  set xfL : Block := ⟨x.addr, x.size, false, x.palloc, x.mpalloc⟩ with hxfdef
  have hw1 : write_block s x.addr x.size x.mpalloc x.palloc false =
      { s with blocks := P ++ xfL :: c :: S' } :=
    write_block_decomp s P [x] (c :: S') x.addr x.size x.mpalloc x.palloc
      false (by simpa using hs) hPlt
      (by intro y hy
          simp at hy
          subst hy
          exact ⟨Nat.le_refl _, by omega⟩)
      (by intro y hy
          rcases List.mem_cons.1 hy with hy | hy
          · subst hy; omega
          · have := hS'ge y hy; omega)
  rw [mm_free_unfold s x hrb, hw1]
  set s1 : AState := { s with blocks := P ++ xfL :: c :: S' } with hs1def
  have hrb1 : readBlock s1 x.addr = xfL :=
    readBlock_decomp s1 P (c :: S') xfL rfl
      (fun y hy => Nat.ne_of_lt (hPlt y hy))
  have hrc1 : readBlock s1 c.addr = c := by
    apply readBlock_decomp s1 (P ++ [xfL]) S' c (by simp [hs1def])
    intro y hy
    rcases List.mem_append.1 hy with hy | hy
    · exact Nat.ne_of_lt (lt_trans (hPlt y hy) hbc)
    · simp at hy
      subst hy
      exact Nat.ne_of_lt hbc
  have hn : allocAt s1 (x.addr + xfL.size) = false := by
    show allocAt s1 (x.addr + x.size) = false
    unfold allocAt
    rw [← hadj, hrc1, hcal]
  rw [coalesce_case_b s1 x.addr xfL hrb1 hxp hn]
  have hacc : (∃ d S'', S' = d :: S'' ∧ d.addr = c.addr + c.size ∧
      d.palloc = c.alloc ∧ d.mpalloc = isMiniSize c.size ∧ 0 < d.size ∧
      d.addr ≠ s1.heapTop ∧ (∀ y ∈ S'', d.addr + d.size ≤ y.addr)) ∨
    (S' = [] ∧ c.addr + c.size = s1.heapTop ∧ s1.epiPalloc = c.alloc ∧
      s1.epiMpalloc = isMiniSize c.size) := by
    rcases S' with _ | ⟨d, S''⟩
    · right
      have h0 := hw.top
      rw [hs, segEnd_append] at h0
      simp only [segEnd] at h0
      have h1 := congrArg Prod.fst h0
      have h2 := congrArg (fun q => q.2.1) h0
      have h3 := congrArg (fun q => q.2.2) h0
      simp at h1 h2 h3
      refine ⟨rfl, ?_, ?_, ?_⟩
      · show c.addr + c.size = s.heapTop
        omega
      · show s.epiPalloc = c.alloc
        exact h2.symm
      · show s.epiMpalloc = isMiniSize c.size
        exact h3.symm
    · left
      obtain ⟨hda, hdszm, -, hdp, hdm, -, hchS''⟩ := hchS'
      obtain ⟨-, hdtop', hdsz16, -, -⟩ :=
        seg_mem s.blocks 8 true false hw.chain d (by rw [hs]; simp)
      refine ⟨d, S'', rfl, by omega, hdp, hdm, ?_, ?_, ?_⟩
      · unfold min_block_size dsize wsize at hdszm
        omega
      · show d.addr ≠ s.heapTop
        rw [htopfst] at hdtop'
        unfold min_block_size dsize wsize at hdsz16
        omega
      · intro y hy
        have h1 := (seg_mem S'' _ _ _ hchS'' y hy).1
        omega
  have hrmv : removeVagueBlock s1 (x.addr + xfL.size) = eraseListed s1 c := by
    apply removeVague_eq_eraseListed s1 (P ++ [xfL]) S' (x.addr + xfL.size) c
      hadj (by simp [hs1def]) ?_ (by omega) hacc
    intro y hy
    rcases List.mem_append.1 hy with hy | hy
    · exact lt_trans (hPlt y hy) hbc
    · simp at hy
      subst hy
      exact hbc
  rw [hrmv]
  set sE : AState := eraseListed s1 c with hsEdef
  have hbs1 : ∀ j, bucket s1 j = bucket s j := by
    intro j
    simp [bucket, hs1def]
  have hsEb : sE.blocks = P ++ xfL :: c :: S' := by
    rw [hsEdef]
    unfold eraseListed
    split <;> rfl
  have hsEht : sE.heapTop = s.heapTop := by
    rw [hsEdef]
    unfold eraseListed
    split <;> rfl
  have hsEep : sE.epiPalloc = s.epiPalloc := by
    rw [hsEdef]
    unfold eraseListed
    split <;> rfl
  have hsEem : sE.epiMpalloc = s.epiMpalloc := by
    rw [hsEdef]
    unfold eraseListed
    split <;> rfl
  have hsEini : sE.initialized = true := by
    rw [hsEdef]
    unfold eraseListed
    split <;> exact hw.init
  have hsElen : sE.seglist.length = 14 := by
    rw [hsEdef]
    unfold eraseListed
    split
    · exact hw.seg_len
    · simp [List.length_set, hs1def]
      exact hw.seg_len
  have hsEmini : ∀ a ∈ sE.miniRoot, a ∈ s.miniRoot ∧ a ≠ c.addr := by
    intro a ha
    rw [hsEdef] at ha
    unfold eraseListed at ha
    by_cases h16c : c.size = 16
    · rw [if_pos h16c] at ha
      simp only [hs1def] at ha
      have h2 := (List.Nodup.mem_erase_iff hw.mini_nodup).1 (by simpa using ha)
      exact ⟨h2.2, h2.1⟩
    · rw [if_neg h16c] at ha
      simp only [hs1def] at ha
      refine ⟨by simpa using ha, ?_⟩
      intro he
      exact ((hcnl.2 h16c).1) (he ▸ (by simpa using ha))
  have hsEmnd : sE.miniRoot.Nodup := by
    rw [hsEdef]
    unfold eraseListed
    split
    · simp only [hs1def]
      exact List.Nodup.erase _ (by simpa using hw.mini_nodup)
    · simp only [hs1def]
      exact (by simpa using hw.mini_nodup)
  have hsEbuck : ∀ k a, a ∈ bucket sE k → a ∈ bucket s k ∧ a ≠ c.addr := by
    intro k a ha
    rw [hsEdef] at ha
    unfold eraseListed at ha
    by_cases h16c : c.size = 16
    · rw [if_pos h16c] at ha
      have hb : bucket { s1 with miniRoot := s1.miniRoot.erase c.addr } k =
          bucket s k := by
        simp [bucket, hs1def]
      rw [hb] at ha
      exact ⟨ha, fun he => (hcnl.1 h16c k) (he ▸ ha)⟩
    · rw [if_neg h16c] at ha
      by_cases hk : k = home_address c.size
      · subst hk
        rw [bucket_set_self s1 _ _ (by
            have : s1.seglist.length = 14 := by simp [hs1def]; exact hw.seg_len
            rw [this]
            exact home_address_lt c.size)] at ha
        rw [hbs1] at ha
        have h2 := (List.Nodup.mem_erase_iff (hw.bucket_nodup _)).1 ha
        exact ⟨h2.2, h2.1⟩
      · rw [bucket_set_ne s1 _ k _ (fun he => hk he.symm)] at ha
        rw [hbs1] at ha
        exact ⟨ha, fun he => ((hcnl.2 h16c).2 k hk) (he ▸ ha)⟩
  have hsEbnd : ∀ k, (bucket sE k).Nodup := by
    intro k
    rw [hsEdef]
    unfold eraseListed
    by_cases h16c : c.size = 16
    · rw [if_pos h16c]
      have hb : bucket { s1 with miniRoot := s1.miniRoot.erase c.addr } k =
          bucket s k := by
        simp [bucket, hs1def]
      rw [hb]
      exact hw.bucket_nodup k
    · rw [if_neg h16c]
      by_cases hk : k = home_address c.size
      · subst hk
        rw [bucket_set_self s1 _ _ (by
            have : s1.seglist.length = 14 := by simp [hs1def]; exact hw.seg_len
            rw [this]
            exact home_address_lt c.size)]
        rw [hbs1]
        exact List.Nodup.erase _ (hw.bucket_nodup _)
      · rw [bucket_set_ne s1 _ k _ (fun he => hk he.symm)]
        rw [hbs1]
        exact hw.bucket_nodup k
  have hsz2 : sizeAt s1 (x.addr + xfL.size) = c.size := by
    show sizeAt s1 (x.addr + x.size) = c.size
    unfold sizeAt
    rw [← hadj, hrc1]
  have hrbE : readBlock sE x.addr = xfL :=
    readBlock_decomp sE P (c :: S') xfL hsEb
      (fun y hy => Nat.ne_of_lt (hPlt y hy))
  have hmp2 : mpallocAt sE x.addr = x.mpalloc := by
    unfold mpallocAt
    rw [hrbE]
  have hpa2 : pallocAt sE x.addr = x.palloc := by
    unfold pallocAt
    rw [hrbE]
  rw [hsz2, hmp2, hpa2]
  have hw2 : write_block sE x.addr (xfL.size + c.size) x.mpalloc x.palloc
      false = { sE with blocks :=
        P ++ (⟨x.addr, xfL.size + c.size, false, x.palloc,
          x.mpalloc⟩ : Block) :: S' } := by
    apply write_block_decomp sE P [xfL, c] S' x.addr (xfL.size + c.size)
      x.mpalloc x.palloc false (by rw [hsEb]; simp) hPlt
    · intro y hy
      rcases List.mem_cons.1 hy with hy | hy
      · subst hy
        refine ⟨Nat.le_refl _, ?_⟩
        show x.addr < x.addr + (x.size + c.size)
        omega
      · simp at hy
        rw [hy]
        refine ⟨by omega, ?_⟩
        show c.addr < x.addr + (x.size + c.size)
        omega
    · intro y hy
      have := hS'ge y hy
      show x.addr + (x.size + c.size) ≤ y.addr
      omega
  rw [hw2]
  set mgL : Block := ⟨x.addr, xfL.size + c.size, false, x.palloc, x.mpalloc⟩ with hmgdef
  set s3 : AState := { sE with blocks := P ++ mgL :: S' } with hs3def
  have hmgpos : 0 < mgL.size := by
    show 0 < x.size + c.size
    omega
  have hmgne16 : mgL.size ≠ 16 := by
    show x.size + c.size ≠ 16
    omega
  rw [insertVague_normal s3 P S' x.addr mgL rfl rfl
    (fun y hy => Nat.ne_of_lt (hPlt y hy)) hmgne16]
  set s4 : AState := { s3 with seglist := (s3.seglist.set (home_address mgL.size) (mgL.addr :: bucket s3 (home_address mgL.size))) } with hs4def
  have hht4 : s4.heapTop = s.heapTop := by
    simp only [hs4def, hs3def]
    exact hsEht
  have hb3 : ∀ j, bucket s3 j = bucket sE j := by
    intro j
    simp [bucket, hs3def]
  have hs3len : s3.seglist.length = 14 := by
    simp only [hs3def]
    exact hsElen
  have hb4 : ∀ k, bucket s4 k =
      if k = home_address mgL.size then
        mgL.addr :: bucket s3 (home_address mgL.size)
      else bucket s3 k := by
    intro k
    by_cases hk : k = home_address mgL.size
    · subst hk
      rw [if_pos rfl, hs4def]
      exact bucket_set_self s3 _ _ (by rw [hs3len]; exact home_address_lt _)
    · rw [if_neg hk, hs4def]
      exact bucket_set_ne s3 _ k _ (fun he => hk he.symm)
  rcases hacc with ⟨d, S'', hSeq, hdadj, hdpal, hdmpal, hdsz, hdtop, hS''ge⟩ |
    ⟨hSnil, htopc, hepc, hemc⟩
  · subst hSeq
    have hdal : d.alloc = true := by
      obtain ⟨-, -, -, -, -, hdimp, -⟩ := hchS'
      exact hdimp hcal
    have hdadj2 : d.addr = x.addr + (x.size + c.size) := by omega
    have hbd : x.addr < d.addr := by omega
    have hdtop2 : d.addr ≠ s4.heapTop := by
      rw [hht4]
      show d.addr ≠ s.heapTop
      exact hdtop
    rw [update_pair_mid' s4 P S'' x.addr mgL d rfl rfl hPlt hdadj2 hbd
      hS''ge hdtop2 hdsz]
    set df1 : Block := ⟨d.addr, d.size, d.alloc, mgL.alloc, isMiniSize mgL.size⟩ with hdf1def
    set s5 : AState := { s4 with blocks := P ++ mgL :: df1 :: S'' } with hs5def
    have hdtop3 : df1.addr ≠ s5.heapTop := by
      show d.addr ≠ s5.heapTop
      simp only [hs5def]
      rw [hht4]
      exact hdtop
    rw [update_pair_mid' s5 P S'' x.addr mgL df1 rfl rfl hPlt hdadj2 hbd
      hS''ge hdtop3 hdsz]
    set df2 : Block := ⟨df1.addr, df1.size, df1.alloc, mgL.alloc, isMiniSize mgL.size⟩ with hdf2def
    set s6 : AState := { s5 with blocks := P ++ mgL :: df2 :: S'' } with hs6def
    apply Wf_merge s _ hw P [c] (d :: S'') x (by simpa using hs) hxp
    · refine Or.inl ⟨d, S'', rfl, hdal, ?_, ?_, ?_⟩
      · simp [hs6def, hdf2def, hdf1def, hs5def, hs4def, hs3def, hmgdef,
          hxfdef, sumSizes]
      · simp only [hs6def, hs5def, hs4def, hs3def]
        exact hsEep
      · simp only [hs6def, hs5def, hs4def, hs3def]
        exact hsEem
    · intro a ha
      have ha' : a ∈ sE.miniRoot := by
        simpa [hs6def, hs5def, hs4def, hs3def] using ha
      obtain ⟨hmem, hnec⟩ := hsEmini a ha'
      right
      refine ⟨hmem, fun he => hnl.1 (he ▸ hmem), ?_⟩
      intro r hr
      simp at hr
      subst hr
      exact hnec
    · intro k a ha
      have ha4 : a ∈ bucket s4 k := by
        have : bucket s6 k = bucket s4 k := by
          simp [hs6def, hs5def, bucket]
        rw [← this]
        exact ha
      rw [hb4] at ha4
      by_cases hk : k = home_address mgL.size
      · subst hk
        rw [if_pos rfl] at ha4
        rcases List.mem_cons.1 ha4 with ha4 | ha4
        · left
          refine ⟨ha4, ?_, ?_⟩
          · show x.size + sumSizes [c] ≠ 16
            simp [sumSizes]
            omega
          · show home_address (x.size + sumSizes [c]) =
              home_address mgL.size
            simp [sumSizes, hmgdef, hxfdef]
        · rw [hb3] at ha4
          obtain ⟨hmem, hnec⟩ := hsEbuck _ a ha4
          right
          refine ⟨hmem, fun he => hnl.2 _ (he ▸ hmem), ?_⟩
          intro r hr
          simp at hr
          subst hr
          exact hnec
      · rw [if_neg hk, hb3] at ha4
        obtain ⟨hmem, hnec⟩ := hsEbuck _ a ha4
        right
        refine ⟨hmem, fun he => hnl.2 _ (he ▸ hmem), ?_⟩
        intro r hr
        simp at hr
        subst hr
        exact hnec
    · simp only [hs6def, hs5def, hs4def, hs3def]
      exact hsEmnd
    · intro k
      have he6 : bucket s6 k = bucket s4 k := by
        simp [hs6def, hs5def, bucket]
      rw [he6, hb4]
      by_cases hk : k = home_address mgL.size
      · subst hk
        rw [if_pos rfl]
        refine List.nodup_cons.2 ⟨?_, ?_⟩
        · intro hmem
          rw [hb3] at hmem
          obtain ⟨hmem2, -⟩ := hsEbuck _ _ hmem
          exact hnl.2 _ hmem2
        · rw [hb3]
          exact hsEbnd _
      · rw [if_neg hk, hb3]
        exact hsEbnd k
    · simp only [hs6def, hs5def, hs4def, List.length_set]
      exact hs3len
    · simp only [hs6def, hs5def]
      exact hht4
    · simp only [hs6def, hs5def, hs4def, hs3def]
      exact hsEini
  · subst hSnil
    have htopmg : x.addr + (x.size + c.size) = s.heapTop := by
      have : c.addr + c.size = s.heapTop := htopc
      omega
    have htop4 : mgL.addr + mgL.size = s4.heapTop := by
      rw [hht4]
      show x.addr + (x.size + c.size) = s.heapTop
      exact htopmg
    rw [update_pair_last' s4 P x.addr mgL rfl rfl hPlt htop4 hmgpos]
    set s5 : AState := { s4 with epiPalloc := mgL.alloc, epiMpalloc := isMiniSize mgL.size } with hs5def
    have htop5 : mgL.addr + mgL.size = s5.heapTop := by
      have : s5.heapTop = s.heapTop := by
        simp only [hs5def]
        exact hht4
      rw [this]
      exact htopmg
    rw [update_pair_last' s5 P x.addr mgL rfl rfl hPlt htop5 hmgpos]
    set s6 : AState := { s5 with epiPalloc := mgL.alloc, epiMpalloc := isMiniSize mgL.size } with hs6def
    apply Wf_merge s _ hw P [c] [] x (by simpa using hs) hxp
    · refine Or.inr ⟨rfl, ?_, ?_, ?_⟩
      · simp [hs6def, hs5def, hs4def, hs3def, hmgdef, hxfdef, sumSizes]
      · simp [hs6def, hmgdef]
      · simp [hs6def, hmgdef, hxfdef, sumSizes]
    · intro a ha
      have ha' : a ∈ sE.miniRoot := by
        simpa [hs6def, hs5def, hs4def, hs3def] using ha
      obtain ⟨hmem, hnec⟩ := hsEmini a ha'
      right
      refine ⟨hmem, fun he => hnl.1 (he ▸ hmem), ?_⟩
      intro r hr
      simp at hr
      subst hr
      exact hnec
    · intro k a ha
      have ha4 : a ∈ bucket s4 k := by
        have : bucket s6 k = bucket s4 k := by
          simp [hs6def, hs5def, bucket]
        rw [← this]
        exact ha
      rw [hb4] at ha4
      by_cases hk : k = home_address mgL.size
      · subst hk
        rw [if_pos rfl] at ha4
        rcases List.mem_cons.1 ha4 with ha4 | ha4
        · left
          refine ⟨ha4, ?_, ?_⟩
          · show x.size + sumSizes [c] ≠ 16
            simp [sumSizes]
            omega
          · show home_address (x.size + sumSizes [c]) =
              home_address mgL.size
            simp [sumSizes, hmgdef, hxfdef]
        · rw [hb3] at ha4
          obtain ⟨hmem, hnec⟩ := hsEbuck _ a ha4
          right
          refine ⟨hmem, fun he => hnl.2 _ (he ▸ hmem), ?_⟩
          intro r hr
          simp at hr
          subst hr
          exact hnec
      · rw [if_neg hk, hb3] at ha4
        obtain ⟨hmem, hnec⟩ := hsEbuck _ a ha4
        right
        refine ⟨hmem, fun he => hnl.2 _ (he ▸ hmem), ?_⟩
        intro r hr
        simp at hr
        subst hr
        exact hnec
    · simp only [hs6def, hs5def, hs4def, hs3def]
      exact hsEmnd
    · intro k
      have he6 : bucket s6 k = bucket s4 k := by
        simp [hs6def, hs5def, bucket]
      rw [he6, hb4]
      by_cases hk : k = home_address mgL.size
      · subst hk
        rw [if_pos rfl]
        refine List.nodup_cons.2 ⟨?_, ?_⟩
        · intro hmem
          rw [hb3] at hmem
          obtain ⟨hmem2, -⟩ := hsEbuck _ _ hmem
          exact hnl.2 _ hmem2
        · rw [hb3]
          exact hsEbnd _
      · rw [if_neg hk, hb3]
        exact hsEbnd k
    · simp only [hs6def, hs5def, hs4def, List.length_set]
      exact hs3len
    · simp only [hs6def, hs5def]
      exact hht4
    · simp only [hs6def, hs5def, hs4def, hs3def]
      exact hsEini

lemma free_wf_c (s : AState) (hw : Wf s) (P Q : List Block) (x : Block)
    (hs : s.blocks = P ++ x :: Q)
    (hal : x.alloc = true) (hxp : x.palloc = false)
    (hnext : Q = [] ∨ ∃ c S', Q = c :: S' ∧ c.alloc = true) :
    Wf (mm_free s (x.addr + wsize)) := by
  have hchain0 := hw.chain
  rw [hs] at hchain0
  rcases List.eq_nil_or_concat P with rfl | ⟨P', p, rfl⟩
  · rw [List.nil_append] at hchain0
    obtain ⟨-, -, -, hxpt, -, -, -⟩ := hchain0
    simp [hxp] at hxpt
  rw [List.concat_eq_append] at hs hchain0
  have hs' : s.blocks = P' ++ p :: x :: Q := by simpa using hs
  have hchain : seg 8 true false (P' ++ p :: x :: Q) := by
    simpa using hchain0
  obtain ⟨hchP', hchPX⟩ :=
    (seg_append P' (p :: x :: Q) 8 true false).1 hchain
  obtain ⟨hpa, hpszm, hpmod, hppal, hpmpal, hpimp, hchX2⟩ := hchPX
  obtain ⟨hxa2, hxszm, hxmod, hxpal2, hxmp2, -, hchQ2⟩ := hchX2
  have hpsz' : (16 : Nat) ≤ p.size := hpszm
  have hxsz' : (16 : Nat) ≤ x.size := hxszm
  have hadp : x.addr = p.addr + p.size := by omega
  have hpal : p.alloc = false := hxpal2.symm.trans hxp
  have hppt : p.palloc = true := by
    cases hpp : p.palloc
    · have h1 : (segEnd 8 true false P').2.1 = false := by
        rw [← hppal, hpp]
      have h2 := hpimp h1
      rw [hpal] at h2
      cases h2
    · rfl
  have hP'lt : ∀ y ∈ P', y.addr < p.addr :=
    fun y hy => (seg_front P' p (x :: Q) hchain y hy).2
  have hP'le : ∀ y ∈ P', y.addr + y.size ≤ p.addr :=
    fun y hy => (seg_front P' p (x :: Q) hchain y hy).1
  have hPlt : ∀ y ∈ P' ++ [p], y.addr < x.addr := by
    intro y hy
    rcases List.mem_append.1 hy with hy | hy
    · have := hP'lt y hy
      omega
    · simp at hy
      rw [hy]
      omega
  have hQge : ∀ y ∈ Q, x.addr + x.size ≤ y.addr :=
    seg_suffix (P' ++ [p]) x Q (by simpa using hchain)
  obtain ⟨hp8, -, -, -, -⟩ :=
    seg_mem s.blocks 8 true false hw.chain p (by rw [hs']; simp)
  have htopfst : (segEnd 8 true false s.blocks).1 = s.heapTop := by
    rw [hw.top]
  obtain ⟨-, hxtople', -, -, -⟩ :=
    seg_mem s.blocks 8 true false hw.chain x (by rw [hs']; simp)
  have hxtople : x.addr + x.size ≤ s.heapTop := by
    rw [← htopfst]; exact hxtople'
  have hrb : readBlock s x.addr = x :=
    readBlock_decomp s (P' ++ [p]) Q x hs
      (fun y hy => Nat.ne_of_lt (hPlt y hy))
  have hnl : x.addr ∉ s.miniRoot ∧ ∀ k, x.addr ∉ bucket s k :=
    alloc_not_listed s hw.chain hw.mini_sound hw.seg_sound x
      (by rw [hs']; simp) hal
  have hpnl := free_listed_unique s hw.chain hw.mini_sound hw.seg_sound p
    (by rw [hs']; simp) hpal
  set xfL : Block := ⟨x.addr, x.size, false, x.palloc, x.mpalloc⟩ with hxfdef
  have hw1 : write_block s x.addr x.size x.mpalloc x.palloc false =
      { s with blocks := P' ++ p :: xfL :: Q } := by
    rw [write_block_decomp s (P' ++ [p]) [x] Q x.addr x.size x.mpalloc
      x.palloc false (by simpa using hs) hPlt
      (by intro y hy
          simp at hy
          rw [hy]
          exact ⟨Nat.le_refl _, by omega⟩)
      hQge]
    simp [hxfdef]
  rw [mm_free_unfold s x hrb, hw1]
  set s1 : AState := { s with blocks := P' ++ p :: xfL :: Q } with hs1def
  have hrb1 : readBlock s1 x.addr = xfL := by
    apply readBlock_decomp s1 (P' ++ [p]) Q xfL (by simp [hs1def])
    intro y hy
    exact Nat.ne_of_lt (hPlt y hy)
  have hrp1 : readBlock s1 p.addr = p :=
    readBlock_decomp s1 P' (xfL :: Q) p rfl
      (fun y hy => Nat.ne_of_lt (hP'lt y hy))
  have hsucc : (∃ c S', Q = c :: S' ∧ c.alloc = true ∧
      c.addr = x.addr + x.size ∧ 0 < c.size ∧ c.addr ≠ s.heapTop ∧
      (∀ y ∈ S', c.addr + c.size ≤ y.addr)) ∨
    (Q = [] ∧ x.addr + x.size = s.heapTop) := by
    rcases hnext with rfl | ⟨c, S', rfl, hcal⟩
    · right
      refine ⟨rfl, ?_⟩
      have h0 := hw.top
      rw [hs, segEnd_append] at h0
      simp only [segEnd] at h0
      have h1 := congrArg Prod.fst h0
      simp at h1
      obtain ⟨-, hchX'⟩ :=
        (seg_append (P' ++ [p]) [x] 8 true false).1 (by simpa using hchain)
      obtain ⟨hxa', -⟩ := hchX'
      omega
    · left
      obtain ⟨hca', hcszm', -, -, -, -, hchS''⟩ := hchQ2
      obtain ⟨-, hctople', hcsz16', -, -⟩ :=
        seg_mem s.blocks 8 true false hw.chain c (by rw [hs']; simp)
      refine ⟨c, S', rfl, hcal, by omega, ?_, ?_, ?_⟩
      · unfold min_block_size dsize wsize at hcszm'
        omega
      · rw [htopfst] at hctople'
        unfold min_block_size dsize wsize at hcsz16'
        omega
      · intro y hy
        have h1 := (seg_mem S' _ _ _ hchS'' y hy).1
        omega
  have hn : allocAt s1 (x.addr + xfL.size) = true := by
    show allocAt s1 (x.addr + x.size) = true
    rcases hsucc with ⟨c, S', rfl, hcal, hcadj, -, -, -⟩ | ⟨rfl, htopx⟩
    · have hrc1 : readBlock s1 c.addr = c := by
        apply readBlock_decomp s1 (P' ++ [p, xfL]) S' c (by simp [hs1def])
        intro y hy
        rcases List.mem_append.1 hy with hy | hy
        · have := hP'lt y hy
          omega
        · rcases List.mem_cons.1 hy with hy | hy
          · rw [hy]; omega
          · simp at hy
            rw [hy]
            show x.addr ≠ c.addr
            omega
      unfold allocAt
      rw [← hcadj, hrc1, hcal]
    · unfold allocAt
      rw [readBlock_none s1 (x.addr + x.size) ?_ (by simp [htopx])]
      intro y hy
      simp [hs1def] at hy
      rcases hy with hy | hy | hy
      · have := hP'lt y hy; omega
      · subst hy; omega
      · subst hy; simp [hxfdef]; omega
  have hfp : find_prev s1 x.addr xfL.mpalloc = some p.addr := by
    have := find_prev_eq s1 P' Q p xfL rfl hP'le hadp hpsz' hp8 hxmp2
    exact this
  rw [coalesce_case_c s1 x.addr xfL p.addr hrb1 hxp hn hfp]
  have hacc : (∃ c S', (xfL :: Q) = c :: S' ∧ c.addr = p.addr + p.size ∧
      c.palloc = p.alloc ∧ c.mpalloc = isMiniSize p.size ∧ 0 < c.size ∧
      c.addr ≠ s1.heapTop ∧ (∀ y ∈ S', c.addr + c.size ≤ y.addr)) ∨
    ((xfL :: Q) = [] ∧ p.addr + p.size = s1.heapTop ∧
      s1.epiPalloc = p.alloc ∧ s1.epiMpalloc = isMiniSize p.size) := by
    left
    refine ⟨xfL, Q, rfl, hadp, hxpal2, hxmp2, by show 0 < x.size; omega,
      ?_, ?_⟩
    · show x.addr ≠ s.heapTop
      omega
    · intro y hy
      have := hQge y hy
      show x.addr + x.size ≤ y.addr
      omega
  have hrmv : removeVagueBlock s1 p.addr = eraseListed s1 p :=
    removeVague_eq_eraseListed s1 P' (xfL :: Q) p.addr p rfl rfl hP'lt
      (by omega) hacc
  rw [hrmv]
  set sE : AState := eraseListed s1 p with hsEdef
  have hbs1 : ∀ j, bucket s1 j = bucket s j := by
    intro j
    simp [bucket, hs1def]
  have hsEb : sE.blocks = P' ++ p :: xfL :: Q := by
    rw [hsEdef]; unfold eraseListed; split <;> rfl
  have hsEht : sE.heapTop = s.heapTop := by
    rw [hsEdef]; unfold eraseListed; split <;> rfl
  have hsEep : sE.epiPalloc = s.epiPalloc := by
    rw [hsEdef]; unfold eraseListed; split <;> rfl
  have hsEem : sE.epiMpalloc = s.epiMpalloc := by
    rw [hsEdef]; unfold eraseListed; split <;> rfl
  have hsEini : sE.initialized = true := by
    rw [hsEdef]; unfold eraseListed; split <;> exact hw.init
  have hsElen : sE.seglist.length = 14 := by
    rw [hsEdef]
    unfold eraseListed
    split
    · exact hw.seg_len
    · simp [List.length_set, hs1def]
      exact hw.seg_len
  have hsEmini : ∀ a ∈ sE.miniRoot, a ∈ s.miniRoot ∧ a ≠ p.addr := by
    intro a ha
    rw [hsEdef] at ha
    unfold eraseListed at ha
    by_cases h16p : p.size = 16
    · rw [if_pos h16p] at ha
      simp only [hs1def] at ha
      have h2 := (List.Nodup.mem_erase_iff hw.mini_nodup).1
        (by simpa using ha)
      exact ⟨h2.2, h2.1⟩
    · rw [if_neg h16p] at ha
      simp only [hs1def] at ha
      refine ⟨by simpa using ha, ?_⟩
      intro he
      exact ((hpnl.2 h16p).1) (he ▸ (by simpa using ha))
  have hsEmnd : sE.miniRoot.Nodup := by
    rw [hsEdef]
    unfold eraseListed
    split
    · simp only [hs1def]
      exact List.Nodup.erase _ (by simpa using hw.mini_nodup)
    · simp only [hs1def]
      exact (by simpa using hw.mini_nodup)
  have hsEbuck : ∀ k a, a ∈ bucket sE k → a ∈ bucket s k ∧ a ≠ p.addr := by
    intro k a ha
    rw [hsEdef] at ha
    unfold eraseListed at ha
    by_cases h16p : p.size = 16
    · rw [if_pos h16p] at ha
      have hb : bucket { s1 with miniRoot := s1.miniRoot.erase p.addr } k =
          bucket s k := by
        simp [bucket, hs1def]
      rw [hb] at ha
      exact ⟨ha, fun he => (hpnl.1 h16p k) (he ▸ ha)⟩
    · rw [if_neg h16p] at ha
      by_cases hk : k = home_address p.size
      · subst hk
        rw [bucket_set_self s1 _ _ (by
            have : s1.seglist.length = 14 := by
              simp [hs1def]; exact hw.seg_len
            rw [this]
            exact home_address_lt p.size)] at ha
        rw [hbs1] at ha
        have h2 := (List.Nodup.mem_erase_iff (hw.bucket_nodup _)).1 ha
        exact ⟨h2.2, h2.1⟩
      · rw [bucket_set_ne s1 _ k _ (fun he => hk he.symm)] at ha
        rw [hbs1] at ha
        exact ⟨ha, fun he => ((hpnl.2 h16p).2 k hk) (he ▸ ha)⟩
  have hsEbnd : ∀ k, (bucket sE k).Nodup := by
    intro k
    rw [hsEdef]
    unfold eraseListed
    by_cases h16p : p.size = 16
    · rw [if_pos h16p]
      have hb : bucket { s1 with miniRoot := s1.miniRoot.erase p.addr } k =
          bucket s k := by
        simp [bucket, hs1def]
      rw [hb]
      exact hw.bucket_nodup k
    · rw [if_neg h16p]
      by_cases hk : k = home_address p.size
      · subst hk
        rw [bucket_set_self s1 _ _ (by
            have : s1.seglist.length = 14 := by
              simp [hs1def]; exact hw.seg_len
            rw [this]
            exact home_address_lt p.size)]
        rw [hbs1]
        exact List.Nodup.erase _ (hw.bucket_nodup _)
      · rw [bucket_set_ne s1 _ k _ (fun he => hk he.symm)]
        rw [hbs1]
        exact hw.bucket_nodup k
  have hszp : sizeAt s1 p.addr = p.size := by
    unfold sizeAt
    rw [hrp1]
  have hmpp : mpallocAt s1 p.addr = p.mpalloc := by
    unfold mpallocAt
    rw [hrp1]
  have hpap : pallocAt s1 p.addr = p.palloc := by
    unfold pallocAt
    rw [hrp1]
  rw [hszp, hmpp, hpap]
  have hw2 : write_block sE p.addr (p.size + xfL.size) p.mpalloc p.palloc
      false = { sE with blocks :=
        P' ++ (⟨p.addr, p.size + xfL.size, false, p.palloc,
          p.mpalloc⟩ : Block) :: Q } := by
    apply write_block_decomp sE P' [p, xfL] Q p.addr (p.size + xfL.size)
      p.mpalloc p.palloc false (by rw [hsEb]; simp) hP'lt
    · intro y hy
      rcases List.mem_cons.1 hy with hy | hy
      · rw [hy]
        refine ⟨Nat.le_refl _, ?_⟩
        show p.addr < p.addr + (p.size + x.size)
        omega
      · simp at hy
        rw [hy]
        refine ⟨?_, ?_⟩
        · show p.addr ≤ x.addr
          omega
        · show x.addr < p.addr + (p.size + x.size)
          omega
    · intro y hy
      have := hQge y hy
      show p.addr + (p.size + x.size) ≤ y.addr
      omega
  rw [hw2]
  set mgL : Block := ⟨p.addr, p.size + xfL.size, false, p.palloc, p.mpalloc⟩ with hmgdef
  set s3 : AState := { sE with blocks := P' ++ mgL :: Q } with hs3def
  have hmgpos : 0 < mgL.size := by
    show 0 < p.size + x.size
    omega
  have hmgne16 : mgL.size ≠ 16 := by
    show p.size + x.size ≠ 16
    omega
  rw [insertVague_normal s3 P' Q p.addr mgL rfl rfl
    (fun y hy => Nat.ne_of_lt (hP'lt y hy)) hmgne16]
  set s4 : AState := { s3 with seglist := (s3.seglist.set (home_address mgL.size) (mgL.addr :: bucket s3 (home_address mgL.size))) } with hs4def
  have hht4 : s4.heapTop = s.heapTop := by
    simp only [hs4def, hs3def]
    exact hsEht
  have hb3 : ∀ j, bucket s3 j = bucket sE j := by
    intro j
    simp [bucket, hs3def]
  have hs3len : s3.seglist.length = 14 := by
    simp only [hs3def]
    exact hsElen
  have hb4 : ∀ k, bucket s4 k =
      if k = home_address mgL.size then
        mgL.addr :: bucket s3 (home_address mgL.size)
      else bucket s3 k := by
    intro k
    by_cases hk : k = home_address mgL.size
    · subst hk
      rw [if_pos rfl, hs4def]
      exact bucket_set_self s3 _ _ (by rw [hs3len]; exact home_address_lt _)
    · rw [if_neg hk, hs4def]
      exact bucket_set_ne s3 _ k _ (fun he => hk he.symm)
  rcases hsucc with ⟨c, S', rfl, hcal, hcadj, hcszpos, hctopne, hS'ge⟩ |
    ⟨rfl, htopx⟩
  · have hcadj2 : c.addr = p.addr + (p.size + x.size) := by omega
    have hbc2 : p.addr < c.addr := by omega
    have hctop2 : c.addr ≠ s4.heapTop := by
      rw [hht4]
      exact hctopne
    rw [update_pair_mid s4 P' S' p.addr mgL c rfl rfl hP'lt hcadj2 hbc2
      hS'ge hctop2 hcszpos]
    set cf1 : Block := ⟨c.addr, c.size, c.alloc, mgL.alloc, isMiniSize mgL.size⟩ with hcf1def
    set s5 : AState := { s4 with blocks := P' ++ mgL :: cf1 :: S' } with hs5def
    have hctop3 : cf1.addr ≠ s5.heapTop := by
      show c.addr ≠ s5.heapTop
      simp only [hs5def]
      rw [hht4]
      exact hctopne
    rw [update_pair_mid' s5 P' S' p.addr mgL cf1 rfl rfl hP'lt hcadj2 hbc2
      hS'ge hctop3 hcszpos]
    set cf2 : Block := ⟨cf1.addr, cf1.size, cf1.alloc, mgL.alloc, isMiniSize mgL.size⟩ with hcf2def
    set s6 : AState := { s5 with blocks := P' ++ mgL :: cf2 :: S' } with hs6def
    apply Wf_merge s _ hw P' [x] (c :: S') p (by simpa using hs) hppt
    · refine Or.inl ⟨c, S', rfl, hcal, ?_, ?_, ?_⟩
      · simp [hs6def, hcf2def, hcf1def, hs5def, hs4def, hs3def, hmgdef,
          hxfdef, sumSizes]
      · simp only [hs6def, hs5def, hs4def, hs3def]
        exact hsEep
      · simp only [hs6def, hs5def, hs4def, hs3def]
        exact hsEem
    · intro a ha
      have ha' : a ∈ sE.miniRoot := by
        simpa [hs6def, hs5def, hs4def, hs3def] using ha
      obtain ⟨hmem, hnep⟩ := hsEmini a ha'
      right
      refine ⟨hmem, hnep, ?_⟩
      intro r hr
      simp at hr
      subst hr
      exact fun he => hnl.1 (he ▸ hmem)
    · intro k a ha
      have ha4 : a ∈ bucket s4 k := by
        have : bucket s6 k = bucket s4 k := by
          simp [hs6def, hs5def, bucket]
        rw [← this]
        exact ha
      rw [hb4] at ha4
      by_cases hk : k = home_address mgL.size
      · subst hk
        rw [if_pos rfl] at ha4
        rcases List.mem_cons.1 ha4 with ha4 | ha4
        · left
          refine ⟨ha4, ?_, ?_⟩
          · show p.size + sumSizes [x] ≠ 16
            simp [sumSizes]
            omega
          · show home_address (p.size + sumSizes [x]) =
              home_address mgL.size
            simp [sumSizes, hmgdef, hxfdef]
        · rw [hb3] at ha4
          obtain ⟨hmem, hnep⟩ := hsEbuck _ a ha4
          right
          refine ⟨hmem, hnep, ?_⟩
          intro r hr
          simp at hr
          subst hr
          exact fun he => hnl.2 _ (he ▸ hmem)
      · rw [if_neg hk, hb3] at ha4
        obtain ⟨hmem, hnep⟩ := hsEbuck _ a ha4
        right
        refine ⟨hmem, hnep, ?_⟩
        intro r hr
        simp at hr
        subst hr
        exact fun he => hnl.2 _ (he ▸ hmem)
    · simp only [hs6def, hs5def, hs4def, hs3def]
      exact hsEmnd
    · intro k
      have he6 : bucket s6 k = bucket s4 k := by
        simp [hs6def, hs5def, bucket]
      rw [he6, hb4]
      by_cases hk : k = home_address mgL.size
      · subst hk
        rw [if_pos rfl]
        refine List.nodup_cons.2 ⟨?_, ?_⟩
        · intro hmem
          rw [hb3] at hmem
          obtain ⟨hmem2, hne2⟩ := hsEbuck _ _ hmem
          exact hne2 rfl
        · rw [hb3]
          exact hsEbnd _
      · rw [if_neg hk, hb3]
        exact hsEbnd k
    · simp only [hs6def, hs5def, hs4def, List.length_set]
      exact hs3len
    · simp only [hs6def, hs5def]
      exact hht4
    · simp only [hs6def, hs5def, hs4def, hs3def]
      exact hsEini
  · have htopmg : p.addr + (p.size + x.size) = s.heapTop := by omega
    have htop4 : mgL.addr + mgL.size = s4.heapTop := by
      rw [hht4]
      show p.addr + (p.size + x.size) = s.heapTop
      exact htopmg
    rw [update_pair_last s4 P' p.addr mgL rfl rfl hP'lt htop4 hmgpos]
    set s5 : AState := { s4 with epiPalloc := mgL.alloc, epiMpalloc := isMiniSize mgL.size } with hs5def
    have htop5 : mgL.addr + mgL.size = s5.heapTop := by
      have : s5.heapTop = s.heapTop := by
        simp only [hs5def]
        exact hht4
      rw [this]
      exact htopmg
    rw [update_pair_last' s5 P' p.addr mgL rfl rfl hP'lt htop5 hmgpos]
    set s6 : AState := { s5 with epiPalloc := mgL.alloc, epiMpalloc := isMiniSize mgL.size } with hs6def
    apply Wf_merge s _ hw P' [x] [] p (by simpa using hs) hppt
    · refine Or.inr ⟨rfl, ?_, ?_, ?_⟩
      · simp [hs6def, hs5def, hs4def, hs3def, hmgdef, hxfdef, sumSizes]
      · simp [hs6def, hmgdef]
      · simp [hs6def, hmgdef, hxfdef, sumSizes]
    · intro a ha
      have ha' : a ∈ sE.miniRoot := by
        simpa [hs6def, hs5def, hs4def, hs3def] using ha
      obtain ⟨hmem, hnep⟩ := hsEmini a ha'
      right
      refine ⟨hmem, hnep, ?_⟩
      intro r hr
      simp at hr
      subst hr
      exact fun he => hnl.1 (he ▸ hmem)
    · intro k a ha
      have ha4 : a ∈ bucket s4 k := by
        have : bucket s6 k = bucket s4 k := by
          simp [hs6def, hs5def, bucket]
        rw [← this]
        exact ha
      rw [hb4] at ha4
      by_cases hk : k = home_address mgL.size
      · subst hk
        rw [if_pos rfl] at ha4
        rcases List.mem_cons.1 ha4 with ha4 | ha4
        · left
          refine ⟨ha4, ?_, ?_⟩
          · show p.size + sumSizes [x] ≠ 16
            simp [sumSizes]
            omega
          · show home_address (p.size + sumSizes [x]) =
              home_address mgL.size
            simp [sumSizes, hmgdef, hxfdef]
        · rw [hb3] at ha4
          obtain ⟨hmem, hnep⟩ := hsEbuck _ a ha4
          right
          refine ⟨hmem, hnep, ?_⟩
          intro r hr
          simp at hr
          subst hr
          exact fun he => hnl.2 _ (he ▸ hmem)
      · rw [if_neg hk, hb3] at ha4
        obtain ⟨hmem, hnep⟩ := hsEbuck _ a ha4
        right
        refine ⟨hmem, hnep, ?_⟩
        intro r hr
        simp at hr
        subst hr
        exact fun he => hnl.2 _ (he ▸ hmem)
    · simp only [hs6def, hs5def, hs4def, hs3def]
      exact hsEmnd
    · intro k
      have he6 : bucket s6 k = bucket s4 k := by
        simp [hs6def, hs5def, bucket]
      rw [he6, hb4]
      by_cases hk : k = home_address mgL.size
      · subst hk
        rw [if_pos rfl]
        refine List.nodup_cons.2 ⟨?_, ?_⟩
        · intro hmem
          rw [hb3] at hmem
          obtain ⟨hmem2, hne2⟩ := hsEbuck _ _ hmem
          exact hne2 rfl
        · rw [hb3]
          exact hsEbnd _
      · rw [if_neg hk, hb3]
        exact hsEbnd k
    · simp only [hs6def, hs5def, hs4def, List.length_set]
      exact hs3len
    · simp only [hs6def, hs5def]
      exact hht4
    · simp only [hs6def, hs5def, hs4def, hs3def]
      exact hsEini

lemma eraseListed_blocks (s : AState) (x : Block) :
    (eraseListed s x).blocks = s.blocks := by
  unfold eraseListed
  split <;> rfl

lemma eraseListed_heapTop (s : AState) (x : Block) :
    (eraseListed s x).heapTop = s.heapTop := by
  unfold eraseListed
  split <;> rfl

lemma eraseListed_epiPalloc (s : AState) (x : Block) :
    (eraseListed s x).epiPalloc = s.epiPalloc := by
  unfold eraseListed
  split <;> rfl

lemma eraseListed_epiMpalloc (s : AState) (x : Block) :
    (eraseListed s x).epiMpalloc = s.epiMpalloc := by
  unfold eraseListed
  split <;> rfl

lemma eraseListed_initialized (s : AState) (x : Block) :
    (eraseListed s x).initialized = s.initialized := by
  unfold eraseListed
  split <;> rfl

lemma eraseListed_len (s : AState) (x : Block)
    (h : s.seglist.length = 14) : (eraseListed s x).seglist.length = 14 := by
  unfold eraseListed
  split
  · exact h
  · simpa [List.length_set] using h

lemma eraseListed_miniRoot_sub (s : AState) (x : Block)
    (hnd : s.miniRoot.Nodup)
    (hno : x.size ≠ 16 → x.addr ∉ s.miniRoot) :
    ∀ a ∈ (eraseListed s x).miniRoot, a ∈ s.miniRoot ∧ a ≠ x.addr := by
  intro a ha
  unfold eraseListed at ha
  by_cases h16 : x.size = 16
  · rw [if_pos h16] at ha
    replace ha : a ∈ s.miniRoot.erase x.addr := ha
    have h2 := (List.Nodup.mem_erase_iff hnd).1 ha
    exact ⟨h2.2, h2.1⟩
  · rw [if_neg h16] at ha
    replace ha : a ∈ s.miniRoot := ha
    exact ⟨ha, fun he => (hno h16) (he ▸ ha)⟩

lemma eraseListed_mini_nodup (s : AState) (x : Block)
    (hnd : s.miniRoot.Nodup) : (eraseListed s x).miniRoot.Nodup := by
  unfold eraseListed
  split
  · exact List.Nodup.erase _ hnd
  · exact hnd

lemma eraseListed_bucket_sub (s : AState) (x : Block)
    (hlen : s.seglist.length = 14)
    (hbnd : ∀ k, (bucket s k).Nodup)
    (hm : x.size = 16 → ∀ k, x.addr ∉ bucket s k)
    (hn : x.size ≠ 16 → ∀ k, k ≠ home_address x.size →
      x.addr ∉ bucket s k) :
    ∀ k a, a ∈ bucket (eraseListed s x) k →
      a ∈ bucket s k ∧ a ≠ x.addr := by
  intro k a ha
  unfold eraseListed at ha
  by_cases h16 : x.size = 16
  · rw [if_pos h16] at ha
    replace ha : a ∈ bucket s k := ha
    exact ⟨ha, fun he => (hm h16 k) (he ▸ ha)⟩
  · rw [if_neg h16] at ha
    by_cases hk : k = home_address x.size
    · subst hk
      rw [bucket_set_self s _ _
        (by rw [hlen]; exact home_address_lt x.size)] at ha
      have h2 := (List.Nodup.mem_erase_iff (hbnd _)).1 ha
      exact ⟨h2.2, h2.1⟩
    · rw [bucket_set_ne s _ k _ (fun he => hk he.symm)] at ha
      exact ⟨ha, fun he => (hn h16 k hk) (he ▸ ha)⟩

lemma eraseListed_bucket_nodup (s : AState) (x : Block)
    (hlen : s.seglist.length = 14)
    (hbnd : ∀ k, (bucket s k).Nodup) :
    ∀ k, (bucket (eraseListed s x) k).Nodup := by
  intro k
  unfold eraseListed
  by_cases h16 : x.size = 16
  · rw [if_pos h16]
    exact hbnd k
  · rw [if_neg h16]
    by_cases hk : k = home_address x.size
    · subst hk
      rw [bucket_set_self s _ _
        (by rw [hlen]; exact home_address_lt x.size)]
      exact List.Nodup.erase _ (hbnd _)
    · rw [bucket_set_ne s _ k _ (fun he => hk he.symm)]
      exact hbnd k

lemma free_wf_a (s : AState) (hw : Wf s) (P S' : List Block) (x c : Block)
    (hs : s.blocks = P ++ x :: c :: S')
    (hal : x.alloc = true) (hxp : x.palloc = false)
    (hcal : c.alloc = false) :
    Wf (mm_free s (x.addr + wsize)) := by
  have hchain0 := hw.chain
  rw [hs] at hchain0
  rcases List.eq_nil_or_concat P with rfl | ⟨P', p, rfl⟩
  · rw [List.nil_append] at hchain0
    obtain ⟨-, -, -, hxpt, -, -, -⟩ := hchain0
    simp [hxp] at hxpt
  rw [List.concat_eq_append] at hs hchain0
  have hs' : s.blocks = P' ++ p :: x :: c :: S' := by simpa using hs
  have hchain : seg 8 true false (P' ++ p :: x :: c :: S') := by
    simpa using hchain0
  obtain ⟨hchP', hchPX⟩ :=
    (seg_append P' (p :: x :: c :: S') 8 true false).1 hchain
  obtain ⟨hpa, hpszm, hpmod, hppal, hpmpal, hpimp, hchX2⟩ := hchPX
  obtain ⟨hxa2, hxszm, hxmod, hxpal2, hxmp2, -, hchC2⟩ := hchX2
  obtain ⟨hca2, hcszm, hcmod, hcpal2, hcmpal2, -, hchS'⟩ := hchC2
  have hpsz' : (16 : Nat) ≤ p.size := hpszm
  have hxsz' : (16 : Nat) ≤ x.size := hxszm
  have hcsz' : (16 : Nat) ≤ c.size := hcszm
  have hadp : x.addr = p.addr + p.size := by omega
  have hadjc : c.addr = x.addr + x.size := by omega
  have hpal : p.alloc = false := hxpal2.symm.trans hxp
  have hppt : p.palloc = true := by
    cases hpp : p.palloc
    · have h1 : (segEnd 8 true false P').2.1 = false := by
        rw [← hppal, hpp]
      have h2 := hpimp h1
      rw [hpal] at h2
      cases h2
    · rfl
  have hP'lt : ∀ y ∈ P', y.addr < p.addr :=
    fun y hy => (seg_front P' p (x :: c :: S') hchain y hy).2
  have hP'le : ∀ y ∈ P', y.addr + y.size ≤ p.addr :=
    fun y hy => (seg_front P' p (x :: c :: S') hchain y hy).1
  have hPlt : ∀ y ∈ P' ++ [p], y.addr < x.addr := by
    intro y hy
    rcases List.mem_append.1 hy with hy | hy
    · have := hP'lt y hy
      omega
    · simp at hy
      rw [hy]
      omega
  have hS'ge : ∀ y ∈ S', c.addr + c.size ≤ y.addr :=
    seg_suffix (P' ++ [p] ++ [x]) c S' (by simpa using hchain)
  obtain ⟨hp8, -, -, -, -⟩ :=
    seg_mem s.blocks 8 true false hw.chain p (by rw [hs']; simp)
  have htopfst : (segEnd 8 true false s.blocks).1 = s.heapTop := by
    rw [hw.top]
  obtain ⟨-, hctople', -, -, -⟩ :=
    seg_mem s.blocks 8 true false hw.chain c (by rw [hs']; simp)
  have hctople : c.addr + c.size ≤ s.heapTop := by
    rw [← htopfst]; exact hctople'
  have hrb : readBlock s x.addr = x :=
    readBlock_decomp s (P' ++ [p]) (c :: S') x hs
      (fun y hy => Nat.ne_of_lt (hPlt y hy))
  have hnl : x.addr ∉ s.miniRoot ∧ ∀ k, x.addr ∉ bucket s k :=
    alloc_not_listed s hw.chain hw.mini_sound hw.seg_sound x
      (by rw [hs']; simp) hal
  have hpnl := free_listed_unique s hw.chain hw.mini_sound hw.seg_sound p
    (by rw [hs']; simp) hpal
  have hcnl := free_listed_unique s hw.chain hw.mini_sound hw.seg_sound c
    (by rw [hs']; simp) hcal
  set xfL : Block := ⟨x.addr, x.size, false, x.palloc, x.mpalloc⟩ with hxfdef
  have hw1 : write_block s x.addr x.size x.mpalloc x.palloc false =
      { s with blocks := P' ++ p :: xfL :: c :: S' } := by
    rw [write_block_decomp s (P' ++ [p]) [x] (c :: S') x.addr x.size
      x.mpalloc x.palloc false (by simpa using hs) hPlt
      (by intro y hy
          simp at hy
          rw [hy]
          exact ⟨Nat.le_refl _, by omega⟩)
      (by intro y hy
          rcases List.mem_cons.1 hy with hy | hy
          · rw [hy]; omega
          · have := hS'ge y hy; omega)]
    simp [hxfdef]
  rw [mm_free_unfold s x hrb, hw1]
  set s1 : AState := { s with blocks := P' ++ p :: xfL :: c :: S' }
    with hs1def
  have hrb1 : readBlock s1 x.addr = xfL := by
    apply readBlock_decomp s1 (P' ++ [p]) (c :: S') xfL (by simp [hs1def])
    intro y hy
    exact Nat.ne_of_lt (hPlt y hy)
  have hrp1 : readBlock s1 p.addr = p :=
    readBlock_decomp s1 P' (xfL :: c :: S') p rfl
      (fun y hy => Nat.ne_of_lt (hP'lt y hy))
  have hrc1 : readBlock s1 c.addr = c := by
    apply readBlock_decomp s1 (P' ++ [p, xfL]) S' c (by simp [hs1def])
    intro y hy
    rcases List.mem_append.1 hy with hy | hy
    · have := hP'lt y hy
      omega
    · rcases List.mem_cons.1 hy with hy | hy
      · rw [hy]; omega
      · simp at hy
        rw [hy]
        show x.addr ≠ c.addr
        omega
  have hn : allocAt s1 (x.addr + xfL.size) = false := by
    show allocAt s1 (x.addr + x.size) = false
    unfold allocAt
    rw [← hadjc, hrc1, hcal]
  have hfp : find_prev s1 x.addr xfL.mpalloc = some p.addr :=
    find_prev_eq s1 P' (c :: S') p xfL rfl hP'le hadp hpsz' hp8 hxmp2
  rw [coalesce_case_a s1 x.addr xfL p.addr hrb1 hxp hn hfp]
  have hsucc2 : (∃ d S'', S' = d :: S'' ∧ d.addr = c.addr + c.size ∧
      d.palloc = c.alloc ∧ d.mpalloc = isMiniSize c.size ∧
      d.alloc = true ∧ 0 < d.size ∧ d.addr ≠ s.heapTop ∧
      (∀ y ∈ S'', d.addr + d.size ≤ y.addr)) ∨
    (S' = [] ∧ c.addr + c.size = s.heapTop ∧ s.epiPalloc = c.alloc ∧
      s.epiMpalloc = isMiniSize c.size) := by
    rcases S' with _ | ⟨d, S''⟩
    · right
      have h0 := hw.top
      rw [hs, segEnd_append, segEnd_append] at h0
      simp only [segEnd] at h0
      have h1 := congrArg Prod.fst h0
      have h2 := congrArg (fun q => q.2.1) h0
      have h3 := congrArg (fun q => q.2.2) h0
      simp at h1 h2 h3
      refine ⟨rfl, by omega, h2.symm, h3.symm⟩
    · left
      obtain ⟨hda, hdszm, -, hdpal, hdmpal, hdimp, hchS''⟩ := hchS'
      obtain ⟨-, hdtople', hdsz16, -, -⟩ :=
        seg_mem s.blocks 8 true false hw.chain d (by rw [hs']; simp)
      refine ⟨d, S'', rfl, by omega, hdpal, hdmpal, hdimp hcal, ?_, ?_, ?_⟩
      · unfold min_block_size dsize wsize at hdszm
        omega
      · rw [htopfst] at hdtople'
        unfold min_block_size dsize wsize at hdsz16
        omega
      · intro y hy
        have h1 := (seg_mem S'' _ _ _ hchS'' y hy).1
        omega
  have haccp : (∃ cc S2, (xfL :: c :: S') = cc :: S2 ∧
      cc.addr = p.addr + p.size ∧ cc.palloc = p.alloc ∧
      cc.mpalloc = isMiniSize p.size ∧ 0 < cc.size ∧
      cc.addr ≠ s1.heapTop ∧ (∀ y ∈ S2, cc.addr + cc.size ≤ y.addr)) ∨
    ((xfL :: c :: S') = [] ∧ p.addr + p.size = s1.heapTop ∧
      s1.epiPalloc = p.alloc ∧ s1.epiMpalloc = isMiniSize p.size) := by
    left
    refine ⟨xfL, c :: S', rfl, hadp, hxpal2, hxmp2,
      by show 0 < x.size; omega, ?_, ?_⟩
    · show x.addr ≠ s.heapTop
      omega
    · intro y hy
      rcases List.mem_cons.1 hy with hy | hy
      · rw [hy]
        show x.addr + x.size ≤ c.addr
        omega
      · have := hS'ge y hy
        show x.addr + x.size ≤ y.addr
        omega
  have hrmv1 : removeVagueBlock s1 p.addr = eraseListed s1 p :=
    removeVague_eq_eraseListed s1 P' (xfL :: c :: S') p.addr p rfl rfl
      hP'lt (by omega) haccp
  rw [hrmv1]
  set sE1 : AState := eraseListed s1 p with hsE1def
  have hsE1b : sE1.blocks = P' ++ p :: xfL :: c :: S' := by
    rw [hsE1def, eraseListed_blocks]
  have hsE1ht : sE1.heapTop = s.heapTop := by
    rw [hsE1def, eraseListed_heapTop]
  have hsE1ep : sE1.epiPalloc = s.epiPalloc := by
    rw [hsE1def, eraseListed_epiPalloc]
  have hsE1em : sE1.epiMpalloc = s.epiMpalloc := by
    rw [hsE1def, eraseListed_epiMpalloc]
  have hsE1ini : sE1.initialized = true := by
    rw [hsE1def, eraseListed_initialized]
    exact hw.init
  have hsE1len : sE1.seglist.length = 14 := by
    rw [hsE1def]
    exact eraseListed_len s1 p hw.seg_len
  have hsE1mini : ∀ a ∈ sE1.miniRoot, a ∈ s.miniRoot ∧ a ≠ p.addr := by
    intro a ha
    rw [hsE1def] at ha
    exact eraseListed_miniRoot_sub s1 p hw.mini_nodup
      (fun h16 => (hpnl.2 h16).1) a ha
  have hsE1mnd : sE1.miniRoot.Nodup := by
    rw [hsE1def]
    exact eraseListed_mini_nodup s1 p hw.mini_nodup
  have hsE1buck : ∀ k a, a ∈ bucket sE1 k →
      a ∈ bucket s k ∧ a ≠ p.addr := by
    intro k a ha
    rw [hsE1def] at ha
    exact eraseListed_bucket_sub s1 p hw.seg_len hw.bucket_nodup
      hpnl.1 (fun h16 k hk => (hpnl.2 h16).2 k hk) k a ha
  have hsE1bnd : ∀ k, (bucket sE1 k).Nodup := by
    intro k
    rw [hsE1def]
    exact eraseListed_bucket_nodup s1 p hw.seg_len hw.bucket_nodup k
  have hacc2 : (∃ d S2, S' = d :: S2 ∧ d.addr = c.addr + c.size ∧
      d.palloc = c.alloc ∧ d.mpalloc = isMiniSize c.size ∧ 0 < d.size ∧
      d.addr ≠ sE1.heapTop ∧ (∀ y ∈ S2, d.addr + d.size ≤ y.addr)) ∨
    (S' = [] ∧ c.addr + c.size = sE1.heapTop ∧ sE1.epiPalloc = c.alloc ∧
      sE1.epiMpalloc = isMiniSize c.size) := by
    rcases hsucc2 with ⟨d, S'', h1, h2, h3, h4, -, h6, h7, h8⟩ |
      ⟨h1, h2, h3, h4⟩
    · left
      refine ⟨d, S'', h1, h2, h3, h4, h6, ?_, h8⟩
      rw [hsE1ht]
      exact h7
    · right
      refine ⟨h1, ?_, ?_, ?_⟩
      · rw [hsE1ht]
        exact h2
      · rw [hsE1ep]
        exact h3
      · rw [hsE1em]
        exact h4
  have hrmv2 : removeVagueBlock sE1 (x.addr + xfL.size) =
      eraseListed sE1 c := by
    apply removeVague_eq_eraseListed sE1 (P' ++ [p, xfL]) S'
      (x.addr + xfL.size) c hadjc (by rw [hsE1b]; simp) ?_ (by omega) hacc2
    intro y hy
    rcases List.mem_append.1 hy with hy | hy
    · have := hP'lt y hy
      omega
    · rcases List.mem_cons.1 hy with hy | hy
      · rw [hy]; omega
      · simp at hy
        rw [hy]
        show x.addr < c.addr
        omega
  rw [hrmv2]
  set sE2 : AState := eraseListed sE1 c with hsE2def
  have hsE2b : sE2.blocks = P' ++ p :: xfL :: c :: S' := by
    rw [hsE2def, eraseListed_blocks]
    exact hsE1b
  have hsE2ht : sE2.heapTop = s.heapTop := by
    rw [hsE2def, eraseListed_heapTop]
    exact hsE1ht
  have hsE2ep : sE2.epiPalloc = s.epiPalloc := by
    rw [hsE2def, eraseListed_epiPalloc]
    exact hsE1ep
  have hsE2em : sE2.epiMpalloc = s.epiMpalloc := by
    rw [hsE2def, eraseListed_epiMpalloc]
    exact hsE1em
  have hsE2ini : sE2.initialized = true := by
    rw [hsE2def, eraseListed_initialized]
    exact hsE1ini
  have hsE2len : sE2.seglist.length = 14 := by
    rw [hsE2def]
    exact eraseListed_len sE1 c hsE1len
  have hsE2mini : ∀ a ∈ sE2.miniRoot,
      a ∈ s.miniRoot ∧ a ≠ p.addr ∧ a ≠ c.addr := by
    intro a ha
    rw [hsE2def] at ha
    obtain ⟨ha1, hnec⟩ := eraseListed_miniRoot_sub sE1 c hsE1mnd
      (fun h16 hmem => ((hcnl.2 h16).1) (hsE1mini c.addr hmem).1) a ha
    obtain ⟨ha2, hnep⟩ := hsE1mini a ha1
    exact ⟨ha2, hnep, hnec⟩
  have hsE2mnd : sE2.miniRoot.Nodup := by
    rw [hsE2def]
    exact eraseListed_mini_nodup sE1 c hsE1mnd
  have hsE2buck : ∀ k a, a ∈ bucket sE2 k →
      a ∈ bucket s k ∧ a ≠ p.addr ∧ a ≠ c.addr := by
    intro k a ha
    rw [hsE2def] at ha
    obtain ⟨ha1, hnec⟩ := eraseListed_bucket_sub sE1 c hsE1len hsE1bnd
      (fun h16 k hmem => (hcnl.1 h16 k) (hsE1buck k c.addr hmem).1)
      (fun h16 k hk hmem => ((hcnl.2 h16).2 k hk)
        (hsE1buck k c.addr hmem).1) k a ha
    obtain ⟨ha2, hnep⟩ := hsE1buck k a ha1
    exact ⟨ha2, hnep, hnec⟩
  have hsE2bnd : ∀ k, (bucket sE2 k).Nodup := by
    intro k
    rw [hsE2def]
    exact eraseListed_bucket_nodup sE1 c hsE1len hsE1bnd k
  have hszp : sizeAt s1 p.addr = p.size := by
    unfold sizeAt
    rw [hrp1]
  have hszc : sizeAt s1 (x.addr + xfL.size) = c.size := by
    show sizeAt s1 (x.addr + x.size) = c.size
    unfold sizeAt
    rw [← hadjc, hrc1]
  have hmpp : mpallocAt s1 p.addr = p.mpalloc := by
    unfold mpallocAt
    rw [hrp1]
  have hpap : pallocAt s1 p.addr = p.palloc := by
    unfold pallocAt
    rw [hrp1]
  rw [hszp, hszc, hmpp, hpap]
  have hw2 : write_block sE2 p.addr (p.size + xfL.size + c.size) p.mpalloc
      p.palloc false = { sE2 with blocks :=
        P' ++ (⟨p.addr, p.size + xfL.size + c.size, false, p.palloc,
          p.mpalloc⟩ : Block) :: S' } := by
    apply write_block_decomp sE2 P' [p, xfL, c] S' p.addr
      (p.size + xfL.size + c.size) p.mpalloc p.palloc false
      (by rw [hsE2b]; simp) hP'lt
    · intro y hy
      rcases List.mem_cons.1 hy with hy | hy
      · rw [hy]
        refine ⟨Nat.le_refl _, ?_⟩
        show p.addr < p.addr + (p.size + x.size + c.size)
        omega
      · rcases List.mem_cons.1 hy with hy | hy
        · rw [hy]
          refine ⟨?_, ?_⟩
          · show p.addr ≤ x.addr
            omega
          · show x.addr < p.addr + (p.size + x.size + c.size)
            omega
        · simp at hy
          rw [hy]
          refine ⟨?_, ?_⟩
          · show p.addr ≤ c.addr
            omega
          · show c.addr < p.addr + (p.size + x.size + c.size)
            omega
    · intro y hy
      have := hS'ge y hy
      show p.addr + (p.size + x.size + c.size) ≤ y.addr
      omega
  rw [hw2]
  set mgL : Block := ⟨p.addr, p.size + xfL.size + c.size, false, p.palloc, p.mpalloc⟩ with hmgdef
  set s3 : AState := { sE2 with blocks := P' ++ mgL :: S' } with hs3def
  have hmgpos : 0 < mgL.size := by
    show 0 < p.size + x.size + c.size
    omega
  have hmgne16 : mgL.size ≠ 16 := by
    show p.size + x.size + c.size ≠ 16
    omega
  rw [insertVague_normal s3 P' S' p.addr mgL rfl rfl
    (fun y hy => Nat.ne_of_lt (hP'lt y hy)) hmgne16]
  set s4 : AState := { s3 with seglist := (s3.seglist.set (home_address mgL.size) (mgL.addr :: bucket s3 (home_address mgL.size))) } with hs4def
  have hht4 : s4.heapTop = s.heapTop := by
    simp only [hs4def, hs3def]
    exact hsE2ht
  have hb3 : ∀ j, bucket s3 j = bucket sE2 j := by
    intro j
    simp [bucket, hs3def]
  have hs3len : s3.seglist.length = 14 := by
    simp only [hs3def]
    exact hsE2len
  have hb4 : ∀ k, bucket s4 k =
      if k = home_address mgL.size then
        mgL.addr :: bucket s3 (home_address mgL.size)
      else bucket s3 k := by
    intro k
    by_cases hk : k = home_address mgL.size
    · subst hk
      rw [if_pos rfl, hs4def]
      exact bucket_set_self s3 _ _ (by rw [hs3len]; exact home_address_lt _)
    · rw [if_neg hk, hs4def]
      exact bucket_set_ne s3 _ k _ (fun he => hk he.symm)
  rcases hsucc2 with ⟨d, S'', rfl, hdadj, -, -, hdal, hdsz, hdtopne, hS''ge⟩ |
    ⟨rfl, htopc, -, -⟩
  · have hdadj2 : d.addr = p.addr + (p.size + x.size + c.size) := by omega
    have hbd : p.addr < d.addr := by omega
    have hdtop2 : d.addr ≠ s4.heapTop := by
      rw [hht4]
      exact hdtopne
    rw [update_pair_mid s4 P' S'' p.addr mgL d rfl rfl hP'lt hdadj2 hbd
      hS''ge hdtop2 hdsz]
    set df1 : Block := ⟨d.addr, d.size, d.alloc, mgL.alloc, isMiniSize mgL.size⟩ with hdf1def
    set s5 : AState := { s4 with blocks := P' ++ mgL :: df1 :: S'' } with hs5def
    have hdtop3 : df1.addr ≠ s5.heapTop := by
      show d.addr ≠ s5.heapTop
      simp only [hs5def]
      rw [hht4]
      exact hdtopne
    rw [update_pair_mid' s5 P' S'' p.addr mgL df1 rfl rfl hP'lt hdadj2 hbd
      hS''ge hdtop3 hdsz]
    set df2 : Block := ⟨df1.addr, df1.size, df1.alloc, mgL.alloc, isMiniSize mgL.size⟩ with hdf2def
    set s6 : AState := { s5 with blocks := P' ++ mgL :: df2 :: S'' } with hs6def
    apply Wf_merge s _ hw P' [x, c] (d :: S'') p (by simpa using hs) hppt
    · refine Or.inl ⟨d, S'', rfl, hdal, ?_, ?_, ?_⟩
      · simp [hs6def, hdf2def, hdf1def, hs5def, hs4def, hs3def, hmgdef,
          hxfdef, sumSizes, Nat.add_assoc]
      · simp only [hs6def, hs5def, hs4def, hs3def]
        exact hsE2ep
      · simp only [hs6def, hs5def, hs4def, hs3def]
        exact hsE2em
    · intro a ha
      have ha' : a ∈ sE2.miniRoot := by
        simpa [hs6def, hs5def, hs4def, hs3def] using ha
      obtain ⟨hmem, hnep, hnec⟩ := hsE2mini a ha'
      right
      refine ⟨hmem, hnep, ?_⟩
      intro r hr
      rcases List.mem_cons.1 hr with hr | hr
      · rw [hr]
        exact fun he => hnl.1 (he ▸ hmem)
      · simp at hr
        rw [hr]
        exact hnec
    · intro k a ha
      have ha4 : a ∈ bucket s4 k := by
        have : bucket s6 k = bucket s4 k := by
          simp [hs6def, hs5def, bucket]
        rw [← this]
        exact ha
      rw [hb4] at ha4
      by_cases hk : k = home_address mgL.size
      · subst hk
        rw [if_pos rfl] at ha4
        rcases List.mem_cons.1 ha4 with ha4 | ha4
        · left
          refine ⟨ha4, ?_, ?_⟩
          · show p.size + sumSizes [x, c] ≠ 16
            simp [sumSizes]
            omega
          · show home_address (p.size + sumSizes [x, c]) =
              home_address mgL.size
            simp [sumSizes, hmgdef, hxfdef]
            congr 1
            omega
        · rw [hb3] at ha4
          obtain ⟨hmem, hnep, hnec⟩ := hsE2buck _ a ha4
          right
          refine ⟨hmem, hnep, ?_⟩
          intro r hr
          rcases List.mem_cons.1 hr with hr | hr
          · rw [hr]
            exact fun he => hnl.2 _ (he ▸ hmem)
          · simp at hr
            rw [hr]
            exact hnec
      · rw [if_neg hk, hb3] at ha4
        obtain ⟨hmem, hnep, hnec⟩ := hsE2buck _ a ha4
        right
        refine ⟨hmem, hnep, ?_⟩
        intro r hr
        rcases List.mem_cons.1 hr with hr | hr
        · rw [hr]
          exact fun he => hnl.2 _ (he ▸ hmem)
        · simp at hr
          rw [hr]
          exact hnec
    · simp only [hs6def, hs5def, hs4def, hs3def]
      exact hsE2mnd
    · intro k
      have he6 : bucket s6 k = bucket s4 k := by
        simp [hs6def, hs5def, bucket]
      rw [he6, hb4]
      by_cases hk : k = home_address mgL.size
      · subst hk
        rw [if_pos rfl]
        refine List.nodup_cons.2 ⟨?_, ?_⟩
        · intro hmem
          rw [hb3] at hmem
          obtain ⟨hmem2, hne2, -⟩ := hsE2buck _ _ hmem
          exact hne2 rfl
        · rw [hb3]
          exact hsE2bnd _
      · rw [if_neg hk, hb3]
        exact hsE2bnd k
    · simp only [hs6def, hs5def, hs4def, List.length_set]
      exact hs3len
    · simp only [hs6def, hs5def]
      exact hht4
    · simp only [hs6def, hs5def, hs4def, hs3def]
      exact hsE2ini
  · have htopmg : p.addr + (p.size + x.size + c.size) = s.heapTop := by
      omega
    have htop4 : mgL.addr + mgL.size = s4.heapTop := by
      rw [hht4]
      show p.addr + (p.size + x.size + c.size) = s.heapTop
      exact htopmg
    rw [update_pair_last s4 P' p.addr mgL rfl rfl hP'lt htop4 hmgpos]
    set s5 : AState := { s4 with epiPalloc := mgL.alloc, epiMpalloc := isMiniSize mgL.size } with hs5def
    have htop5 : mgL.addr + mgL.size = s5.heapTop := by
      have : s5.heapTop = s.heapTop := by
        simp only [hs5def]
        exact hht4
      rw [this]
      exact htopmg
    rw [update_pair_last' s5 P' p.addr mgL rfl rfl hP'lt htop5 hmgpos]
    set s6 : AState := { s5 with epiPalloc := mgL.alloc, epiMpalloc := isMiniSize mgL.size } with hs6def
    apply Wf_merge s _ hw P' [x, c] [] p (by simpa using hs) hppt
    · refine Or.inr ⟨rfl, ?_, ?_, ?_⟩
      · simp [hs6def, hs5def, hs4def, hs3def, hmgdef, hxfdef, sumSizes,
          Nat.add_assoc]
      · simp [hs6def, hmgdef]
      · simp [hs6def, hmgdef, hxfdef, sumSizes]
        congr 1
        omega
    · intro a ha
      have ha' : a ∈ sE2.miniRoot := by
        simpa [hs6def, hs5def, hs4def, hs3def] using ha
      obtain ⟨hmem, hnep, hnec⟩ := hsE2mini a ha'
      right
      refine ⟨hmem, hnep, ?_⟩
      intro r hr
      rcases List.mem_cons.1 hr with hr | hr
      · rw [hr]
        exact fun he => hnl.1 (he ▸ hmem)
      · simp at hr
        rw [hr]
        exact hnec
    · intro k a ha
      have ha4 : a ∈ bucket s4 k := by
        have : bucket s6 k = bucket s4 k := by
          simp [hs6def, hs5def, bucket]
        rw [← this]
        exact ha
      rw [hb4] at ha4
      by_cases hk : k = home_address mgL.size
      · subst hk
        rw [if_pos rfl] at ha4
        rcases List.mem_cons.1 ha4 with ha4 | ha4
        · left
          refine ⟨ha4, ?_, ?_⟩
          · show p.size + sumSizes [x, c] ≠ 16
            simp [sumSizes]
            omega
          · show home_address (p.size + sumSizes [x, c]) =
              home_address mgL.size
            simp [sumSizes, hmgdef, hxfdef]
            congr 1
            omega
        · rw [hb3] at ha4
          obtain ⟨hmem, hnep, hnec⟩ := hsE2buck _ a ha4
          right
          refine ⟨hmem, hnep, ?_⟩
          intro r hr
          rcases List.mem_cons.1 hr with hr | hr
          · rw [hr]
            exact fun he => hnl.2 _ (he ▸ hmem)
          · simp at hr
            rw [hr]
            exact hnec
      · rw [if_neg hk, hb3] at ha4
        obtain ⟨hmem, hnep, hnec⟩ := hsE2buck _ a ha4
        right
        refine ⟨hmem, hnep, ?_⟩
        intro r hr
        rcases List.mem_cons.1 hr with hr | hr
        · rw [hr]
          exact fun he => hnl.2 _ (he ▸ hmem)
        · simp at hr
          rw [hr]
          exact hnec
    · simp only [hs6def, hs5def, hs4def, hs3def]
      exact hsE2mnd
    · intro k
      have he6 : bucket s6 k = bucket s4 k := by
        simp [hs6def, hs5def, bucket]
      rw [he6, hb4]
      by_cases hk : k = home_address mgL.size
      · subst hk
        rw [if_pos rfl]
        refine List.nodup_cons.2 ⟨?_, ?_⟩
        · intro hmem
          rw [hb3] at hmem
          obtain ⟨hmem2, hne2, -⟩ := hsE2buck _ _ hmem
          exact hne2 rfl
        · rw [hb3]
          exact hsE2bnd _
      · rw [if_neg hk, hb3]
        exact hsE2bnd k
    · simp only [hs6def, hs5def, hs4def, List.length_set]
      exact hs3len
    · simp only [hs6def, hs5def]
      exact hht4
    · simp only [hs6def, hs5def, hs4def, hs3def]
      exact hsE2ini

lemma mm_free_zero (s : AState) : mm_free s 0 = s := by
  unfold mm_free
  rw [if_pos rfl]

lemma mm_free_wf (s : AState) (hw : Wf s) (bp : Nat)
    (h : validPayload s bp) : Wf (mm_free s bp) := by
  obtain ⟨x, hx, hbp, hal⟩ := h
  obtain ⟨P, Q, hs⟩ := List.append_of_mem hx
  subst hbp
  cases hp : x.palloc
  · rcases Q with _ | ⟨c, S'⟩
    · exact free_wf_c s hw P [] x hs hal hp (Or.inl rfl)
    · cases hc : c.alloc
      · exact free_wf_a s hw P S' x c hs hal hp hc
      · exact free_wf_c s hw P (c :: S') x hs hal hp
          (Or.inr ⟨c, S', rfl, hc⟩)
  · rcases Q with _ | ⟨c, S'⟩
    · exact free_wf_d s hw P [] x hs hal hp (Or.inl rfl)
    · cases hc : c.alloc
      · exact free_wf_b s hw P S' x c hs hal hp hc
      · exact free_wf_d s hw P (c :: S') x hs hal hp
          (Or.inr ⟨c, S', rfl, hc⟩)


lemma readBlock_mem (s : AState) (hch : seg 8 true false s.blocks)
    (b : Block) (hb : b ∈ s.blocks) : readBlock s b.addr = b := by
  obtain ⟨P, Q, hs⟩ := List.append_of_mem hb
  rw [hs] at hch
  exact readBlock_decomp s P Q b hs
    (fun y hy => Nat.ne_of_lt (seg_front P b Q hch y hy).2)

lemma fitVisit_best (sz : Nat → Nat) (asize : Nat) (st : FitSt) (cur : Nat)
    (Pm : Nat → Prop)
    (hst : ∀ a, st.best_block = some a → Pm a ∧ asize ≤ sz a)
    (hcur : Pm cur) :
    ∀ a, (fitVisit sz asize st cur).best_block = some a →
      Pm a ∧ asize ≤ sz a := by
  intro a ha
  unfold fitVisit at ha
  by_cases hfit : asize ≤ sz cur
  · rw [if_pos hfit] at ha
    cases hbb : st.best_block with
    | none =>
      rw [hbb] at ha
      simp at ha
      rw [← ha]
      exact ⟨hcur, hfit⟩
    | some b0 =>
      rw [hbb] at ha
      by_cases hlt : sz cur - asize < st.best_gap
      · rw [if_pos hlt] at ha
        simp at ha
        rw [← ha]
        exact ⟨hcur, hfit⟩
      · rw [if_neg hlt] at ha
        exact hst a ha
  · rw [if_neg hfit] at ha
    exact hst a ha

lemma fitBucket_sound (sz : Nat → Nat) (asize : Nat) (Pm : Nat → Prop) :
    ∀ (l : List Nat) (st : FitSt), (∀ x ∈ l, Pm x) →
    (∀ a, st.best_block = some a → Pm a ∧ asize ≤ sz a) →
    ∀ a, (match fitBucket sz asize l st with
          | Sum.inl r => r
          | Sum.inr st2 => st2.best_block) = some a →
      Pm a ∧ asize ≤ sz a := by
  intro l
  induction l with
  | nil =>
    intro st _ hst a ha
    exact hst a ha
  | cons cur rest ih =>
    intro st hl hst a ha
    unfold fitBucket at ha
    by_cases hpos : 0 < sz cur
    · rw [if_pos hpos] at ha
      have hst2 := fitVisit_best sz asize st cur Pm hst
        (hl cur (by simp))
      by_cases hsw : (fitVisit sz asize st cur).count_switch
      · rw [if_pos hsw] at ha
        by_cases hz : (fitVisit sz asize st cur).counter - 1 = 0
        · rw [if_pos hz] at ha
          exact hst2 a ha
        · rw [if_neg hz] at ha
          exact ih { fitVisit sz asize st cur with counter := (fitVisit sz asize st cur).counter - 1 } (fun x hx => hl x (by simp [hx])) (fun a2 ha2 => hst2 a2 ha2) a ha
      · rw [if_neg hsw] at ha
        exact ih (fitVisit sz asize st cur) (fun x hx => hl x (by simp [hx])) hst2 a ha
    · rw [if_neg hpos] at ha
      exact hst a ha

lemma fitBuckets_sound (sz : Nat → Nat) (asize : Nat) (Pm : Nat → Prop) :
    ∀ (L : List (List Nat)) (st : FitSt),
    (∀ l ∈ L, ∀ x ∈ l, Pm x) →
    (∀ a, st.best_block = some a → Pm a ∧ asize ≤ sz a) →
    ∀ a, fitBuckets sz asize L st = some a → Pm a ∧ asize ≤ sz a := by
  intro L
  induction L with
  | nil =>
    intro st _ hst a ha
    exact hst a ha
  | cons b rest ih =>
    intro st hL hst a ha
    unfold fitBuckets at ha
    cases hfb : fitBucket sz asize b st with
    | inl r =>
      rw [hfb] at ha
      replace ha : r = some a := ha
      have := fitBucket_sound sz asize Pm b st
        (hL b (by simp)) hst a
      rw [hfb] at this
      exact this ha
    | inr st2 =>
      rw [hfb] at ha
      replace ha : (if st2.best_block.isSome = true then st2.best_block
        else fitBuckets sz asize rest st2) = some a := ha
      have hst2 : ∀ a, st2.best_block = some a → Pm a ∧ asize ≤ sz a := by
        have := fitBucket_sound sz asize Pm b st (hL b (by simp)) hst
        intro a2 ha2
        apply this a2
        rw [hfb]
        exact ha2
      by_cases hsome : st2.best_block.isSome
      · rw [if_pos hsome] at ha
        exact hst2 a ha
      · rw [if_neg hsome] at ha
        exact ih st2 (fun l hl => hL l (by simp [hl])) hst2 a ha

lemma find_fit_sound (s : AState) (asize idx a : Nat)
    (ha : find_fit s asize idx = some a) :
    (∃ k, a ∈ bucket s k) ∧ asize ≤ sizeAt s a := by
  apply fitBuckets_sound (sizeAt s) asize (fun x => ∃ k, x ∈ bucket s k)
    (s.seglist.drop idx) _ ?_ (by intro a2 ha2; cases ha2) a ha
  intro l hl x hx
  have hl2 : l ∈ s.seglist := List.mem_of_mem_drop hl
  obtain ⟨n, hn, hln⟩ := List.getElem_of_mem hl2
  refine ⟨n, ?_⟩
  unfold bucket
  rw [List.getD_eq_getElem?_getD, List.getElem?_eq_getElem hn]
  simpa [hln] using hx

lemma find_fit_block (s : AState) (hw : Wf s) (asize idx a : Nat)
    (ha : find_fit s asize idx = some a) :
    ∃ b ∈ s.blocks, b.addr = a ∧ b.alloc = false ∧ b.size ≠ 16 ∧
      asize ≤ b.size := by
  obtain ⟨⟨k, hk⟩, hsz⟩ := find_fit_sound s asize idx a ha
  obtain ⟨b, hb, hba, hbf, hbs, -⟩ := hw.seg_sound k a hk
  refine ⟨b, hb, hba, hbf, hbs, ?_⟩
  unfold sizeAt at hsz
  rw [← hba, readBlock_mem s hw.chain b hb] at hsz
  exact hsz

lemma mm_choose_block (s : AState) (hw : Wf s) (asize a : Nat)
    (h16 : 16 ≤ asize)
    (ha : mm_choose s asize = some a) :
    ∃ b ∈ s.blocks, b.addr = a ∧ b.alloc = false ∧ asize ≤ b.size := by
  unfold mm_choose at ha
  by_cases hm : asize = MINI_BLOCK_SIZE
  · rw [if_pos hm] at ha
    cases hroot : s.miniRoot with
    | nil =>
      rw [hroot] at ha
      obtain ⟨b, hb, hba, hbf, -, hbsz⟩ := find_fit_block s hw asize 0 a ha
      exact ⟨b, hb, hba, hbf, hbsz⟩
    | cons r rest =>
      rw [hroot] at ha
      simp at ha
      obtain ⟨b, hb, hba, hbf, hbsz⟩ := hw.mini_sound r
        (by rw [hroot]; simp)
      refine ⟨b, hb, by rw [hba, ha], hbf, ?_⟩
      rw [hbsz, hm]
  · rw [if_neg hm] at ha
    obtain ⟨b, hb, hba, hbf, -, hbsz⟩ :=
      find_fit_block s hw asize (home_address asize) a ha
    exact ⟨b, hb, hba, hbf, hbsz⟩


lemma Wf_split (s s' : AState) (hw : Wf s)
    (P Q : List Block) (b : Block) (asize : Nat)
    (hs : s.blocks = P ++ b :: Q)
    (hbal : b.alloc = false)
    (h16 : 16 ≤ asize) (hmod : asize % 16 = 0)
    (hsz : asize + 16 ≤ b.size)
    (hS : (∃ c T, Q = c :: T ∧
        s'.blocks = P ++ (⟨b.addr, asize, true, b.palloc,
            b.mpalloc⟩ : Block) ::
          (⟨b.addr + asize, b.size - asize, false, true,
            isMiniSize asize⟩ : Block) ::
          (⟨c.addr, c.size, c.alloc, false,
            isMiniSize (b.size - asize)⟩ : Block) :: T ∧
        s'.epiPalloc = s.epiPalloc ∧ s'.epiMpalloc = s.epiMpalloc) ∨
      (Q = [] ∧
        s'.blocks = P ++ [(⟨b.addr, asize, true, b.palloc,
            b.mpalloc⟩ : Block),
          (⟨b.addr + asize, b.size - asize, false, true,
            isMiniSize asize⟩ : Block)] ∧
        s'.epiPalloc = false ∧
        s'.epiMpalloc = isMiniSize (b.size - asize)))
    (hminiSub : ∀ a ∈ s'.miniRoot,
      (a = b.addr + asize ∧ b.size - asize = 16) ∨
      (a ∈ s.miniRoot ∧ a ≠ b.addr))
    (hsegSub : ∀ k a, a ∈ bucket s' k →
      (a = b.addr + asize ∧ b.size - asize ≠ 16 ∧
        home_address (b.size - asize) = k) ∨
      (a ∈ bucket s k ∧ a ≠ b.addr))
    (hmnd : s'.miniRoot.Nodup) (hbnd : ∀ k, (bucket s' k).Nodup)
    (hlen : s'.seglist.length = 14)
    (hht : s'.heapTop = s.heapTop) (hini : s'.initialized = true) :
    Wf s' := by
  have hchain := hw.chain
  rw [hs] at hchain
  obtain ⟨hchP, hchQ1⟩ := (seg_append P (b :: Q) 8 true false).1 hchain
  obtain ⟨hba, hbszm, hbmod, hbpE, hbmE, hbnoadj, hchQ⟩ := hchQ1
  have htopE := hw.top
  rw [hs, segEnd_append] at htopE
  simp only [segEnd] at htopE
  rcases hS with ⟨c, T, hQeq, hsb, hep, hem⟩ | ⟨hQeq, hsb, hep, hem⟩
  · subst hQeq
    obtain ⟨hca, hcszm, hcmod, hcpE, hcmE, hcimp, hchT⟩ := hchQ
    have hcal : c.alloc = true := hcimp hbal
    refine ⟨hini, ?_, ?_, hlen, ?_, ?_, hmnd, hbnd⟩
    · rw [hsb]
      apply (seg_append P _ 8 true false).2
      refine ⟨hchP, hba, (by show min_block_size ≤ asize; unfold min_block_size dsize wsize; omega), hmod, hbpE, hbmE,
        fun _ => rfl, ?_⟩
      refine ⟨(by show b.addr + asize = (segEnd 8 true false P).1 + asize; omega), ?_, ?_, rfl, rfl, fun h => Bool.noConfusion h, ?_⟩
      · show min_block_size ≤ b.size - asize
        unfold min_block_size dsize wsize
        omega
      · show (b.size - asize) % 16 = 0
        omega
      refine ⟨?_, hcszm, hcmod, rfl, rfl, fun _ => hcal, ?_⟩
      · show c.addr = (segEnd 8 true false P).1 + asize + (b.size - asize)
        omega
      · show seg ((segEnd 8 true false P).1 + asize + (b.size - asize) +
          c.size) c.alloc (isMiniSize c.size) T
        rw [show (segEnd 8 true false P).1 + asize + (b.size - asize) +
          c.size = (segEnd 8 true false P).1 + b.size + c.size from by
            omega]
        exact hchT
    · rw [hsb, segEnd_append]
      simp only [segEnd]
      show segEnd ((segEnd 8 true false P).1 + asize + (b.size - asize) +
        c.size) c.alloc (isMiniSize c.size) T =
        (s'.heapTop, s'.epiPalloc, s'.epiMpalloc)
      rw [show (segEnd 8 true false P).1 + asize + (b.size - asize) +
        c.size = (segEnd 8 true false P).1 + b.size + c.size from by
          omega]
      simp only [segEnd] at htopE
      rw [hht, hep, hem]
      exact htopE
    · intro a ha
      rcases hminiSub a ha with ⟨haeq, hr16⟩ | ⟨haold, hne0⟩
      · refine ⟨⟨b.addr + asize, b.size - asize, false, true,
          isMiniSize asize⟩, ?_, ?_, rfl, ?_⟩
        · rw [hsb]; simp
        · rw [haeq]
        · simpa using hr16
      · obtain ⟨x, hxmem, hxa, hxal, hxsz⟩ := hw.mini_sound a haold
        rw [hs] at hxmem
        have hx' : x ∈ P ∨ x ∈ T := by
          apply witness_transfer P [] T b c x (by simpa using hxmem) hxal
            hcal
          · rw [hxa]; exact hne0
          · intro r hr; cases hr
        refine ⟨x, ?_, hxa, hxal, hxsz⟩
        rw [hsb]
        rcases hx' with h | h
        · simp [h]
        · simp [h]
    · intro k a ha
      rcases hsegSub k a ha with ⟨haeq, hr16, hhome⟩ | ⟨haold, hne0⟩
      · refine ⟨⟨b.addr + asize, b.size - asize, false, true,
          isMiniSize asize⟩, ?_, ?_, rfl, ?_, ?_⟩
        · rw [hsb]; simp
        · rw [haeq]
        · simpa using hr16
        · simpa using hhome
      · obtain ⟨x, hxmem, hxa, hxal, hxsz, hxh⟩ := hw.seg_sound k a haold
        rw [hs] at hxmem
        have hx' : x ∈ P ∨ x ∈ T := by
          apply witness_transfer P [] T b c x (by simpa using hxmem) hxal
            hcal
          · rw [hxa]; exact hne0
          · intro r hr; cases hr
        refine ⟨x, ?_, hxa, hxal, hxsz, hxh⟩
        rw [hsb]
        rcases hx' with h | h
        · simp [h]
        · simp [h]
  · subst hQeq
    refine ⟨hini, ?_, ?_, hlen, ?_, ?_, hmnd, hbnd⟩
    · rw [hsb]
      apply (seg_append P _ 8 true false).2
      refine ⟨hchP, hba, (by show min_block_size ≤ asize; unfold min_block_size dsize wsize; omega), hmod, hbpE, hbmE,
        fun _ => rfl, ?_⟩
      refine ⟨(by show b.addr + asize = (segEnd 8 true false P).1 + asize; omega), ?_, ?_, rfl, rfl, fun h => Bool.noConfusion h, ?_⟩
      · show min_block_size ≤ b.size - asize
        unfold min_block_size dsize wsize
        omega
      · show (b.size - asize) % 16 = 0
        omega
      · show seg ((segEnd 8 true false P).1 + asize + (b.size - asize))
          false (isMiniSize (b.size - asize)) []
        exact trivial
    · rw [hsb, segEnd_append]
      simp only [segEnd] at htopE ⊢
      have h1 := congrArg Prod.fst htopE
      simp at h1
      rw [hht, hep, hem]
      show ((segEnd 8 true false P).1 + asize + (b.size - asize),
        false, isMiniSize (b.size - asize)) =
        (s.heapTop, false, isMiniSize (b.size - asize))
      rw [show (segEnd 8 true false P).1 + asize + (b.size - asize) =
        s.heapTop from by omega]
    · intro a ha
      rcases hminiSub a ha with ⟨haeq, hr16⟩ | ⟨haold, hne0⟩
      · refine ⟨⟨b.addr + asize, b.size - asize, false, true,
          isMiniSize asize⟩, ?_, ?_, rfl, ?_⟩
        · rw [hsb]; simp
        · rw [haeq]
        · simpa using hr16
      · obtain ⟨x, hxmem, hxa, hxal, hxsz⟩ := hw.mini_sound a haold
        rw [hs] at hxmem
        have hx' : x ∈ P := by
          apply witness_transfer_nil P [] b x (by simpa using hxmem)
          · rw [hxa]; exact hne0
          · intro r hr; cases hr
        refine ⟨x, ?_, hxa, hxal, hxsz⟩
        rw [hsb]
        simp [hx']
    · intro k a ha
      rcases hsegSub k a ha with ⟨haeq, hr16, hhome⟩ | ⟨haold, hne0⟩
      · refine ⟨⟨b.addr + asize, b.size - asize, false, true,
          isMiniSize asize⟩, ?_, ?_, rfl, ?_, ?_⟩
        · rw [hsb]; simp
        · rw [haeq]
        · simpa using hr16
        · simpa using hhome
      · obtain ⟨x, hxmem, hxa, hxal, hxsz, hxh⟩ := hw.seg_sound k a haold
        rw [hs] at hxmem
        have hx' : x ∈ P := by
          apply witness_transfer_nil P [] b x (by simpa using hxmem)
          · rw [hxa]; exact hne0
          · intro r hr; cases hr
        refine ⟨x, ?_, hxa, hxal, hxsz, hxh⟩
        rw [hsb]
        simp [hx']

lemma Wf_allocw (s s' : AState) (hw : Wf s)
    (P Q : List Block) (b : Block)
    (hs : s.blocks = P ++ b :: Q)
    (hbal : b.alloc = false)
    (hS : (∃ c T, Q = c :: T ∧
        s'.blocks = P ++ (⟨b.addr, b.size, true, b.palloc,
            b.mpalloc⟩ : Block) ::
          (⟨c.addr, c.size, c.alloc, true, isMiniSize b.size⟩ : Block) ::
            T ∧
        s'.epiPalloc = s.epiPalloc ∧ s'.epiMpalloc = s.epiMpalloc) ∨
      (Q = [] ∧ s'.blocks = P ++ [(⟨b.addr, b.size, true, b.palloc,
          b.mpalloc⟩ : Block)] ∧
        s'.epiPalloc = true ∧ s'.epiMpalloc = isMiniSize b.size))
    (hminiSub : ∀ a ∈ s'.miniRoot, a ∈ s.miniRoot ∧ a ≠ b.addr)
    (hsegSub : ∀ k a, a ∈ bucket s' k → a ∈ bucket s k ∧ a ≠ b.addr)
    (hmnd : s'.miniRoot.Nodup) (hbnd : ∀ k, (bucket s' k).Nodup)
    (hlen : s'.seglist.length = 14)
    (hht : s'.heapTop = s.heapTop) (hini : s'.initialized = true) :
    Wf s' := by
  have hchain := hw.chain
  rw [hs] at hchain
  obtain ⟨hchP, hchQ1⟩ := (seg_append P (b :: Q) 8 true false).1 hchain
  obtain ⟨hba, hbszm, hbmod, hbpE, hbmE, hbnoadj, hchQ⟩ := hchQ1
  have htopE := hw.top
  rw [hs, segEnd_append] at htopE
  simp only [segEnd] at htopE
  rcases hS with ⟨c, T, hQeq, hsb, hep, hem⟩ | ⟨hQeq, hsb, hep, hem⟩
  · subst hQeq
    obtain ⟨hca, hcszm, hcmod, hcpE, hcmE, hcimp, hchT⟩ := hchQ
    have hcal : c.alloc = true := hcimp hbal
    refine ⟨hini, ?_, ?_, hlen, ?_, ?_, hmnd, hbnd⟩
    · rw [hsb]
      apply (seg_append P _ 8 true false).2
      refine ⟨hchP, hba, hbszm, hbmod, hbpE, hbmE, fun _ => rfl, ?_⟩
      refine ⟨hca, hcszm, hcmod, rfl, rfl, fun h => Bool.noConfusion h, ?_⟩
      exact hchT
    · rw [hsb, segEnd_append]
      simp only [segEnd] at htopE ⊢
      rw [hht, hep, hem]
      exact htopE
    · intro a ha
      obtain ⟨haold, hne0⟩ := hminiSub a ha
      obtain ⟨x, hxmem, hxa, hxal, hxsz⟩ := hw.mini_sound a haold
      rw [hs] at hxmem
      have hx' : x ∈ P ∨ x ∈ T := by
        apply witness_transfer P [] T b c x (by simpa using hxmem) hxal
          hcal
        · rw [hxa]; exact hne0
        · intro r hr; cases hr
      refine ⟨x, ?_, hxa, hxal, hxsz⟩
      rw [hsb]
      rcases hx' with h | h
      · simp [h]
      · simp [h]
    · intro k a ha
      obtain ⟨haold, hne0⟩ := hsegSub k a ha
      obtain ⟨x, hxmem, hxa, hxal, hxsz, hxh⟩ := hw.seg_sound k a haold
      rw [hs] at hxmem
      have hx' : x ∈ P ∨ x ∈ T := by
        apply witness_transfer P [] T b c x (by simpa using hxmem) hxal
          hcal
        · rw [hxa]; exact hne0
        · intro r hr; cases hr
      refine ⟨x, ?_, hxa, hxal, hxsz, hxh⟩
      rw [hsb]
      rcases hx' with h | h
      · simp [h]
      · simp [h]
  · subst hQeq
    refine ⟨hini, ?_, ?_, hlen, ?_, ?_, hmnd, hbnd⟩
    · rw [hsb]
      apply (seg_append P _ 8 true false).2
      refine ⟨hchP, hba, hbszm, hbmod, hbpE, hbmE, fun _ => rfl, ?_⟩
      show seg ((segEnd 8 true false P).1 + b.size) true
        (isMiniSize b.size) []
      exact trivial
    · rw [hsb, segEnd_append]
      simp only [segEnd] at htopE ⊢
      have h1 := congrArg Prod.fst htopE
      simp at h1
      rw [hht, hep, hem]
      show ((segEnd 8 true false P).1 + b.size, true, isMiniSize b.size) =
        (s.heapTop, true, isMiniSize b.size)
      rw [show (segEnd 8 true false P).1 + b.size = s.heapTop from by
        omega]
    · intro a ha
      obtain ⟨haold, hne0⟩ := hminiSub a ha
      obtain ⟨x, hxmem, hxa, hxal, hxsz⟩ := hw.mini_sound a haold
      rw [hs] at hxmem
      have hx' : x ∈ P := by
        apply witness_transfer_nil P [] b x (by simpa using hxmem)
        · rw [hxa]; exact hne0
        · intro r hr; cases hr
      refine ⟨x, ?_, hxa, hxal, hxsz⟩
      rw [hsb]
      simp [hx']
    · intro k a ha
      obtain ⟨haold, hne0⟩ := hsegSub k a ha
      obtain ⟨x, hxmem, hxa, hxal, hxsz, hxh⟩ := hw.seg_sound k a haold
      rw [hs] at hxmem
      have hx' : x ∈ P := by
        apply witness_transfer_nil P [] b x (by simpa using hxmem)
        · rw [hxa]; exact hne0
        · intro r hr; cases hr
      refine ⟨x, ?_, hxa, hxal, hxsz, hxh⟩
      rw [hsb]
      simp [hx']


lemma write_block_self (s : AState) (P Q : List Block) (bA : Block)
    (hs : s.blocks = P ++ bA :: Q)
    (hP : ∀ y ∈ P, y.addr < bA.addr)
    (hQ : ∀ y ∈ Q, bA.addr + bA.size ≤ y.addr)
    (hpos : 0 < bA.size) :
    write_block s bA.addr bA.size bA.mpalloc bA.palloc bA.alloc = s := by
  rw [write_block_decomp s P [bA] Q bA.addr bA.size bA.mpalloc bA.palloc
    bA.alloc (by simpa using hs) hP
    (by intro y hy
        simp at hy
        rw [hy]
        exact ⟨Nat.le_refl _, by omega⟩)
    hQ]
  rw [show (⟨bA.addr, bA.size, bA.alloc, bA.palloc, bA.mpalloc⟩ : Block) =
    bA from rfl]
  rw [← hs]


lemma mm_alloc_split (s : AState) (hw : Wf s) (P Q : List Block)
    (b : Block) (asize : Nat)
    (hs : s.blocks = P ++ b :: Q) (hbal : b.alloc = false)
    (h16 : 16 ≤ asize) (hmod : asize % 16 = 0)
    (hbig : asize + 16 ≤ b.size) :
    Wf (mm_alloc_finish s b.addr asize).1 ∧
    (mm_alloc_finish s b.addr asize).2 = some (b.addr + wsize) ∧
    (∃ z ∈ (mm_alloc_finish s b.addr asize).1.blocks,
      z.addr = b.addr ∧ z.alloc = true ∧ asize ≤ z.size) ∧
    (∀ y ∈ s.blocks, y.alloc = true →
      ∃ z ∈ (mm_alloc_finish s b.addr asize).1.blocks,
        z.addr = y.addr ∧ z.alloc = true ∧ z.size = y.size) ∧
    (mm_alloc_finish s b.addr asize).1.maxHeap = s.maxHeap := by
  have hchain := hw.chain
  rw [hs] at hchain
  have hPlt : ∀ y ∈ P, y.addr < b.addr :=
    fun y hy => (seg_front P b Q hchain y hy).2
  have hQge : ∀ y ∈ Q, b.addr + b.size ≤ y.addr := seg_suffix P b Q hchain
  obtain ⟨hchP2, hchB⟩ := (seg_append P (b :: Q) 8 true false).1 hchain
  obtain ⟨hba, hbszm, hbmod, hbpE, hbmE, -, hchQ⟩ := hchB
  have htopfst : (segEnd 8 true false s.blocks).1 = s.heapTop := by
    rw [hw.top]
  have hbne16 : b.size ≠ 16 := by omega
  have hbnl := (free_listed_unique s hw.chain hw.mini_sound hw.seg_sound b
    (by rw [hs]; simp) hbal).2 hbne16
  have hnoaddr : ∀ x ∈ s.blocks, x.addr ≠ b.addr + asize := by
    intro x hx
    rw [hs] at hx
    rcases List.mem_append.1 hx with hx | hx
    · have := hPlt x hx
      omega
    · rcases List.mem_cons.1 hx with hx | hx
      · rw [hx]; omega
      · have := hQge x hx
        omega
  have hsucc : (∃ c T, Q = c :: T ∧ c.addr = b.addr + b.size ∧
      c.alloc = true ∧ 0 < c.size ∧ c.addr ≠ s.heapTop ∧
      (∀ y ∈ T, c.addr + c.size ≤ y.addr)) ∨
    (Q = [] ∧ b.addr + b.size = s.heapTop) := by
    rcases Q with _ | ⟨c, T⟩
    · right
      refine ⟨rfl, ?_⟩
      have h0 := hw.top
      rw [hs, segEnd_append] at h0
      simp only [segEnd] at h0
      have h1 := congrArg Prod.fst h0
      simp at h1
      omega
    · left
      obtain ⟨hca, hcszm, -, -, -, hcimp, hchT⟩ := hchQ
      obtain ⟨-, hctople', hcsz16, -, -⟩ :=
        seg_mem s.blocks 8 true false hw.chain c (by rw [hs]; simp)
      refine ⟨c, T, rfl, by omega, hcimp hbal, ?_, ?_, ?_⟩
      · unfold min_block_size dsize wsize at hcszm
        omega
      · rw [htopfst] at hctople'
        unfold min_block_size dsize wsize at hcsz16
        omega
      · intro y hy
        have h1 := (seg_mem T _ _ _ hchT y hy).1
        omega
  have hrb : readBlock s b.addr = b :=
    readBlock_decomp s P Q b hs (fun y hy => Nat.ne_of_lt (hPlt y hy))
  have hszb : sizeAt s b.addr = b.size := by
    unfold sizeAt
    rw [hrb]
  have hmpb : mpallocAt s b.addr = b.mpalloc := by
    unfold mpallocAt
    rw [hrb]
  have hpab : pallocAt s b.addr = b.palloc := by
    unfold pallocAt
    rw [hrb]
  set bA : Block := ⟨b.addr, b.size, true, b.palloc, b.mpalloc⟩ with hbAdef
  have hw2 : write_block s b.addr b.size b.mpalloc b.palloc true =
      { s with blocks := P ++ bA :: Q } :=
    write_block_decomp s P [b] Q b.addr b.size b.mpalloc b.palloc true
      (by simpa using hs) hPlt
      (by intro y hy
          simp at hy
          rw [hy]
          exact ⟨Nat.le_refl _, by omega⟩)
      hQge
  have h2 : mm_alloc_finish s b.addr asize =
      (split_block { s with blocks := P ++ bA :: Q } b.addr asize,
        some (b.addr + wsize)) := by
    unfold mm_alloc_finish
    simp only [hszb, hmpb, hpab]
    rw [hw2]
  rw [h2]
  set s2 : AState := { s with blocks := P ++ bA :: Q } with hs2def
  have hPne : ∀ y ∈ P, y.addr ≠ bA.addr :=
    fun y hy => Nat.ne_of_lt (hPlt y hy)
  have hrb2 : readBlock s2 b.addr = bA :=
    readBlock_decomp s2 P Q bA rfl hPne
  have hsz2 : sizeAt s2 b.addr = b.size := by
    unfold sizeAt
    rw [hrb2]
  have hmp2 : mpallocAt s2 b.addr = b.mpalloc := by
    unfold mpallocAt
    rw [hrb2]
  have hpa2 : pallocAt s2 b.addr = b.palloc := by
    unfold pallocAt
    rw [hrb2]
  unfold split_block
  simp only [hsz2]
  rw [if_pos (show min_block_size ≤ b.size - asize from by
    unfold min_block_size dsize wsize; omega)]
  simp only [hmp2, hpa2]
  have hrmv : removeVagueBlock s2 b.addr = eraseListed s2 bA := by
    rw [removeVague_normal s2 P Q b.addr bA rfl rfl hPne
      (show bA.size ≠ 16 from hbne16)]
    unfold eraseListed
    rw [if_neg (show ¬ bA.size = 16 from hbne16)]
  rw [hrmv]
  set sE : AState := eraseListed s2 bA with hsEdef
  have hsEb : sE.blocks = P ++ bA :: Q := by
    rw [hsEdef, eraseListed_blocks]
  have hsEht : sE.heapTop = s.heapTop := by
    rw [hsEdef, eraseListed_heapTop]
  have hsEep : sE.epiPalloc = s.epiPalloc := by
    rw [hsEdef, eraseListed_epiPalloc]
  have hsEem : sE.epiMpalloc = s.epiMpalloc := by
    rw [hsEdef, eraseListed_epiMpalloc]
  have hsEini : sE.initialized = true := by
    rw [hsEdef, eraseListed_initialized]
    exact hw.init
  have hsEmax : sE.maxHeap = s.maxHeap := by
    rw [hsEdef]
    unfold eraseListed
    split <;> rfl
  have hsElen : sE.seglist.length = 14 := by
    rw [hsEdef]
    exact eraseListed_len s2 bA hw.seg_len
  have hsEmini : ∀ a ∈ sE.miniRoot, a ∈ s.miniRoot ∧ a ≠ b.addr := by
    intro a ha
    rw [hsEdef] at ha
    exact eraseListed_miniRoot_sub s2 bA hw.mini_nodup
      (fun _ => hbnl.1) a ha
  have hsEmnd : sE.miniRoot.Nodup := by
    rw [hsEdef]
    exact eraseListed_mini_nodup s2 bA hw.mini_nodup
  have hsEbuck : ∀ k a, a ∈ bucket sE k →
      a ∈ bucket s k ∧ a ≠ b.addr := by
    intro k a ha
    rw [hsEdef] at ha
    exact eraseListed_bucket_sub s2 bA hw.seg_len hw.bucket_nodup
      (fun h => absurd h hbne16) (fun _ k hk => hbnl.2 k hk) k a ha
  have hsEbnd : ∀ k, (bucket sE k).Nodup := by
    intro k
    rw [hsEdef]
    exact eraseListed_bucket_nodup s2 bA hw.seg_len hw.bucket_nodup k
  have hw4 : write_block sE b.addr asize b.mpalloc b.palloc true =
      { sE with blocks := P ++ (⟨b.addr, asize, true, b.palloc,
        b.mpalloc⟩ : Block) :: Q } :=
    write_block_decomp sE P [bA] Q b.addr asize b.mpalloc b.palloc true
      (by simpa using hsEb) hPlt
      (by intro y hy
          simp at hy
          rw [hy]
          refine ⟨Nat.le_refl _, ?_⟩
          show b.addr < b.addr + asize
          omega)
      (by intro y hy
          have := hQge y hy
          omega)
  rw [hw4]
  set nb : Block := ⟨b.addr, asize, true, b.palloc, b.mpalloc⟩ with hnbdef
  set s4 : AState := { sE with blocks := P ++ nb :: Q } with hs4def
  have hrb4 : readBlock s4 b.addr = nb :=
    readBlock_decomp s4 P Q nb rfl hPne
  have hfn : find_next s4 b.addr = b.addr + asize := by
    unfold find_next sizeAt
    rw [hrb4]
  have hmini4 : isMiniBlockAt s4 b.addr = isMiniSize asize := by
    unfold isMiniBlockAt sizeAt
    rw [hrb4]
  rw [hfn, hmini4]
  have hw5 : write_block s4 (b.addr + asize) (b.size - asize)
      (isMiniSize asize) true false =
      { s4 with blocks := P ++ nb :: (⟨b.addr + asize, b.size - asize,
        false, true, isMiniSize asize⟩ : Block) :: Q } := by
    rw [write_block_decomp s4 (P ++ [nb]) [] Q (b.addr + asize)
      (b.size - asize) (isMiniSize asize) true false (by simp [hs4def])
      (by intro y hy
          rcases List.mem_append.1 hy with hy | hy
          · have := hPlt y hy
            omega
          · simp at hy
            rw [hy]
            show b.addr < b.addr + asize
            omega)
      (by intro y hy; cases hy)
      (by intro y hy
          have := hQge y hy
          show b.addr + asize + (b.size - asize) ≤ y.addr
          omega)]
    simp
  rw [hw5]
  set rem : Block := ⟨b.addr + asize, b.size - asize, false, true,
    isMiniSize asize⟩ with hremdef
  set s5 : AState := { s4 with blocks := P ++ nb :: rem :: Q } with hs5def
  have hPnbne : ∀ y ∈ P ++ [nb], y.addr ≠ rem.addr := by
    intro y hy
    rcases List.mem_append.1 hy with hy | hy
    · have := hPlt y hy
      show y.addr ≠ b.addr + asize
      omega
    · simp at hy
      rw [hy]
      show b.addr ≠ b.addr + asize
      omega
  have hPnblt : ∀ y ∈ P ++ [nb], y.addr < rem.addr := by
    intro y hy
    rcases List.mem_append.1 hy with hy | hy
    · have := hPlt y hy
      show y.addr < b.addr + asize
      omega
    · simp at hy
      rw [hy]
      show b.addr < b.addr + asize
      omega
  have hrempos : 0 < rem.size := by
    show 0 < b.size - asize
    omega
  by_cases h16r : b.size - asize = 16
  · rw [insertVague_mini s5 (P ++ [nb]) Q (b.addr + asize) rem rfl
      (by simp [hs5def]) hPnbne (show rem.size = 16 from h16r)]
    rw [insert_mini_unfold s5 (b.addr + asize)]
    set s6 : AState := { s5 with miniRoot := (b.addr + asize) :: s5.miniRoot } with hs6def
    have hht6 : s6.heapTop = s.heapTop := by
      simp only [hs6def, hs5def, hs4def]
      exact hsEht
    rcases hsucc with ⟨c, T, rfl, hcadj, hcal, hcsz0, hctop, hTge⟩ |
      ⟨rfl, htopb⟩
    · have hcadj2 : c.addr = rem.addr + rem.size := by
        show c.addr = b.addr + asize + (b.size - asize)
        omega
      have hbcR : rem.addr < c.addr := by
        show b.addr + asize < c.addr
        omega
      have hctop6 : c.addr ≠ s6.heapTop := by
        rw [hht6]
        exact hctop
      rw [update_pair_mid s6 (P ++ [nb]) T (b.addr + asize) rem c rfl
        (by simp [hs6def, hs5def]) hPnblt hcadj2 hbcR hTge hctop6 hcsz0]
      set cf1 : Block := ⟨c.addr, c.size, c.alloc, rem.alloc, isMiniSize rem.size⟩ with hcf1def
      set s7 : AState := { s6 with blocks := P ++ [nb] ++ rem :: cf1 :: T } with hs7def
      have hctop7 : cf1.addr ≠ s7.heapTop := by
        show c.addr ≠ s7.heapTop
        have : s7.heapTop = s.heapTop := by
          simp only [hs7def]
          exact hht6
        rw [this]
        exact hctop
      rw [update_pair_mid' s7 (P ++ [nb]) T (b.addr + asize) rem cf1 rfl
        rfl hPnblt hcadj2 hbcR hTge hctop7 hcsz0]
      set cf2 : Block := ⟨cf1.addr, cf1.size, cf1.alloc, rem.alloc, isMiniSize rem.size⟩ with hcf2def
      set s8 : AState := { s7 with blocks := P ++ [nb] ++ rem :: cf2 :: T } with hs8def
      have hbuck8 : ∀ k, bucket s8 k = bucket sE k := by
        intro k
        simp [hs8def, hs7def, hs6def, hs5def, hs4def, bucket]
      refine ⟨?_, trivial, ?_, ?_, ?_⟩
      · apply Wf_split s _ hw P (c :: T) b asize hs hbal h16 hmod hbig
        · refine Or.inl ⟨c, T, rfl, ?_, ?_, ?_⟩
          · simp [hs8def, hcf2def, hcf1def, hs7def, hs6def, hs5def,
              hs4def, hnbdef, hremdef]
          · simp only [hs8def, hs7def, hs6def, hs5def, hs4def]
            exact hsEep
          · simp only [hs8def, hs7def, hs6def, hs5def, hs4def]
            exact hsEem
        · intro a ha
          have ha2 : a = b.addr + asize ∨ a ∈ sE.miniRoot := by
            simpa [hs8def, hs7def, hs6def, hs5def, hs4def] using ha
          rcases ha2 with rfl | ha2
          · exact Or.inl ⟨rfl, h16r⟩
          · obtain ⟨hm, hne⟩ := hsEmini a ha2
            exact Or.inr ⟨hm, hne⟩
        · intro k a ha
          rw [hbuck8] at ha
          obtain ⟨hm, hne⟩ := hsEbuck k a ha
          exact Or.inr ⟨hm, hne⟩
        · have hmr : s8.miniRoot = (b.addr + asize) :: sE.miniRoot := by
            simp [hs8def, hs7def, hs6def, hs5def, hs4def]
          rw [hmr]
          refine List.nodup_cons.2 ⟨?_, hsEmnd⟩
          intro hmem
          obtain ⟨hm, -⟩ := hsEmini _ hmem
          obtain ⟨x, hx, hxa, -, -⟩ := hw.mini_sound _ hm
          exact hnoaddr x hx hxa
        · intro k
          rw [hbuck8]
          exact hsEbnd k
        · simp only [hs8def, hs7def, hs6def, hs5def, hs4def,
            List.length_set]
          exact hsElen
        · simp only [hs8def, hs7def]
          exact hht6
        · simp only [hs8def, hs7def, hs6def, hs5def, hs4def]
          exact hsEini
      · refine ⟨nb, ?_, rfl, rfl, Nat.le_refl _⟩
        simp [hs8def, hs7def, hs6def, hs5def, hs4def]
      · intro y hy hyal
        rw [hs] at hy
        rcases List.mem_append.1 hy with hy | hy
        · exact ⟨y, by simp [hs8def, hs7def, hs6def, hs5def, hs4def, hy],
            rfl, hyal, rfl⟩
        rcases List.mem_cons.1 hy with hy | hy
        · rw [hy] at hyal
          rw [hbal] at hyal
          cases hyal
        rcases List.mem_cons.1 hy with hy | hy
        · rw [hy]
          refine ⟨cf2, ?_, rfl, hcal, rfl⟩
          simp [hs8def, hs7def, hs6def, hs5def, hs4def]
        · exact ⟨y, by simp [hs8def, hs7def, hs6def, hs5def, hs4def, hy],
            rfl, hyal, rfl⟩
      · simp only [hs8def, hs7def, hs6def, hs5def, hs4def]
        exact hsEmax
    · have htop6 : rem.addr + rem.size = s6.heapTop := by
        rw [hht6]
        show b.addr + asize + (b.size - asize) = s.heapTop
        omega
      rw [update_pair_last s6 (P ++ [nb]) (b.addr + asize) rem rfl
        (by simp [hs6def, hs5def]) hPnblt htop6 hrempos]
      set s7 : AState := { s6 with epiPalloc := rem.alloc, epiMpalloc := isMiniSize rem.size } with hs7def
      have htop7 : rem.addr + rem.size = s7.heapTop := by
        have : s7.heapTop = s.heapTop := by
          simp only [hs7def]
          exact hht6
        rw [this]
        show b.addr + asize + (b.size - asize) = s.heapTop
        omega
      rw [update_pair_last' s7 (P ++ [nb]) (b.addr + asize) rem rfl
        (by simp [hs7def, hs6def, hs5def]) hPnblt htop7 hrempos]
      set s8 : AState := { s7 with epiPalloc := rem.alloc, epiMpalloc := isMiniSize rem.size } with hs8def
      have hbuck8 : ∀ k, bucket s8 k = bucket sE k := by
        intro k
        simp [hs8def, hs7def, hs6def, hs5def, hs4def, bucket]
      refine ⟨?_, trivial, ?_, ?_, ?_⟩
      · apply Wf_split s _ hw P [] b asize hs hbal h16 hmod hbig
        · refine Or.inr ⟨rfl, ?_, ?_, ?_⟩
          · simp [hs8def, hs7def, hs6def, hs5def, hs4def, hnbdef,
              hremdef]
          · simp [hs8def, hs7def, hremdef]
          · simp [hs8def, hs7def, hremdef]
        · intro a ha
          have ha2 : a = b.addr + asize ∨ a ∈ sE.miniRoot := by
            simpa [hs8def, hs7def, hs6def, hs5def, hs4def] using ha
          rcases ha2 with rfl | ha2
          · exact Or.inl ⟨rfl, h16r⟩
          · obtain ⟨hm, hne⟩ := hsEmini a ha2
            exact Or.inr ⟨hm, hne⟩
        · intro k a ha
          rw [hbuck8] at ha
          obtain ⟨hm, hne⟩ := hsEbuck k a ha
          exact Or.inr ⟨hm, hne⟩
        · have hmr : s8.miniRoot = (b.addr + asize) :: sE.miniRoot := by
            simp [hs8def, hs7def, hs6def, hs5def, hs4def]
          rw [hmr]
          refine List.nodup_cons.2 ⟨?_, hsEmnd⟩
          intro hmem
          obtain ⟨hm, -⟩ := hsEmini _ hmem
          obtain ⟨x, hx, hxa, -, -⟩ := hw.mini_sound _ hm
          exact hnoaddr x hx hxa
        · intro k
          rw [hbuck8]
          exact hsEbnd k
        · simp only [hs8def, hs7def, hs6def, hs5def, hs4def,
            List.length_set]
          exact hsElen
        · simp only [hs8def, hs7def]
          exact hht6
        · simp only [hs8def, hs7def, hs6def, hs5def, hs4def]
          exact hsEini
      · refine ⟨nb, ?_, rfl, rfl, Nat.le_refl _⟩
        simp [hs8def, hs7def, hs6def, hs5def, hs4def]
      · intro y hy hyal
        rw [hs] at hy
        rcases List.mem_append.1 hy with hy | hy
        · exact ⟨y, by simp [hs8def, hs7def, hs6def, hs5def, hs4def, hy],
            rfl, hyal, rfl⟩
        rcases List.mem_cons.1 hy with hy | hy
        · rw [hy] at hyal
          rw [hbal] at hyal
          cases hyal
        · cases hy
      · simp only [hs8def, hs7def, hs6def, hs5def, hs4def]
        exact hsEmax
  · rw [insertVague_normal s5 (P ++ [nb]) Q (b.addr + asize) rem rfl
      (by simp [hs5def]) hPnbne (show rem.size ≠ 16 from h16r)]
    set s6 : AState := { s5 with seglist := (s5.seglist.set (home_address rem.size) (rem.addr :: bucket s5 (home_address rem.size))) } with hs6def
    have hht6 : s6.heapTop = s.heapTop := by
      simp only [hs6def, hs5def, hs4def]
      exact hsEht
    have hb5 : ∀ j, bucket s5 j = bucket sE j := by
      intro j
      simp [hs5def, hs4def, bucket]
    have hs5len : s5.seglist.length = 14 := by
      simp only [hs5def, hs4def]
      exact hsElen
    have hb6 : ∀ k, bucket s6 k =
        if k = home_address rem.size then
          rem.addr :: bucket s5 (home_address rem.size)
        else bucket s5 k := by
      intro k
      by_cases hk : k = home_address rem.size
      · subst hk
        rw [if_pos rfl, hs6def]
        exact bucket_set_self s5 _ _
          (by rw [hs5len]; exact home_address_lt _)
      · rw [if_neg hk, hs6def]
        exact bucket_set_ne s5 _ k _ (fun he => hk he.symm)
    rcases hsucc with ⟨c, T, rfl, hcadj, hcal, hcsz0, hctop, hTge⟩ |
      ⟨rfl, htopb⟩
    · have hcadj2 : c.addr = rem.addr + rem.size := by
        show c.addr = b.addr + asize + (b.size - asize)
        omega
      have hbcR : rem.addr < c.addr := by
        show b.addr + asize < c.addr
        omega
      have hctop6 : c.addr ≠ s6.heapTop := by
        rw [hht6]
        exact hctop
      rw [update_pair_mid' s6 (P ++ [nb]) T (b.addr + asize) rem c rfl
        (by simp [hs6def, hs5def]) hPnblt hcadj2 hbcR hTge hctop6 hcsz0]
      set cf1 : Block := ⟨c.addr, c.size, c.alloc, rem.alloc, isMiniSize rem.size⟩ with hcf1def
      set s7 : AState := { s6 with blocks := P ++ [nb] ++ rem :: cf1 :: T } with hs7def
      have hbuck7 : ∀ k, bucket s7 k = bucket s6 k := by
        intro k
        simp [hs7def, bucket]
      refine ⟨?_, trivial, ?_, ?_, ?_⟩
      · apply Wf_split s _ hw P (c :: T) b asize hs hbal h16 hmod hbig
        · refine Or.inl ⟨c, T, rfl, ?_, ?_, ?_⟩
          · simp [hs7def, hcf1def, hs6def, hs5def, hs4def, hnbdef,
              hremdef]
          · simp only [hs7def, hs6def, hs5def, hs4def]
            exact hsEep
          · simp only [hs7def, hs6def, hs5def, hs4def]
            exact hsEem
        · intro a ha
          have ha2 : a ∈ sE.miniRoot := by
            simpa [hs7def, hs6def, hs5def, hs4def] using ha
          obtain ⟨hm, hne⟩ := hsEmini a ha2
          exact Or.inr ⟨hm, hne⟩
        · intro k a ha
          rw [hbuck7, hb6] at ha
          by_cases hk : k = home_address rem.size
          · subst hk
            rw [if_pos rfl] at ha
            rcases List.mem_cons.1 ha with ha | ha
            · left
              refine ⟨ha, h16r, ?_⟩
              show home_address (b.size - asize) = home_address rem.size
              rfl
            · rw [hb5] at ha
              obtain ⟨hm, hne⟩ := hsEbuck _ a ha
              exact Or.inr ⟨hm, hne⟩
          · rw [if_neg hk, hb5] at ha
            obtain ⟨hm, hne⟩ := hsEbuck _ a ha
            exact Or.inr ⟨hm, hne⟩
        · have hmr : s7.miniRoot = sE.miniRoot := by
            simp [hs7def, hs6def, hs5def, hs4def]
          rw [hmr]
          exact hsEmnd
        · intro k
          rw [hbuck7, hb6]
          by_cases hk : k = home_address rem.size
          · subst hk
            rw [if_pos rfl]
            refine List.nodup_cons.2 ⟨?_, ?_⟩
            · intro hmem
              rw [hb5] at hmem
              obtain ⟨hm, -⟩ := hsEbuck _ _ hmem
              obtain ⟨x, hx, hxa, -, -, -⟩ := hw.seg_sound _ _ hm
              exact hnoaddr x hx hxa
            · rw [hb5]
              exact hsEbnd _
          · rw [if_neg hk, hb5]
            exact hsEbnd k
        · simp only [hs7def, hs6def, hs5def, hs4def, List.length_set]
          exact hsElen
        · simp only [hs7def]
          exact hht6
        · simp only [hs7def, hs6def, hs5def, hs4def]
          exact hsEini
      · refine ⟨nb, ?_, rfl, rfl, Nat.le_refl _⟩
        simp [hs7def, hs6def, hs5def, hs4def]
      · intro y hy hyal
        rw [hs] at hy
        rcases List.mem_append.1 hy with hy | hy
        · exact ⟨y, by simp [hs7def, hs6def, hs5def, hs4def, hy], rfl,
            hyal, rfl⟩
        rcases List.mem_cons.1 hy with hy | hy
        · rw [hy] at hyal
          rw [hbal] at hyal
          cases hyal
        rcases List.mem_cons.1 hy with hy | hy
        · rw [hy]
          refine ⟨cf1, ?_, rfl, hcal, rfl⟩
          simp [hs7def, hs6def, hs5def, hs4def]
        · exact ⟨y, by simp [hs7def, hs6def, hs5def, hs4def, hy], rfl,
            hyal, rfl⟩
      · simp only [hs7def, hs6def, hs5def, hs4def]
        exact hsEmax
    · have htop6 : rem.addr + rem.size = s6.heapTop := by
        rw [hht6]
        show b.addr + asize + (b.size - asize) = s.heapTop
        omega
      rw [update_pair_last' s6 (P ++ [nb]) (b.addr + asize) rem rfl
        (by simp [hs6def, hs5def]) hPnblt htop6 hrempos]
      set s7 : AState := { s6 with epiPalloc := rem.alloc, epiMpalloc := isMiniSize rem.size } with hs7def
      have hbuck7 : ∀ k, bucket s7 k = bucket s6 k := by
        intro k
        simp [hs7def, bucket]
      refine ⟨?_, trivial, ?_, ?_, ?_⟩
      · apply Wf_split s _ hw P [] b asize hs hbal h16 hmod hbig
        · refine Or.inr ⟨rfl, ?_, ?_, ?_⟩
          · simp [hs7def, hs6def, hs5def, hs4def, hnbdef, hremdef]
          · simp [hs7def, hremdef]
          · simp [hs7def, hremdef]
        · intro a ha
          have ha2 : a ∈ sE.miniRoot := by
            simpa [hs7def, hs6def, hs5def, hs4def] using ha
          obtain ⟨hm, hne⟩ := hsEmini a ha2
          exact Or.inr ⟨hm, hne⟩
        · intro k a ha
          rw [hbuck7, hb6] at ha
          by_cases hk : k = home_address rem.size
          · subst hk
            rw [if_pos rfl] at ha
            rcases List.mem_cons.1 ha with ha | ha
            · left
              refine ⟨ha, h16r, ?_⟩
              show home_address (b.size - asize) = home_address rem.size
              rfl
            · rw [hb5] at ha
              obtain ⟨hm, hne⟩ := hsEbuck _ a ha
              exact Or.inr ⟨hm, hne⟩
          · rw [if_neg hk, hb5] at ha
            obtain ⟨hm, hne⟩ := hsEbuck _ a ha
            exact Or.inr ⟨hm, hne⟩
        · have hmr : s7.miniRoot = sE.miniRoot := by
            simp [hs7def, hs6def, hs5def, hs4def]
          rw [hmr]
          exact hsEmnd
        · intro k
          rw [hbuck7, hb6]
          by_cases hk : k = home_address rem.size
          · subst hk
            rw [if_pos rfl]
            refine List.nodup_cons.2 ⟨?_, ?_⟩
            · intro hmem
              rw [hb5] at hmem
              obtain ⟨hm, -⟩ := hsEbuck _ _ hmem
              obtain ⟨x, hx, hxa, -, -, -⟩ := hw.seg_sound _ _ hm
              exact hnoaddr x hx hxa
            · rw [hb5]
              exact hsEbnd _
          · rw [if_neg hk, hb5]
            exact hsEbnd k
        · simp only [hs7def, hs6def, hs5def, hs4def, List.length_set]
          exact hsElen
        · simp only [hs7def]
          exact hht6
        · simp only [hs7def, hs6def, hs5def, hs4def]
          exact hsEini
      · refine ⟨nb, ?_, rfl, rfl, Nat.le_refl _⟩
        simp [hs7def, hs6def, hs5def, hs4def]
      · intro y hy hyal
        rw [hs] at hy
        rcases List.mem_append.1 hy with hy | hy
        · exact ⟨y, by simp [hs7def, hs6def, hs5def, hs4def, hy], rfl,
            hyal, rfl⟩
        rcases List.mem_cons.1 hy with hy | hy
        · rw [hy] at hyal
          rw [hbal] at hyal
          cases hyal
        · cases hy
      · simp only [hs7def, hs6def, hs5def, hs4def]
        exact hsEmax


lemma whole_finish (s : AState) (hw : Wf s) (P Q : List Block) (b : Block)
    (asize : Nat) (s3 : AState)
    (hs : s.blocks = P ++ b :: Q) (hbal : b.alloc = false)
    (hle : asize ≤ b.size)
    (hsucc : (∃ c T, Q = c :: T ∧ c.addr = b.addr + b.size ∧
        c.alloc = true ∧ 0 < c.size ∧ c.addr ≠ s.heapTop ∧
        (∀ y ∈ T, c.addr + c.size ≤ y.addr)) ∨
      (Q = [] ∧ b.addr + b.size = s.heapTop))
    (h3b : (∃ c T d, Q = c :: T ∧ d.addr = c.addr ∧ d.size = c.size ∧
        d.alloc = c.alloc ∧
        s3.blocks = P ++ (⟨b.addr, b.size, true, b.palloc,
          b.mpalloc⟩ : Block) :: d :: T ∧
        s3.epiPalloc = s.epiPalloc ∧ s3.epiMpalloc = s.epiMpalloc) ∨
      (Q = [] ∧ s3.blocks = P ++ [(⟨b.addr, b.size, true, b.palloc,
        b.mpalloc⟩ : Block)]))
    (h3mini : ∀ a ∈ s3.miniRoot, a ∈ s.miniRoot ∧ a ≠ b.addr)
    (h3mnd : s3.miniRoot.Nodup)
    (h3buck : ∀ k a, a ∈ bucket s3 k → a ∈ bucket s k ∧ a ≠ b.addr)
    (h3bnd : ∀ k, (bucket s3 k).Nodup)
    (h3len : s3.seglist.length = 14)
    (h3ht : s3.heapTop = s.heapTop)
    (h3ini : s3.initialized = true)
    (h3max : s3.maxHeap = s.maxHeap) :
    Wf (update_next_mpalloc (update_next_palloc s3 b.addr) b.addr) ∧
    (∃ z ∈ (update_next_mpalloc (update_next_palloc s3 b.addr)
        b.addr).blocks, z.addr = b.addr ∧ z.alloc = true ∧
        asize ≤ z.size) ∧
    (∀ y ∈ s.blocks, y.alloc = true →
      ∃ z ∈ (update_next_mpalloc (update_next_palloc s3 b.addr)
        b.addr).blocks, z.addr = y.addr ∧ z.alloc = true ∧
        z.size = y.size) ∧
    (update_next_mpalloc (update_next_palloc s3 b.addr)
      b.addr).maxHeap = s.maxHeap := by
  have hchain := hw.chain
  rw [hs] at hchain
  have hPlt : ∀ y ∈ P, y.addr < b.addr :=
    fun y hy => (seg_front P b Q hchain y hy).2
  obtain ⟨-, -, hbszm, -, -⟩ :=
    seg_mem s.blocks 8 true false hw.chain b (by rw [hs]; simp)
  have hbpos : (0:Nat) < b.size := by
    unfold min_block_size dsize wsize at hbszm
    omega
  set bAL : Block := ⟨b.addr, b.size, true, b.palloc, b.mpalloc⟩
    with hbALdef
  rcases h3b with ⟨c, T, d, hQeq, hda, hdsz, hdal, h3bl, h3ep, h3em⟩ |
    ⟨hQeq, h3bl⟩
  · subst hQeq
    rcases hsucc with ⟨c2, T2, hQ2, hcadj, hcal, hcsz0, hctop, hTge⟩ |
      ⟨hQ2, -⟩
    · rw [List.cons.injEq] at hQ2
      obtain ⟨h1, h2⟩ := hQ2
      rw [← h1] at hcadj hcal hcsz0 hctop hTge
      rw [← h2] at hTge
      have hdadj : d.addr = bAL.addr + bAL.size := by
        show d.addr = b.addr + b.size
        omega
      have hbc : bAL.addr < d.addr := by
        show b.addr < d.addr
        omega
      have hTge2 : ∀ y ∈ T, d.addr + d.size ≤ y.addr := by
        intro y hy
        have := hTge y hy
        omega
      have hdtop : d.addr ≠ s3.heapTop := by
        rw [h3ht, hda]
        exact hctop
      have hdsz0 : 0 < d.size := by omega
      rw [update_pair_mid s3 P T b.addr bAL d rfl h3bl hPlt hdadj hbc
        hTge2 hdtop hdsz0]
      set dU : Block := ⟨d.addr, d.size, d.alloc, bAL.alloc, isMiniSize bAL.size⟩ with hdUdef
      set sF : AState := { s3 with blocks := P ++ bAL :: dU :: T } with hsFdef
      refine ⟨?_, ?_, ?_, ?_⟩
      · apply Wf_allocw s _ hw P (c :: T) b hs hbal
        · refine Or.inl ⟨c, T, rfl, ?_, ?_, ?_⟩
          · simp [hsFdef, hdUdef, hbALdef, hda, hdsz, hdal]
          · simp only [hsFdef]
            exact h3ep
          · simp only [hsFdef]
            exact h3em
        · intro a ha
          exact h3mini a (by simpa [hsFdef] using ha)
        · intro k a ha
          apply h3buck k a
          have : bucket sF k = bucket s3 k := by
            simp [hsFdef, bucket]
          rw [← this]
          exact ha
        · simpa [hsFdef] using h3mnd
        · intro k
          have : bucket sF k = bucket s3 k := by
            simp [hsFdef, bucket]
          rw [this]
          exact h3bnd k
        · simpa [hsFdef] using h3len
        · simpa [hsFdef] using h3ht
        · simpa [hsFdef] using h3ini
      · refine ⟨bAL, ?_, rfl, rfl, hle⟩
        simp [hsFdef]
      · intro y hy hyal
        rw [hs] at hy
        rcases List.mem_append.1 hy with hy | hy
        · exact ⟨y, by simp [hsFdef, hy], rfl, hyal, rfl⟩
        rcases List.mem_cons.1 hy with hy | hy
        · rw [hy] at hyal
          rw [hbal] at hyal
          cases hyal
        rcases List.mem_cons.1 hy with hy | hy
        · rw [hy]
          refine ⟨dU, by simp [hsFdef], ?_, ?_, ?_⟩
          · show d.addr = c.addr
            exact hda
          · show d.alloc = true
            rw [hdal]
            exact hcal
          · show d.size = c.size
            exact hdsz
        · exact ⟨y, by simp [hsFdef, hy], rfl, hyal, rfl⟩
      · simpa [hsFdef] using h3max
    · cases hQ2
  · subst hQeq
    have htopb : b.addr + b.size = s.heapTop := by
      rcases hsucc with ⟨c2, T2, hQ2, -⟩ | ⟨-, h⟩
      · cases hQ2
      · exact h
    have htop3 : bAL.addr + bAL.size = s3.heapTop := by
      rw [h3ht]
      show b.addr + b.size = s.heapTop
      exact htopb
    rw [update_pair_last s3 P b.addr bAL rfl h3bl hPlt htop3 hbpos]
    set sF : AState := { s3 with epiPalloc := bAL.alloc, epiMpalloc := isMiniSize bAL.size } with hsFdef
    refine ⟨?_, ?_, ?_, ?_⟩
    · apply Wf_allocw s _ hw P [] b hs hbal
      · refine Or.inr ⟨rfl, ?_, ?_, ?_⟩
        · simp only [hsFdef]
          exact h3bl
        · simp [hsFdef, hbALdef]
        · simp [hsFdef, hbALdef]
      · intro a ha
        exact h3mini a (by simpa [hsFdef] using ha)
      · intro k a ha
        apply h3buck k a
        have : bucket sF k = bucket s3 k := by
          simp [hsFdef, bucket]
        rw [← this]
        exact ha
      · simpa [hsFdef] using h3mnd
      · intro k
        have : bucket sF k = bucket s3 k := by
          simp [hsFdef, bucket]
        rw [this]
        exact h3bnd k
      · simpa [hsFdef] using h3len
      · simpa [hsFdef] using h3ht
      · simpa [hsFdef] using h3ini
    · refine ⟨bAL, ?_, rfl, rfl, hle⟩
      simp [hsFdef, h3bl]
    · intro y hy hyal
      rw [hs] at hy
      rcases List.mem_append.1 hy with hy | hy
      · exact ⟨y, by simp [hsFdef, h3bl, hy], rfl, hyal, rfl⟩
      rcases List.mem_cons.1 hy with hy | hy
      · rw [hy] at hyal
        rw [hbal] at hyal
        cases hyal
      · cases hy
    · simpa [hsFdef] using h3max


lemma mm_alloc_whole (s : AState) (hw : Wf s) (P Q : List Block)
    (b : Block) (asize : Nat)
    (hs : s.blocks = P ++ b :: Q) (hbal : b.alloc = false)
    (h16 : 16 ≤ asize) (hmod : asize % 16 = 0) (hle : asize ≤ b.size)
    (hsmall : b.size < asize + 16) :
    Wf (mm_alloc_finish s b.addr asize).1 ∧
    (mm_alloc_finish s b.addr asize).2 = some (b.addr + wsize) ∧
    (∃ z ∈ (mm_alloc_finish s b.addr asize).1.blocks,
      z.addr = b.addr ∧ z.alloc = true ∧ asize ≤ z.size) ∧
    (∀ y ∈ s.blocks, y.alloc = true →
      ∃ z ∈ (mm_alloc_finish s b.addr asize).1.blocks,
        z.addr = y.addr ∧ z.alloc = true ∧ z.size = y.size) ∧
    (mm_alloc_finish s b.addr asize).1.maxHeap = s.maxHeap := by
  have hchain := hw.chain
  rw [hs] at hchain
  have hPlt : ∀ y ∈ P, y.addr < b.addr :=
    fun y hy => (seg_front P b Q hchain y hy).2
  have hQge : ∀ y ∈ Q, b.addr + b.size ≤ y.addr := seg_suffix P b Q hchain
  obtain ⟨hchP2, hchB⟩ := (seg_append P (b :: Q) 8 true false).1 hchain
  obtain ⟨hba, hbszm, hbmod, hbpE, hbmE, -, hchQ⟩ := hchB
  have htopfst : (segEnd 8 true false s.blocks).1 = s.heapTop := by
    rw [hw.top]
  have hbpos : (0:Nat) < b.size := by
    unfold min_block_size dsize wsize at hbszm
    omega
  have hbfl := free_listed_unique s hw.chain hw.mini_sound hw.seg_sound b
    (by rw [hs]; simp) hbal
  have hsucc : (∃ c T, Q = c :: T ∧ c.addr = b.addr + b.size ∧
      c.alloc = true ∧ 0 < c.size ∧ c.addr ≠ s.heapTop ∧
      (∀ y ∈ T, c.addr + c.size ≤ y.addr)) ∨
    (Q = [] ∧ b.addr + b.size = s.heapTop) := by
    rcases Q with _ | ⟨c, T⟩
    · right
      refine ⟨rfl, ?_⟩
      have h0 := hw.top
      rw [hs, segEnd_append] at h0
      simp only [segEnd] at h0
      have h1 := congrArg Prod.fst h0
      simp at h1
      omega
    · left
      obtain ⟨hca, hcszm, -, -, -, hcimp, hchT⟩ := hchQ
      obtain ⟨-, hctople', hcsz16, -, -⟩ :=
        seg_mem s.blocks 8 true false hw.chain c (by rw [hs]; simp)
      refine ⟨c, T, rfl, by omega, hcimp hbal, ?_, ?_, ?_⟩
      · unfold min_block_size dsize wsize at hcszm
        omega
      · rw [htopfst] at hctople'
        unfold min_block_size dsize wsize at hcsz16
        omega
      · intro y hy
        have h1 := (seg_mem T _ _ _ hchT y hy).1
        omega
  have hrb : readBlock s b.addr = b :=
    readBlock_decomp s P Q b hs (fun y hy => Nat.ne_of_lt (hPlt y hy))
  have hszb : sizeAt s b.addr = b.size := by
    unfold sizeAt
    rw [hrb]
  have hmpb : mpallocAt s b.addr = b.mpalloc := by
    unfold mpallocAt
    rw [hrb]
  have hpab : pallocAt s b.addr = b.palloc := by
    unfold pallocAt
    rw [hrb]
  set bA : Block := ⟨b.addr, b.size, true, b.palloc, b.mpalloc⟩ with hbAdef
  have hw2 : write_block s b.addr b.size b.mpalloc b.palloc true =
      { s with blocks := P ++ bA :: Q } :=
    write_block_decomp s P [b] Q b.addr b.size b.mpalloc b.palloc true
      (by simpa using hs) hPlt
      (by intro y hy
          simp at hy
          rw [hy]
          exact ⟨Nat.le_refl _, by omega⟩)
      hQge
  have h2 : mm_alloc_finish s b.addr asize =
      (split_block { s with blocks := P ++ bA :: Q } b.addr asize,
        some (b.addr + wsize)) := by
    unfold mm_alloc_finish
    simp only [hszb, hmpb, hpab]
    rw [hw2]
  rw [h2]
  set s2 : AState := { s with blocks := P ++ bA :: Q } with hs2def
  have hPne : ∀ y ∈ P, y.addr ≠ bA.addr :=
    fun y hy => Nat.ne_of_lt (hPlt y hy)
  have hrb2 : readBlock s2 b.addr = bA :=
    readBlock_decomp s2 P Q bA rfl hPne
  have hsz2 : sizeAt s2 b.addr = b.size := by
    unfold sizeAt
    rw [hrb2]
  have hmp2 : mpallocAt s2 b.addr = b.mpalloc := by
    unfold mpallocAt
    rw [hrb2]
  have hpa2 : pallocAt s2 b.addr = b.palloc := by
    unfold pallocAt
    rw [hrb2]
  unfold split_block
  simp only [hsz2]
  rw [if_neg (show ¬ min_block_size ≤ b.size - asize from by
    unfold min_block_size dsize wsize; omega)]
  simp only [hmp2, hpa2]
  by_cases h16b : b.size = 16
  · rw [removeVague_mini s2 P Q b.addr bA rfl rfl hPne
      (show bA.size = 16 from h16b)]
    have hbnl1 : ∀ k, b.addr ∉ bucket s k := hbfl.1 h16b
    rcases hmr : s.miniRoot with _ | ⟨r, rest⟩
    · have hre : remove_mini_block s2 b.addr = s2 := by
        unfold remove_mini_block
        rw [show s2.miniRoot = [] from hmr]
      rw [hre]
      rw [write_block_self s2 P Q bA rfl hPlt hQge hbpos]
      obtain ⟨w, z, f, m⟩ := whole_finish s hw P Q b asize s2 hs hbal hle
        hsucc
        (by rcases hsucc with ⟨c, T, hQeq, -, -, -, -, -⟩ | ⟨hQeq, -⟩
            · subst hQeq
              exact Or.inl ⟨c, T, c, rfl, rfl, rfl, rfl, rfl, rfl, rfl⟩
            · subst hQeq
              exact Or.inr ⟨rfl, rfl⟩)
        (by intro a ha
            rw [show s2.miniRoot = s.miniRoot from rfl, hmr] at ha
            cases ha)
        (by rw [show s2.miniRoot = s.miniRoot from rfl]
            exact hw.mini_nodup)
        (by intro k a ha
            replace ha : a ∈ bucket s k := ha
            exact ⟨ha, fun he => hbnl1 k (he ▸ ha)⟩)
        (fun k => hw.bucket_nodup k)
        hw.seg_len rfl hw.init rfl
      exact ⟨w, trivial, z, f, m⟩
    · have hnods := hw.mini_nodup
      rw [hmr] at hnods
      obtain ⟨hrnotin, hrestnd⟩ := List.nodup_cons.1 hnods
      by_cases hr : r = b.addr
      · rw [remove_mini_head s2 b.addr rest
          (show s2.miniRoot = b.addr :: rest from by
            rw [show s2.miniRoot = s.miniRoot from rfl, hmr, hr])]
        set s2m : AState := { s2 with miniRoot := rest } with hs2mdef
        have hminiM : ∀ a ∈ rest, a ∈ s.miniRoot ∧ a ≠ b.addr := by
          intro a ha
          refine ⟨by rw [hmr]; simp [ha], ?_⟩
          intro he
          exact hrnotin (by rw [hr, ← he]; exact ha)
        rcases hsucc with ⟨c, T, hQeq, hcadj, hcal, hcsz0, hctop, hTge⟩ |
          ⟨hQeq, htopb⟩
        · subst hQeq
          rw [update_pair_mid s2m P T b.addr bA c rfl rfl hPlt
            (show c.addr = b.addr + b.size from hcadj)
            (show b.addr < c.addr from by omega) hTge
            (show c.addr ≠ s2m.heapTop from hctop) hcsz0]
          set cU : Block := ⟨c.addr, c.size, c.alloc, bA.alloc, isMiniSize bA.size⟩ with hcUdef
          set s3 : AState := { s2m with blocks := P ++ bA :: cU :: T } with hs3def
          rw [write_block_self s3 P (cU :: T) bA rfl hPlt
            (by intro y hy
                rcases List.mem_cons.1 hy with hy | hy
                · rw [hy]
                  show b.addr + b.size ≤ c.addr
                  omega
                · have := hTge y hy
                  show b.addr + b.size ≤ y.addr
                  omega)
            hbpos]
          obtain ⟨w, z, f, m⟩ := whole_finish s hw P (c :: T) b asize s3
            hs hbal hle
            (Or.inl ⟨c, T, rfl, hcadj, hcal, hcsz0, hctop, hTge⟩)
            (Or.inl ⟨c, T, cU, rfl, rfl, rfl, rfl, rfl, rfl, rfl⟩)
            (by intro a ha
                exact hminiM a (by simpa [hs3def, hs2mdef] using ha))
            (by have : s3.miniRoot = rest := by simp [hs3def, hs2mdef]
                rw [this]
                exact hrestnd)
            (by intro k a ha
                replace ha : a ∈ bucket s k := ha
                exact ⟨ha, fun he => hbnl1 k (he ▸ ha)⟩)
            (fun k => hw.bucket_nodup k)
            hw.seg_len rfl hw.init rfl
          exact ⟨w, trivial, z, f, m⟩
        · subst hQeq
          rw [update_pair_last s2m P b.addr bA rfl rfl hPlt
            (show b.addr + b.size = s2m.heapTop from htopb) hbpos]
          set s3 : AState := { s2m with epiPalloc := bA.alloc, epiMpalloc := isMiniSize bA.size } with hs3def
          rw [write_block_self s3 P [] bA rfl hPlt
            (by intro y hy; cases hy) hbpos]
          obtain ⟨w, z, f, m⟩ := whole_finish s hw P [] b asize s3
            hs hbal hle (Or.inr ⟨rfl, htopb⟩) (Or.inr ⟨rfl, rfl⟩)
            (by intro a ha
                exact hminiM a (by simpa [hs3def, hs2mdef] using ha))
            (by have : s3.miniRoot = rest := by simp [hs3def, hs2mdef]
                rw [this]
                exact hrestnd)
            (by intro k a ha
                replace ha : a ∈ bucket s k := ha
                exact ⟨ha, fun he => hbnl1 k (he ▸ ha)⟩)
            (fun k => hw.bucket_nodup k)
            hw.seg_len rfl hw.init rfl
          exact ⟨w, trivial, z, f, m⟩
      · by_cases hmem : b.addr ∈ rest
        · rw [remove_mini_tail s2 b.addr r rest
            (show s2.miniRoot = r :: rest from hmr) hr hmem]
          set s2t : AState := { s2 with miniRoot := r :: rest.erase b.addr } with hs2tdef
          rw [write_block_self s2t P Q bA rfl hPlt hQge hbpos]
          obtain ⟨w, z, f, m⟩ := whole_finish s hw P Q b asize s2t hs
            hbal hle hsucc
            (by rcases hsucc with ⟨c, T, hQeq, -, -, -, -, -⟩ | ⟨hQeq, -⟩
                · subst hQeq
                  exact Or.inl ⟨c, T, c, rfl, rfl, rfl, rfl, rfl, rfl,
                    rfl⟩
                · subst hQeq
                  exact Or.inr ⟨rfl, rfl⟩)
            (by intro a ha
                replace ha : a ∈ r :: rest.erase b.addr := ha
                rcases List.mem_cons.1 ha with ha | ha
                · rw [ha]
                  exact ⟨by rw [hmr]; simp, hr⟩
                · have h2 := (List.Nodup.mem_erase_iff hrestnd).1 ha
                  exact ⟨by rw [hmr]; simp [h2.2], h2.1⟩)
            (by show (r :: rest.erase b.addr).Nodup
                refine List.nodup_cons.2 ⟨?_, List.Nodup.erase _ hrestnd⟩
                intro hmem2
                exact hrnotin (List.mem_of_mem_erase hmem2))
            (by intro k a ha
                replace ha : a ∈ bucket s k := ha
                exact ⟨ha, fun he => hbnl1 k (he ▸ ha)⟩)
            (fun k => hw.bucket_nodup k)
            hw.seg_len rfl hw.init rfl
          exact ⟨w, trivial, z, f, m⟩
        · rw [remove_mini_notfound s2 b.addr r rest
            (show s2.miniRoot = r :: rest from hmr) hr hmem]
          have hminiN : ∀ a, a ∈ s.miniRoot → a ≠ b.addr := by
            intro a ha he
            rw [he, hmr] at ha
            rcases List.mem_cons.1 ha with ha | ha
            · exact hr ha.symm
            · exact hmem ha
          rcases hsucc with ⟨c, T, hQeq, hcadj, hcal, hcsz0, hctop,
            hTge⟩ | ⟨hQeq, htopb⟩
          · subst hQeq
            rw [update_pair_mid s2 P T b.addr bA c rfl rfl hPlt
              (show c.addr = b.addr + b.size from hcadj)
              (show b.addr < c.addr from by omega) hTge
              (show c.addr ≠ s2.heapTop from hctop) hcsz0]
            set cU : Block := ⟨c.addr, c.size, c.alloc, bA.alloc, isMiniSize bA.size⟩ with hcUdef
            set s3 : AState := { s2 with blocks := P ++ bA :: cU :: T } with hs3def
            rw [write_block_self s3 P (cU :: T) bA rfl hPlt
              (by intro y hy
                  rcases List.mem_cons.1 hy with hy | hy
                  · rw [hy]
                    show b.addr + b.size ≤ c.addr
                    omega
                  · have := hTge y hy
                    show b.addr + b.size ≤ y.addr
                    omega)
              hbpos]
            obtain ⟨w, z, f, m⟩ := whole_finish s hw P (c :: T) b asize
              s3 hs hbal hle
              (Or.inl ⟨c, T, rfl, hcadj, hcal, hcsz0, hctop, hTge⟩)
              (Or.inl ⟨c, T, cU, rfl, rfl, rfl, rfl, rfl, rfl, rfl⟩)
              (by intro a ha
                  replace ha : a ∈ s.miniRoot := ha
                  exact ⟨ha, hminiN a ha⟩)
              (by show s.miniRoot.Nodup
                  exact hw.mini_nodup)
              (by intro k a ha
                  replace ha : a ∈ bucket s k := ha
                  exact ⟨ha, fun he => hbnl1 k (he ▸ ha)⟩)
              (fun k => hw.bucket_nodup k)
              hw.seg_len rfl hw.init rfl
            exact ⟨w, trivial, z, f, m⟩
          · subst hQeq
            rw [update_pair_last s2 P b.addr bA rfl rfl hPlt
              (show b.addr + b.size = s2.heapTop from htopb) hbpos]
            set s3 : AState := { s2 with epiPalloc := bA.alloc, epiMpalloc := isMiniSize bA.size } with hs3def
            rw [write_block_self s3 P [] bA rfl hPlt
              (by intro y hy; cases hy) hbpos]
            obtain ⟨w, z, f, m⟩ := whole_finish s hw P [] b asize s3
              hs hbal hle (Or.inr ⟨rfl, htopb⟩) (Or.inr ⟨rfl, rfl⟩)
              (by intro a ha
                  replace ha : a ∈ s.miniRoot := ha
                  exact ⟨ha, hminiN a ha⟩)
              (by show s.miniRoot.Nodup
                  exact hw.mini_nodup)
              (by intro k a ha
                  replace ha : a ∈ bucket s k := ha
                  exact ⟨ha, fun he => hbnl1 k (he ▸ ha)⟩)
              (fun k => hw.bucket_nodup k)
              hw.seg_len rfl hw.init rfl
            exact ⟨w, trivial, z, f, m⟩
  · have hbnl := hbfl.2 h16b
    rw [show removeVagueBlock s2 b.addr = eraseListed s2 bA from by
      rw [removeVague_normal s2 P Q b.addr bA rfl rfl hPne
        (show bA.size ≠ 16 from h16b)]
      unfold eraseListed
      rw [if_neg (show ¬ bA.size = 16 from h16b)]]
    set sE : AState := eraseListed s2 bA with hsEdef
    have hsEb : sE.blocks = P ++ bA :: Q := by
      rw [hsEdef, eraseListed_blocks]
    have hsEht : sE.heapTop = s.heapTop := by
      rw [hsEdef, eraseListed_heapTop]
    have hsEep : sE.epiPalloc = s.epiPalloc := by
      rw [hsEdef, eraseListed_epiPalloc]
    have hsEem : sE.epiMpalloc = s.epiMpalloc := by
      rw [hsEdef, eraseListed_epiMpalloc]
    have hsEini : sE.initialized = true := by
      rw [hsEdef, eraseListed_initialized]
      exact hw.init
    have hsEmax : sE.maxHeap = s.maxHeap := by
      rw [hsEdef]
      unfold eraseListed
      split <;> rfl
    have hsElen : sE.seglist.length = 14 := by
      rw [hsEdef]
      exact eraseListed_len s2 bA hw.seg_len
    have hsEmini : ∀ a ∈ sE.miniRoot, a ∈ s.miniRoot ∧ a ≠ b.addr := by
      intro a ha
      rw [hsEdef] at ha
      exact eraseListed_miniRoot_sub s2 bA hw.mini_nodup
        (fun _ => hbnl.1) a ha
    have hsEmnd : sE.miniRoot.Nodup := by
      rw [hsEdef]
      exact eraseListed_mini_nodup s2 bA hw.mini_nodup
    have hsEbuck : ∀ k a, a ∈ bucket sE k →
        a ∈ bucket s k ∧ a ≠ b.addr := by
      intro k a ha
      rw [hsEdef] at ha
      exact eraseListed_bucket_sub s2 bA hw.seg_len hw.bucket_nodup
        (fun h => absurd h h16b) (fun _ k hk => hbnl.2 k hk) k a ha
    have hsEbnd : ∀ k, (bucket sE k).Nodup := by
      intro k
      rw [hsEdef]
      exact eraseListed_bucket_nodup s2 bA hw.seg_len hw.bucket_nodup k
    rw [(show write_block sE b.addr b.size b.mpalloc b.palloc true = sE
      from write_block_self sE P Q bA hsEb hPlt hQge hbpos)]
    obtain ⟨w, z, f, m⟩ := whole_finish s hw P Q b asize sE hs hbal hle
      hsucc
      (by rcases hsucc with ⟨c, T, hQeq, -, -, -, -, -⟩ | ⟨hQeq, -⟩
          · subst hQeq
            exact Or.inl ⟨c, T, c, rfl, rfl, rfl, rfl, hsEb, hsEep,
              hsEem⟩
          · subst hQeq
            exact Or.inr ⟨rfl, hsEb⟩)
      hsEmini hsEmnd hsEbuck hsEbnd hsElen hsEht hsEini hsEmax
    exact ⟨w, trivial, z, f, m⟩


lemma mm_alloc_finish_wf (s : AState) (hw : Wf s) (P Q : List Block)
    (b : Block) (asize : Nat)
    (hs : s.blocks = P ++ b :: Q) (hbal : b.alloc = false)
    (h16 : 16 ≤ asize) (hmod : asize % 16 = 0) (hle : asize ≤ b.size) :
    Wf (mm_alloc_finish s b.addr asize).1 ∧
    (mm_alloc_finish s b.addr asize).2 = some (b.addr + wsize) ∧
    (∃ z ∈ (mm_alloc_finish s b.addr asize).1.blocks,
      z.addr = b.addr ∧ z.alloc = true ∧ asize ≤ z.size) ∧
    (∀ y ∈ s.blocks, y.alloc = true →
      ∃ z ∈ (mm_alloc_finish s b.addr asize).1.blocks,
        z.addr = y.addr ∧ z.alloc = true ∧ z.size = y.size) ∧
    (mm_alloc_finish s b.addr asize).1.maxHeap = s.maxHeap := by
  by_cases hbig : asize + 16 ≤ b.size
  · exact mm_alloc_split s hw P Q b asize hs hbal h16 hmod hbig
  · exact mm_alloc_whole s hw P Q b asize hs hbal h16 hmod hle (by omega)

lemma blocks_below_top (s : AState) (hw : Wf s) :
    ∀ x ∈ s.blocks, x.addr + x.size ≤ s.heapTop ∧ x.addr < s.heapTop := by
  intro x hx
  obtain ⟨-, h1, h2, -, -⟩ := seg_mem s.blocks 8 true false hw.chain x hx
  have h3 : (segEnd 8 true false s.blocks).1 = s.heapTop := by rw [hw.top]
  unfold min_block_size dsize wsize at h2
  omega

lemma readBlock_top (s : AState) (hw : Wf s) :
    readBlock s s.heapTop = ⟨s.heapTop, 0, true, s.epiPalloc,
      s.epiMpalloc⟩ := by
  apply readBlock_none s s.heapTop ?_ rfl
  intro c hc
  have := blocks_below_top s hw c hc
  omega

lemma Wf_extend_nomerge (s s' : AState) (hw : Wf s) (sz : Nat)
    (hept : s.epiPalloc = true)
    (h16 : 16 ≤ sz) (hmod : sz % 16 = 0)
    (hsb : s'.blocks = s.blocks ++ [(⟨s.heapTop, sz, false, s.epiPalloc,
      s.epiMpalloc⟩ : Block)])
    (hep : s'.epiPalloc = false) (hem : s'.epiMpalloc = isMiniSize sz)
    (hht : s'.heapTop = s.heapTop + sz)
    (hminiSub : ∀ a ∈ s'.miniRoot,
      (a = s.heapTop ∧ sz = 16) ∨ a ∈ s.miniRoot)
    (hsegSub : ∀ k a, a ∈ bucket s' k →
      (a = s.heapTop ∧ sz ≠ 16 ∧ home_address sz = k) ∨ a ∈ bucket s k)
    (hmnd : s'.miniRoot.Nodup) (hbnd : ∀ k, (bucket s' k).Nodup)
    (hlen : s'.seglist.length = 14) (hini : s'.initialized = true) :
    Wf s' := by
  have htopE := hw.top
  refine ⟨hini, ?_, ?_, hlen, ?_, ?_, hmnd, hbnd⟩
  · rw [hsb]
    apply (seg_append s.blocks _ 8 true false).2
    refine ⟨hw.chain, ?_, h16, hmod, ?_, ?_, ?_, trivial⟩
    · show s.heapTop = (segEnd 8 true false s.blocks).1
      rw [htopE]
    · show s.epiPalloc = (segEnd 8 true false s.blocks).2.1
      rw [htopE]
    · show s.epiMpalloc = (segEnd 8 true false s.blocks).2.2
      rw [htopE]
    · intro h
      rw [htopE] at h
      simp at h
      rw [hept] at h
      cases h
  · rw [hsb, segEnd_append, htopE]
    simp only [segEnd]
    rw [hht, hep, hem]
  · intro a ha
    rcases hminiSub a ha with ⟨haeq, h16e⟩ | haold
    · refine ⟨⟨s.heapTop, sz, false, s.epiPalloc, s.epiMpalloc⟩, ?_, ?_,
        rfl, ?_⟩
      · rw [hsb]; simp
      · rw [haeq]
      · simpa using h16e
    · obtain ⟨x, hxmem, hxa, hxal, hxsz⟩ := hw.mini_sound a haold
      refine ⟨x, ?_, hxa, hxal, hxsz⟩
      rw [hsb]
      simp [hxmem]
  · intro k a ha
    rcases hsegSub k a ha with ⟨haeq, h16e, hhome⟩ | haold
    · refine ⟨⟨s.heapTop, sz, false, s.epiPalloc, s.epiMpalloc⟩, ?_, ?_,
        rfl, ?_, ?_⟩
      · rw [hsb]; simp
      · rw [haeq]
      · simpa using h16e
      · simpa using hhome
    · obtain ⟨x, hxmem, hxa, hxal, hxsz, hxh⟩ := hw.seg_sound k a haold
      refine ⟨x, ?_, hxa, hxal, hxsz, hxh⟩
      rw [hsb]
      simp [hxmem]

lemma Wf_extend_merge (s s' : AState) (hw : Wf s) (sz : Nat)
    (B' : List Block) (p : Block)
    (hblocks : s.blocks = B' ++ [p])
    (hpal : p.alloc = false)
    (h16 : 16 ≤ sz) (hmod : sz % 16 = 0)
    (hsb : s'.blocks = B' ++ [(⟨p.addr, p.size + sz, false, p.palloc,
      p.mpalloc⟩ : Block)])
    (hep : s'.epiPalloc = false)
    (hem : s'.epiMpalloc = isMiniSize (p.size + sz))
    (hht : s'.heapTop = s.heapTop + sz)
    (hminiSub : ∀ a ∈ s'.miniRoot,
      (a = p.addr ∧ p.size + sz = 16) ∨ (a ∈ s.miniRoot ∧ a ≠ p.addr))
    (hsegSub : ∀ k a, a ∈ bucket s' k →
      (a = p.addr ∧ p.size + sz ≠ 16 ∧ home_address (p.size + sz) = k) ∨
      (a ∈ bucket s k ∧ a ≠ p.addr))
    (hmnd : s'.miniRoot.Nodup) (hbnd : ∀ k, (bucket s' k).Nodup)
    (hlen : s'.seglist.length = 14) (hini : s'.initialized = true) :
    Wf s' := by
  have hchain := hw.chain
  rw [hblocks] at hchain
  obtain ⟨hchB, hchP1⟩ := (seg_append B' [p] 8 true false).1 hchain
  obtain ⟨hpa, hpszm, hpmod, hppE, hpmE, hpimp, -⟩ := hchP1
  have htopE := hw.top
  rw [hblocks, segEnd_append] at htopE
  simp only [segEnd] at htopE
  have h1 := congrArg Prod.fst htopE
  have h2 := congrArg (fun q => q.2.1) htopE
  have h3 := congrArg (fun q => q.2.2) htopE
  simp at h1 h2 h3
  refine ⟨hini, ?_, ?_, hlen, ?_, ?_, hmnd, hbnd⟩
  · rw [hsb]
    apply (seg_append B' _ 8 true false).2
    refine ⟨hchB, hpa, ?_, ?_, hppE, hpmE, (fun h => absurd (hpimp h) (by rw [hpal]; simp)), trivial⟩
    · show min_block_size ≤ p.size + sz
      unfold min_block_size dsize wsize at hpszm ⊢
      omega
    · show (p.size + sz) % 16 = 0
      omega
  · rw [hsb, segEnd_append]
    simp only [segEnd]
    rw [hht, hep, hem]
    rw [show (segEnd 8 true false B').1 + (p.size + sz) =
      s.heapTop + sz from by omega]
  · intro a ha
    rcases hminiSub a ha with ⟨haeq, h16e⟩ | ⟨haold, hane⟩
    · refine ⟨⟨p.addr, p.size + sz, false, p.palloc, p.mpalloc⟩, ?_, ?_,
        rfl, ?_⟩
      · rw [hsb]; simp
      · rw [haeq]
      · simpa using h16e
    · obtain ⟨x, hxmem, hxa, hxal, hxsz⟩ := hw.mini_sound a haold
      rw [hblocks] at hxmem
      have hx' : x ∈ B' := by
        rcases List.mem_append.1 hxmem with h | h
        · exact h
        · simp at h
          rw [h] at hxa
          exact absurd hxa.symm hane
      refine ⟨x, ?_, hxa, hxal, hxsz⟩
      rw [hsb]
      simp [hx']
  · intro k a ha
    rcases hsegSub k a ha with ⟨haeq, h16e, hhome⟩ | ⟨haold, hane⟩
    · refine ⟨⟨p.addr, p.size + sz, false, p.palloc, p.mpalloc⟩, ?_, ?_,
        rfl, ?_, ?_⟩
      · rw [hsb]; simp
      · rw [haeq]
      · simpa using h16e
      · simpa using hhome
    · obtain ⟨x, hxmem, hxa, hxal, hxsz, hxh⟩ := hw.seg_sound k a haold
      rw [hblocks] at hxmem
      have hx' : x ∈ B' := by
        rcases List.mem_append.1 hxmem with h | h
        · exact h
        · simp at h
          rw [h] at hxa
          exact absurd hxa.symm hane
      refine ⟨x, ?_, hxa, hxal, hxsz, hxh⟩
      rw [hsb]
      simp [hx']


lemma round_up_dsize_mod (n : Nat) : (round_up n dsize) % 16 = 0 := by
  unfold round_up dsize wsize
  simp [Nat.mul_mod_right]

lemma extend_heap_wf (s : AState) (hw : Wf s) (size : Nat)
    (h16 : 16 ≤ round_up size dsize)
    (hnm : round_up size dsize ≠ 16) :
    (∀ s2, extend_heap s size s.epiMpalloc s.epiPalloc = (s2, none) →
      s2 = s) ∧
    (∀ s2 r, extend_heap s size s.epiMpalloc s.epiPalloc = (s2, some r) →
      Wf s2 ∧
      (∃ bf ∈ s2.blocks, bf.addr = r ∧ bf.alloc = false ∧
        round_up size dsize ≤ bf.size) ∧
      (∀ y ∈ s.blocks, y.alloc = true → ∃ z ∈ s2.blocks,
        z.addr = y.addr ∧ z.alloc = true ∧ z.size = y.size) ∧
      s2.maxHeap = s.maxHeap) := by
  have hmodsz := round_up_dsize_mod size
  set sz : Nat := round_up size dsize with hszdef
  have hblt := blocks_below_top s hw
  unfold extend_heap
  rw [← hszdef]
  by_cases hcap : s.heapTop + wsize + sz ≤ s.maxHeap
  swap
  · rw [if_neg hcap]
    refine ⟨?_, ?_⟩
    · intro s2 h
      rw [Prod.mk.injEq] at h
      exact h.1.symm
    · intro s2 r h
      rw [Prod.mk.injEq] at h
      cases h.2
  rw [if_pos hcap]
  set sH : AState := { s with heapTop := s.heapTop + sz } with hsHdef
  have hwW : write_block sH s.heapTop sz s.epiMpalloc s.epiPalloc false =
      { sH with blocks := s.blocks ++ (⟨s.heapTop, sz, false, s.epiPalloc,
        s.epiMpalloc⟩ : Block) :: [] } :=
    write_block_decomp sH s.blocks [] [] s.heapTop sz s.epiMpalloc
      s.epiPalloc false (by simp [hsHdef])
      (fun y hy => (hblt y hy).2)
      (by intro y hy; cases hy)
      (by intro y hy; cases hy)
  simp only [hwW]
  set nf : Block := ⟨s.heapTop, sz, false, s.epiPalloc, s.epiMpalloc⟩
    with hnfdef
  set sW : AState := { sH with blocks := s.blocks ++ nf :: [] } with hsWdef
  have hPneW : ∀ y ∈ s.blocks, y.addr ≠ nf.addr :=
    fun y hy => Nat.ne_of_lt (hblt y hy).2
  have hrbW : readBlock sW s.heapTop = nf :=
    readBlock_decomp sW s.blocks [] nf rfl hPneW
  have hminiW : isMiniBlockAt sW s.heapTop = isMiniSize sz := by
    unfold isMiniBlockAt sizeAt
    rw [hrbW]
  rw [hminiW]
  rw [show write_epilogue sW (isMiniSize sz) false =
    { sW with epiMpalloc := isMiniSize sz, epiPalloc := false } from rfl]
  set sEp : AState := { sW with epiMpalloc := isMiniSize sz, epiPalloc := false } with hsEpdef
  have hrbE : readBlock sEp s.heapTop = nf :=
    readBlock_decomp sEp s.blocks [] nf rfl hPneW
  have hn : allocAt sEp (s.heapTop + nf.size) = true := by
    show allocAt sEp (s.heapTop + sz) = true
    unfold allocAt
    rw [readBlock_none sEp (s.heapTop + sz) ?_ rfl]
    intro c hc
    have hc2 : c ∈ s.blocks ++ nf :: [] := hc
    rcases List.mem_append.1 hc2 with h | h
    · have := (hblt c h).2
      omega
    · simp at h
      rw [h]
      show s.heapTop ≠ s.heapTop + sz
      omega
  cases hPE : s.epiPalloc with
  | true =>
    have hpE : nf.palloc = true := hPE
    rw [coalesce_case_d sEp s.heapTop nf hrbE hpE hn]
    rw [insertVague_normal sEp s.blocks [] s.heapTop nf rfl rfl hPneW
      (show nf.size ≠ 16 from hnm)]
    set sI : AState := { sEp with seglist := (sEp.seglist.set (home_address nf.size) (nf.addr :: bucket sEp (home_address nf.size))) } with hsIdef
    rw [update_pair_last sI s.blocks s.heapTop nf rfl rfl
      (fun y hy => (hblt y hy).2) rfl
      (show 0 < nf.size from by show 0 < sz; omega)]
    set sD : AState := { sI with epiPalloc := nf.alloc, epiMpalloc := isMiniSize nf.size } with hsDdef
    have hbI : ∀ j, bucket sEp j = bucket s j := fun j => rfl
    have hbD : ∀ k, bucket sD k =
        if k = home_address sz then nf.addr :: bucket s (home_address sz)
        else bucket s k := by
      intro k
      have h0 : bucket sD k = bucket sI k := by
        simp [hsDdef, bucket]
      rw [h0]
      by_cases hk : k = home_address sz
      · subst hk
        rw [if_pos rfl, hsIdef]
        exact bucket_set_self sEp _ _
          (by have : sEp.seglist.length = 14 := hw.seg_len
              rw [this]
              exact home_address_lt _)
      · rw [if_neg hk, hsIdef]
        exact bucket_set_ne sEp _ k _ (fun he => hk he.symm)
    refine ⟨?_, ?_⟩
    · intro s2 h
      rw [Prod.mk.injEq] at h
      cases h.2
    · intro s2 r h
      rw [Prod.mk.injEq] at h
      obtain ⟨h1, h2⟩ := h
      simp at h2
      subst h1
      subst h2
      refine ⟨?_, ?_, ?_, ?_⟩
      · apply Wf_extend_nomerge s _ hw sz hPE h16 hmodsz
        · simp [hsDdef, hsIdef, hsEpdef, hsWdef, hnfdef, hPE]
        · simp [hsDdef, hnfdef]
        · simp [hsDdef, hnfdef]
        · simp [hsDdef, hsIdef, hsEpdef, hsWdef, hsHdef]
        · intro a ha
          right
          simpa [hsDdef, hsIdef, hsEpdef, hsWdef] using ha
        · intro k a ha
          rw [hbD] at ha
          by_cases hk : k = home_address sz
          · subst hk
            rw [if_pos rfl] at ha
            rcases List.mem_cons.1 ha with ha | ha
            · exact Or.inl ⟨ha, hnm, rfl⟩
            · exact Or.inr ha
          · rw [if_neg hk] at ha
            exact Or.inr ha
        · simpa [hsDdef, hsIdef, hsEpdef, hsWdef] using hw.mini_nodup
        · intro k
          rw [hbD]
          by_cases hk : k = home_address sz
          · subst hk
            rw [if_pos rfl]
            refine List.nodup_cons.2 ⟨?_, hw.bucket_nodup _⟩
            intro hmem
            obtain ⟨x, hx, hxa, -, -, -⟩ := hw.seg_sound _ _ hmem
            have := (hblt x hx).2
            rw [hxa] at this
            show False
            have : nf.addr < s.heapTop := this
            have h3 : nf.addr = s.heapTop := rfl
            omega
          · rw [if_neg hk]
            exact hw.bucket_nodup k
        · simp [hsDdef, hsIdef, hsEpdef, hsWdef, List.length_set]
          exact hw.seg_len
        · simpa [hsDdef, hsIdef, hsEpdef, hsWdef] using hw.init
      · refine ⟨nf, ?_, rfl, rfl, Nat.le_refl _⟩
        simp [hsDdef, hsIdef, hsEpdef, hsWdef]
      · intro y hy hyal
        refine ⟨y, ?_, rfl, hyal, rfl⟩
        simp [hsDdef, hsIdef, hsEpdef, hsWdef, hy]
      · simpa [hsDdef, hsIdef, hsEpdef, hsWdef] using rfl
  | false =>
    rcases List.eq_nil_or_concat s.blocks with hnil | ⟨B', p, hcat⟩
    · exfalso
      have h0 := hw.top
      rw [hnil] at h0
      simp only [segEnd] at h0
      have h2 := congrArg (fun q => q.2.1) h0
      simp at h2
      rw [hPE] at h2
      cases h2
    rw [List.concat_eq_append] at hcat
    have hchain := hw.chain
    rw [hcat] at hchain
    obtain ⟨hchB, hchP1⟩ := (seg_append B' [p] 8 true false).1 hchain
    obtain ⟨hpa, hpszm, hpmod, hppE, hpmE, hpimp, -⟩ := hchP1
    have htopE := hw.top
    rw [hcat, segEnd_append] at htopE
    simp only [segEnd] at htopE
    have h1 := congrArg Prod.fst htopE
    have h2 := congrArg (fun q => q.2.1) htopE
    have h3 := congrArg (fun q => q.2.2) htopE
    simp at h1 h2 h3
    have hpalf : p.alloc = false := by rw [h2, hPE]
    have hppt : p.palloc = true := by
      cases hpp : p.palloc
      · have h4 : (segEnd 8 true false B').2.1 = false := by
          rw [← hppE, hpp]
        have h5 := hpimp h4
        rw [hpalf] at h5
        cases h5
      · rfl
    have hptop : p.addr + p.size = s.heapTop := by omega
    have hpsz16 : (16:Nat) ≤ p.size := hpszm
    have hp8 : (8:Nat) ≤ p.addr := by
      obtain ⟨h8, -, -, -, -⟩ :=
        seg_mem s.blocks 8 true false hw.chain p (by rw [hcat]; simp)
      exact h8
    have hB'le : ∀ y ∈ B', y.addr + y.size ≤ p.addr := by
      intro y hy
      exact (seg_front B' p [] hchain y hy).1
    have hB'lt : ∀ y ∈ B', y.addr < p.addr := by
      intro y hy
      exact (seg_front B' p [] hchain y hy).2
    have hpnl := free_listed_unique s hw.chain hw.mini_sound hw.seg_sound
      p (by rw [hcat]; simp) hpalf
    have hsEpb : sEp.blocks = B' ++ p :: nf :: [] := by
      show s.blocks ++ nf :: [] = B' ++ p :: nf :: []
      rw [hcat]
      simp
    have hpEf : nf.palloc = false := hPE
    have hfp : find_prev sEp s.heapTop nf.mpalloc = some p.addr := by
      have := find_prev_eq sEp B' [] p nf hsEpb hB'le
        (show nf.addr = p.addr + p.size from by
          show s.heapTop = p.addr + p.size
          omega)
        hpsz16 hp8
        (show nf.mpalloc = isMiniSize p.size from by
          show s.epiMpalloc = isMiniSize p.size
          exact h3.symm)
      exact this
    rw [coalesce_case_c sEp s.heapTop nf p.addr hrbE hpEf hn hfp]
    have hrmv : removeVagueBlock sEp p.addr = eraseListed sEp p := by
      apply removeVague_eq_eraseListed sEp B' (nf :: []) p.addr p rfl
        hsEpb hB'lt (by omega)
      left
      refine ⟨nf, [], rfl, ?_, ?_, ?_, ?_, ?_, ?_⟩
      · show s.heapTop = p.addr + p.size
        omega
      · show s.epiPalloc = p.alloc
        rw [hPE, hpalf]
      · show s.epiMpalloc = isMiniSize p.size
        exact h3.symm
      · show 0 < sz
        omega
      · show s.heapTop ≠ sEp.heapTop
        show s.heapTop ≠ s.heapTop + sz
        omega
      · intro y hy
        cases hy
    rw [hrmv]
    set sE2 : AState := eraseListed sEp p with hsE2def
    have hsE2b : sE2.blocks = B' ++ p :: nf :: [] := by
      rw [hsE2def, eraseListed_blocks]
      exact hsEpb
    have hsE2len : sE2.seglist.length = 14 := by
      rw [hsE2def]
      exact eraseListed_len sEp p hw.seg_len
    have hsE2mini : ∀ a ∈ sE2.miniRoot, a ∈ s.miniRoot ∧ a ≠ p.addr := by
      intro a ha
      rw [hsE2def] at ha
      exact eraseListed_miniRoot_sub sEp p hw.mini_nodup
        (fun h16p => (hpnl.2 h16p).1) a ha
    have hsE2mnd : sE2.miniRoot.Nodup := by
      rw [hsE2def]
      exact eraseListed_mini_nodup sEp p hw.mini_nodup
    have hsE2buck : ∀ k a, a ∈ bucket sE2 k →
        a ∈ bucket s k ∧ a ≠ p.addr := by
      intro k a ha
      rw [hsE2def] at ha
      exact eraseListed_bucket_sub sEp p hw.seg_len hw.bucket_nodup
        hpnl.1 (fun h16p k hk => (hpnl.2 h16p).2 k hk) k a ha
    have hsE2bnd : ∀ k, (bucket sE2 k).Nodup := by
      intro k
      rw [hsE2def]
      exact eraseListed_bucket_nodup sEp p hw.seg_len hw.bucket_nodup k
    have hsE2ht : sE2.heapTop = s.heapTop + sz := by
      rw [hsE2def, eraseListed_heapTop]
    have hsE2ini : sE2.initialized = true := by
      rw [hsE2def, eraseListed_initialized]
      exact hw.init
    have hsE2max : sE2.maxHeap = s.maxHeap := by
      rw [hsE2def]
      unfold eraseListed
      split <;> rfl
    have hPneE : ∀ y ∈ B', y.addr ≠ p.addr :=
      fun y hy => Nat.ne_of_lt (hB'lt y hy)
    have hrp : readBlock sEp p.addr = p :=
      readBlock_decomp sEp B' (nf :: []) p hsEpb hPneE
    have hszp : sizeAt sEp p.addr = p.size := by
      unfold sizeAt
      rw [hrp]
    have hmpp : mpallocAt sEp p.addr = p.mpalloc := by
      unfold mpallocAt
      rw [hrp]
    have hpap : pallocAt sEp p.addr = p.palloc := by
      unfold pallocAt
      rw [hrp]
    rw [hszp, hmpp, hpap]
    have hwM : write_block sE2 p.addr (p.size + nf.size) p.mpalloc
        p.palloc false = { sE2 with blocks :=
          B' ++ (⟨p.addr, p.size + nf.size, false, p.palloc,
            p.mpalloc⟩ : Block) :: [] } := by
      apply write_block_decomp sE2 B' [p, nf] [] p.addr
        (p.size + nf.size) p.mpalloc p.palloc false
        (by rw [hsE2b]; simp) hB'lt
      · intro y hy
        rcases List.mem_cons.1 hy with hy | hy
        · rw [hy]
          refine ⟨Nat.le_refl _, ?_⟩
          show p.addr < p.addr + (p.size + sz)
          omega
        · simp at hy
          rw [hy]
          refine ⟨?_, ?_⟩
          · show p.addr ≤ s.heapTop
            omega
          · show s.heapTop < p.addr + (p.size + sz)
            omega
      · intro y hy
        cases hy
    rw [hwM]
    set mg : Block := ⟨p.addr, p.size + nf.size, false, p.palloc, p.mpalloc⟩ with hmgdef
    set s4 : AState := { sE2 with blocks := B' ++ mg :: [] } with hs4def
    rw [insertVague_normal s4 B' [] p.addr mg rfl rfl hPneE
      (show mg.size ≠ 16 from by show p.size + sz ≠ 16; omega)]
    set s5 : AState := { s4 with seglist := (s4.seglist.set (home_address mg.size) (mg.addr :: bucket s4 (home_address mg.size))) } with hs5def
    have hht5 : s5.heapTop = s.heapTop + sz := by
      simp only [hs5def, hs4def]
      exact hsE2ht
    rw [update_pair_last s5 B' p.addr mg rfl rfl hB'lt
      (show mg.addr + mg.size = s5.heapTop from by
        rw [hht5]
        show p.addr + (p.size + sz) = s.heapTop + sz
        omega)
      (show 0 < mg.size from by show 0 < p.size + sz; omega)]
    set sC : AState := { s5 with epiPalloc := mg.alloc, epiMpalloc := isMiniSize mg.size } with hsCdef
    have hb4 : ∀ j, bucket s4 j = bucket sE2 j := by
      intro j
      simp [hs4def, bucket]
    have hs4len : s4.seglist.length = 14 := by
      simp only [hs4def]
      exact hsE2len
    have hbC : ∀ k, bucket sC k =
        if k = home_address mg.size then
          mg.addr :: bucket s4 (home_address mg.size)
        else bucket s4 k := by
      intro k
      have h0 : bucket sC k = bucket s5 k := by
        simp [hsCdef, bucket]
      rw [h0]
      by_cases hk : k = home_address mg.size
      · subst hk
        rw [if_pos rfl, hs5def]
        exact bucket_set_self s4 _ _
          (by rw [hs4len]; exact home_address_lt _)
      · rw [if_neg hk, hs5def]
        exact bucket_set_ne s4 _ k _ (fun he => hk he.symm)
    refine ⟨?_, ?_⟩
    · intro s2 h
      rw [Prod.mk.injEq] at h
      cases h.2
    · intro s2 r h
      rw [Prod.mk.injEq] at h
      obtain ⟨h4, h5⟩ := h
      simp at h5
      subst h4
      subst h5
      refine ⟨?_, ?_, ?_, ?_⟩
      · apply Wf_extend_merge s _ hw sz B' p hcat hpalf h16 hmodsz
        · simp [hsCdef, hs5def, hs4def, hmgdef, hnfdef]
        · simp [hsCdef, hmgdef]
        · simp [hsCdef, hmgdef, hnfdef]
        · simp only [hsCdef, hs5def, hs4def]
          exact hsE2ht
        · intro a ha
          have ha2 : a ∈ sE2.miniRoot := by
            simpa [hsCdef, hs5def, hs4def] using ha
          obtain ⟨hm, hne⟩ := hsE2mini a ha2
          exact Or.inr ⟨hm, hne⟩
        · intro k a ha
          rw [hbC] at ha
          by_cases hk : k = home_address mg.size
          · subst hk
            rw [if_pos rfl] at ha
            rcases List.mem_cons.1 ha with ha | ha
            · left
              refine ⟨ha, by show p.size + sz ≠ 16; omega, ?_⟩
              show home_address (p.size + sz) = home_address mg.size
              rfl
            · rw [hb4] at ha
              obtain ⟨hm, hne⟩ := hsE2buck _ a ha
              exact Or.inr ⟨hm, hne⟩
          · rw [if_neg hk, hb4] at ha
            obtain ⟨hm, hne⟩ := hsE2buck _ a ha
            exact Or.inr ⟨hm, hne⟩
        · simpa [hsCdef, hs5def, hs4def] using hsE2mnd
        · intro k
          rw [hbC]
          by_cases hk : k = home_address mg.size
          · subst hk
            rw [if_pos rfl]
            refine List.nodup_cons.2 ⟨?_, ?_⟩
            · intro hmem
              rw [hb4] at hmem
              obtain ⟨-, hne⟩ := hsE2buck _ _ hmem
              exact hne rfl
            · rw [hb4]
              exact hsE2bnd _
          · rw [if_neg hk, hb4]
            exact hsE2bnd k
        · simp only [hsCdef, hs5def, hs4def, List.length_set]
          exact hsE2len
        · simpa [hsCdef, hs5def, hs4def] using hsE2ini
      · refine ⟨mg, ?_, rfl, rfl, ?_⟩
        · simp [hsCdef, hs5def, hs4def]
        · show sz ≤ p.size + sz
          omega
      · intro y hy hyal
        rw [hcat] at hy
        rcases List.mem_append.1 hy with hy | hy
        · refine ⟨y, ?_, rfl, hyal, rfl⟩
          simp [hsCdef, hs5def, hs4def, hy]
        · simp at hy
          rw [hy] at hyal
          rw [hpalf] at hyal
          cases hyal
      · simpa [hsCdef, hs5def, hs4def] using hsE2max


lemma Wf_inv (s : AState) (h : Wf s) : Inv s := by
  unfold Inv
  rw [if_pos h.init]
  exact h

lemma replicate_getD_nil (n k : Nat) :
    (List.replicate n ([] : List Nat)).getD k [] = [] := by
  induction n generalizing k with
  | zero => rfl
  | succ m ih =>
    cases k with
    | zero => rfl
    | succ j =>
      rw [List.replicate_succ, List.getD_cons_succ]
      exact ih j

lemma bucket_fresh (M k : Nat) : bucket (freshState M) k = [] := by
  unfold bucket freshState
  exact replicate_getD_nil 14 k

lemma mm_init_small (M : Nat) (h : M < 16) :
    mm_init (freshState M) = (freshState M, false) := by
  have h2 : ¬ (16 ≤ M) := by omega
  simp only [mm_init, freshState]
  rw [if_neg h2]

lemma Wf_postPrologue (M : Nat) :
    Wf ({ blocks := [], epiPalloc := true, epiMpalloc := false, miniRoot := [], seglist := List.replicate 14 [], heapTop := 8, maxHeap := M, initialized := true } : AState) := by
  refine ⟨rfl, trivial, rfl, by simp, ?_, ?_, List.nodup_nil, ?_⟩
  · intro a ha
    cases ha
  · intro k a ha
    have hb : bucket ({ blocks := [], epiPalloc := true, epiMpalloc := false, miniRoot := [], seglist := List.replicate 14 [], heapTop := 8, maxHeap := M, initialized := true } : AState) k = [] := by
      have := bucket_fresh M k
      unfold bucket at this ⊢
      exact this
    rw [hb] at ha
    cases ha
  · intro k
    have hb : bucket ({ blocks := [], epiPalloc := true, epiMpalloc := false, miniRoot := [], seglist := List.replicate 14 [], heapTop := 8, maxHeap := M, initialized := true } : AState) k = [] := by
      have := bucket_fresh M k
      unfold bucket at this ⊢
      exact this
    rw [hb]
    exact List.nodup_nil


lemma round_up_dsize_ge (n : Nat) : n ≤ round_up n dsize := by
  unfold round_up dsize wsize
  have h1 := Nat.div_add_mod (n + 15) 16
  have h2 : (n + 15) % 16 < 16 := Nat.mod_lt _ (by omega)
  omega

lemma round_up_dsize_min (n : Nat) (h : 1 ≤ n) :
    16 ≤ round_up n dsize := by
  unfold round_up dsize wsize
  have h1 := Nat.div_add_mod (n + 15) 16
  have h2 : (n + 15) % 16 < 16 := Nat.mod_lt _ (by omega)
  omega

lemma mm_malloc_wf (s : AState) (hw : Wf s) (size : Nat) :
    Wf (mm_malloc s size).1 ∧
    (mm_malloc s size).1.maxHeap = s.maxHeap ∧
    (∀ y ∈ s.blocks, y.alloc = true → ∃ z ∈ (mm_malloc s size).1.blocks,
      z.addr = y.addr ∧ z.alloc = true ∧ z.size = y.size) ∧
    (∀ p, (mm_malloc s size).2 = some p →
      ∃ z ∈ (mm_malloc s size).1.blocks, z.addr + wsize = p ∧
        z.alloc = true ∧ size + wsize ≤ z.size) := by
  unfold mm_malloc
  rw [if_pos hw.init]
  by_cases hsz : size = 0
  · rw [if_pos hsz]
    refine ⟨hw, rfl, ?_, ?_⟩
    · intro y hy hyal
      exact ⟨y, hy, rfl, hyal, rfl⟩
    · intro p h
      cases h
  rw [if_neg hsz]
  set az : Nat := round_up (size + wsize) dsize with hazdef
  have haz16 : 16 ≤ az := round_up_dsize_min _ (by omega)
  have hazmod : az % 16 = 0 := round_up_dsize_mod _
  have hazge : size + wsize ≤ az := round_up_dsize_ge _
  rcases hch : mm_choose s az with _ | a
  · simp only [hch]
    have hmpa : mpallocAt s s.heapTop = s.epiMpalloc := by
      unfold mpallocAt
      rw [readBlock_top s hw]
    have hpaa : pallocAt s s.heapTop = s.epiPalloc := by
      unfold pallocAt
      rw [readBlock_top s hw]
    rw [hmpa, hpaa]
    set ez : Nat := mm_max az chunksize with hezdef
    have hez : chunksize ≤ ez ∧ az ≤ ez := by
      unfold mm_max at hezdef
      rw [hezdef]
      split <;> omega
    have hez16 : 16 ≤ round_up ez dsize := by
      have h1 := round_up_dsize_ge ez
      have h2 : (512:Nat) ≤ ez := hez.1
      omega
    have heznm : round_up ez dsize ≠ 16 := by
      have h1 := round_up_dsize_ge ez
      have h2 : (512:Nat) ≤ ez := hez.1
      omega
    have hE := extend_heap_wf s hw ez hez16 heznm
    rcases hEe : extend_heap s ez s.epiMpalloc s.epiPalloc with ⟨s2, r2⟩
    cases r2 with
    | none =>
      have h0 : s2 = s := hE.1 s2 hEe
      simp only [hEe]
      subst h0
      refine ⟨hw, rfl, ?_, ?_⟩
      · intro y hy hyal
        exact ⟨y, hy, rfl, hyal, rfl⟩
      · intro p h
        cases h
    | some a =>
      obtain ⟨hw2, ⟨bf, hbf, hbfa, hbffree, hbfsz⟩, hfr2, hmax2⟩ :=
        hE.2 s2 a hEe
      simp only [hEe]
      obtain ⟨P, Q, hs2⟩ := List.append_of_mem hbf
      have hle : az ≤ bf.size := by
        have := hez.2
        have := round_up_dsize_ge ez
        omega
      have hA := mm_alloc_finish_wf s2 hw2 P Q bf az hs2 hbffree haz16
        hazmod hle
      rw [hbfa] at hA
      obtain ⟨hA1, hA2, ⟨z, hz, hza, hzal, hzsz⟩, hA4, hA5⟩ := hA
      refine ⟨hA1, ?_, ?_, ?_⟩
      · rw [hA5, hmax2]
      · intro y hy hyal
        obtain ⟨z2, hz2, hz2a, hz2al, hz2sz⟩ := hfr2 y hy hyal
        obtain ⟨z3, hz3, hz3a, hz3al, hz3sz⟩ := hA4 z2 hz2 hz2al
        exact ⟨z3, hz3, by rw [hz3a, hz2a], hz3al, by rw [hz3sz, hz2sz]⟩
      · intro p hp
        rw [hA2] at hp
        have hp2 : p = a + wsize := by
          injection hp with h
          exact h.symm
        subst hp2
        refine ⟨z, hz, ?_, hzal, ?_⟩
        · rw [hza]
        · omega
  · simp only [hch]
    obtain ⟨b, hb, hba, hbal, hble⟩ := mm_choose_block s hw az a haz16 hch
    obtain ⟨P, Q, hs⟩ := List.append_of_mem hb
    have hA := mm_alloc_finish_wf s hw P Q b az hs hbal haz16 hazmod hble
    rw [hba] at hA
    obtain ⟨hA1, hA2, ⟨z, hz, hza, hzal, hzsz⟩, hA4, hA5⟩ := hA
    refine ⟨hA1, hA5, hA4, ?_⟩
    intro p hp
    rw [hA2] at hp
    have hp2 : p = a + wsize := by
      injection hp with h
      exact h.symm
    subst hp2
    refine ⟨z, hz, ?_, hzal, ?_⟩
    · rw [hza]
    · omega

lemma mm_init_wf_large (M : Nat) (h : 16 ≤ M) :
    Wf (mm_init (freshState M)).1 ∧ (mm_init (freshState M)).1.maxHeap = M := by
  simp only [mm_init, freshState]
  rw [if_pos (show (16:Nat) ≤ M from h)]
  set s1 : AState := { blocks := [], epiPalloc := true, epiMpalloc := false, miniRoot := [], seglist := List.replicate 14 [], heapTop := 8, maxHeap := M, initialized := true } with hs1def
  have hw1 : Wf s1 := Wf_postPrologue M
  have hconv : extend_heap s1 chunksize false true =
      extend_heap s1 chunksize s1.epiMpalloc s1.epiPalloc := rfl
  rw [hconv]
  have h16c : 16 ≤ round_up chunksize dsize := by
    have := round_up_dsize_ge chunksize
    have h5 : (512:Nat) ≤ chunksize := by unfold chunksize; omega
    omega
  have hnmc : round_up chunksize dsize ≠ 16 := by
    have := round_up_dsize_ge chunksize
    have h5 : (512:Nat) ≤ chunksize := by unfold chunksize; omega
    omega
  have hE := extend_heap_wf s1 hw1 chunksize h16c hnmc
  rcases hEe : extend_heap s1 chunksize s1.epiMpalloc s1.epiPalloc with ⟨s2, r⟩
  cases r with
  | none =>
    have h0 : s2 = s1 := hE.1 s2 hEe
    simp only [hEe]
    subst h0
    exact ⟨hw1, rfl⟩
  | some a =>
    obtain ⟨hw2, -, -, hmax2⟩ := hE.2 s2 a hEe
    simp only [hEe]
    exact ⟨hw2, hmax2⟩

lemma mm_malloc_lazy (s : AState) (size : Nat)
    (hini : ¬ s.initialized = true)
    (hini2 : (mm_init s).1.initialized = true) :
    mm_malloc s size = mm_malloc (mm_init s).1 size := by
  conv_lhs => unfold mm_malloc
  conv_rhs => unfold mm_malloc
  rw [if_neg hini, if_pos hini2]

lemma mm_malloc_fresh_small (M : Nat) (h : M < 16) (size : Nat) :
    mm_malloc (freshState M) size = (freshState M, none) := by
  unfold mm_malloc
  rw [if_neg (show ¬ (freshState M).initialized = true from by unfold freshState; simp)]
  rw [mm_init_small M h]
  by_cases hsz : size = 0
  · rw [if_pos hsz]
  rw [if_neg hsz]
  rcases hch : mm_choose (freshState M) (round_up (size + wsize) dsize) with _ | a
  · simp only [hch]
    have hcond : ¬ ((freshState M).heapTop + wsize + round_up (mm_max (round_up (size + wsize) dsize) chunksize) dsize ≤ (freshState M).maxHeap) := by
      have h1 := round_up_dsize_ge (mm_max (round_up (size + wsize) dsize) chunksize)
      have h2 : chunksize ≤ mm_max (round_up (size + wsize) dsize) chunksize := by
        unfold mm_max
        split <;> omega
      have h3 : (512:Nat) ≤ chunksize := by unfold chunksize; omega
      have h4 : wsize = 8 := rfl
      have h5 : (freshState M).heapTop = 0 := rfl
      have h6 : (freshState M).maxHeap = M := rfl
      rw [h5, h6]
      omega
    unfold extend_heap
    rw [if_neg hcond]
  · exfalso
    unfold mm_choose at hch
    have hff : ∀ idx, find_fit (freshState M) (round_up (size + wsize) dsize) idx ≠ some a := by
      intro idx hf
      obtain ⟨⟨k, hk⟩, -⟩ := find_fit_sound (freshState M) _ idx a hf
      rw [bucket_fresh] at hk
      cases hk
    by_cases hm : round_up (size + wsize) dsize = MINI_BLOCK_SIZE
    · rw [if_pos hm] at hch
      have hroot : (freshState M).miniRoot = [] := rfl
      rw [hroot] at hch
      exact hff 0 hch
    · rw [if_neg hm] at hch
      exact hff _ hch


lemma mm_malloc_inv (s : AState) (hI : Inv s) (size : Nat) :
    Inv (mm_malloc s size).1 ∧ (mm_malloc s size).1.maxHeap = s.maxHeap := by
  by_cases hini : s.initialized = true
  · have hwS : Wf s := by
      unfold Inv at hI
      rwa [if_pos hini] at hI
    obtain ⟨h1, h2, -, -⟩ := mm_malloc_wf s hwS size
    exact ⟨Wf_inv _ h1, h2⟩
  · have hfr : s = freshState s.maxHeap := by
      unfold Inv at hI
      rwa [if_neg hini] at hI
    rw [hfr]
    by_cases hM : 16 ≤ s.maxHeap
    · have hL := mm_init_wf_large s.maxHeap hM
      rw [mm_malloc_lazy (freshState s.maxHeap) size
        (by unfold freshState; simp) hL.1.init]
      obtain ⟨h1, h2, -, -⟩ := mm_malloc_wf _ hL.1 size
      exact ⟨Wf_inv _ h1, h2.trans hL.2⟩
    · rw [mm_malloc_fresh_small s.maxHeap (by omega) size]
      refine ⟨?_, rfl⟩
      unfold Inv
      rw [if_neg (show ¬ (freshState s.maxHeap).initialized = true from by unfold freshState; simp)]
      rfl

lemma mm_malloc_success (s : AState) (hI : Inv s) (size : Nat)
    (s' : AState) (p : Nat)
    (hm : mm_malloc s size = (s', some p)) :
    Wf s' ∧ ∃ z ∈ s'.blocks, z.addr + wsize = p ∧ z.alloc = true ∧
      size + wsize ≤ z.size := by
  by_cases hini : s.initialized = true
  · have hwS : Wf s := by
      unfold Inv at hI
      rwa [if_pos hini] at hI
    obtain ⟨h1, -, -, h4⟩ := mm_malloc_wf s hwS size
    rw [hm] at h1 h4
    exact ⟨h1, h4 p rfl⟩
  · have hfr : s = freshState s.maxHeap := by
      unfold Inv at hI
      rwa [if_neg hini] at hI
    rw [hfr] at hm
    by_cases hM : 16 ≤ s.maxHeap
    · have hL := mm_init_wf_large s.maxHeap hM
      rw [mm_malloc_lazy (freshState s.maxHeap) size
        (by unfold freshState; simp) hL.1.init] at hm
      obtain ⟨h1, -, -, h4⟩ := mm_malloc_wf _ hL.1 size
      rw [hm] at h1 h4
      exact ⟨h1, h4 p rfl⟩
    · rw [mm_malloc_fresh_small s.maxHeap (by omega) size] at hm
      rw [Prod.mk.injEq] at hm
      cases hm.2

lemma mm_free_inv (s : AState) (hI : Inv s) (bp : Nat)
    (h : bp = 0 ∨ validPayload s bp) : Inv (mm_free s bp) := by
  rcases h with h | h
  · subst h
    rw [mm_free_zero]
    exact hI
  · by_cases hini : s.initialized = true
    · have hwS : Wf s := by
        unfold Inv at hI
        rwa [if_pos hini] at hI
      exact Wf_inv _ (mm_free_wf s hwS bp h)
    · exfalso
      have hfr : s = freshState s.maxHeap := by
        unfold Inv at hI
        rwa [if_neg hini] at hI
      obtain ⟨b, hb, -, -⟩ := h
      rw [hfr] at hb
      cases hb

lemma mm_realloc_inv (s : AState) (hI : Inv s) (ptr size : Nat)
    (h : ptr = 0 ∨ validPayload s ptr) :
    Inv (mm_realloc s ptr size).1 := by
  unfold mm_realloc
  by_cases hs0 : size = 0
  · rw [if_pos hs0]
    exact mm_free_inv s hI ptr h
  rw [if_neg hs0]
  by_cases hp0 : ptr = 0
  · rw [if_pos hp0]
    exact (mm_malloc_inv s hI size).1
  rw [if_neg hp0]
  have hvp : validPayload s ptr := h.resolve_left hp0
  by_cases hini : s.initialized = true
  · have hwS : Wf s := by
      unfold Inv at hI
      rwa [if_pos hini] at hI
    obtain ⟨hw', -, hfr, -⟩ := mm_malloc_wf s hwS size
    rcases hmm : mm_malloc s size with ⟨s2, r⟩
    rw [hmm] at hw' hfr
    cases r with
    | none =>
      simp only [hmm]
      exact Wf_inv _ hw'
    | some np =>
      simp only [hmm]
      have hvp2 : validPayload s2 ptr := by
        obtain ⟨b, hb, hbp, hbal⟩ := hvp
        obtain ⟨z, hz, hza, hzal, -⟩ := hfr b hb hbal
        exact ⟨z, hz, by rw [hza]; exact hbp, hzal⟩
      exact Wf_inv _ (mm_free_wf s2 hw' ptr hvp2)
  · exfalso
    have hfr : s = freshState s.maxHeap := by
      unfold Inv at hI
      rwa [if_neg hini] at hI
    obtain ⟨b, hb, -, -⟩ := hvp
    rw [hfr] at hb
    cases hb

lemma mm_calloc_inv (s : AState) (hI : Inv s) (elements size : Nat) :
    Inv (mm_calloc s elements size).1 := by
  unfold mm_calloc
  by_cases he : elements = 0
  · rw [if_pos he]
    exact hI
  rw [if_neg he]
  by_cases hd : elements * size % 2 ^ 64 / elements ≠ size
  · rw [if_pos hd]
    exact hI
  rw [if_neg hd]
  have hIm := (mm_malloc_inv s hI (elements * size % 2 ^ 64)).1
  rcases hmm : mm_malloc s (elements * size % 2 ^ 64) with ⟨s2, r⟩
  rw [hmm] at hIm
  cases r with
  | none => simp only [hmm]; exact hIm
  | some bp => simp only [hmm]; exact hIm

lemma reachable_inv (M : Nat) (s : AState) (h : Reachable M s) : Inv s := by
  induction h with
  | base =>
    unfold Inv
    rw [if_neg (show ¬ (freshState M).initialized = true from by unfold freshState; simp)]
    rfl
  | step hr hs ih =>
    cases hs with
    | alloc size => exact (mm_malloc_inv _ ih size).1
    | release bp hv => exact mm_free_inv _ ih bp hv
    | resize bp size hv => exact mm_realloc_inv _ ih bp size hv
    | zeroedAlloc elements size => exact mm_calloc_inv _ ih elements size

lemma seg_noAdjFree : ∀ (a : Nat) (pa pm : Bool) (l : List Block),
    seg a pa pm l → noAdjFree l := by
  intro a pa pm l
  induction l generalizing a pa pm with
  | nil => intro _; trivial
  | cons b t ih =>
    intro h
    cases t with
    | nil => trivial
    | cons c t2 =>
      have ht := h.2.2.2.2.2.2
      have himp := ht.2.2.2.2.2.1
      refine ⟨?_, ih _ _ _ ht⟩
      cases hb : b.alloc
      · exact Or.inr (himp hb)
      · exact Or.inl rfl


/-- C1: coalescing keeps the arena free of adjacent free blocks — in every
state reachable from the fresh process state by any sequence of allocate,
release, resize and zeroedAllocate calls (with valid pointers passed to
release/resize), no two physically adjacent blocks of the arena are both
free. -/
theorem no_adjacent_free_reachable (M : Nat) (s : AState)
    (h : Reachable M s) : noAdjFree s.blocks := by
  have hI := reachable_inv M s h
  by_cases hini : s.initialized = true
  · have hwS : Wf s := by
      unfold Inv at hI
      rwa [if_pos hini] at hI
    exact seg_noAdjFree 8 true false s.blocks hwS.chain
  · have hfr : s = freshState s.maxHeap := by
      unfold Inv at hI
      rwa [if_neg hini] at hI
    rw [hfr]
    trivial

theorem no_adjacent_free_reachable_witness :
    noAdjFree (mm_free (mm_malloc (mm_malloc (freshState 4096) 1).1 1).1
      16).blocks :=
  no_adjacent_free_reachable 4096 _
    (Reachable.step (Reachable.step (Reachable.step Reachable.base
      (Step.alloc (freshState 4096) 1)) (Step.alloc _ 1))
      (Step.release _ 16 (Or.inr ⟨⟨8, 16, true, true, false⟩, by decide, rfl, rfl⟩)))

/-- C7: in every reachable state, a successful allocate returns a payload
address that is 16-byte aligned and whose block offers at least the
requested number of usable bytes beyond the one-word header. -/
theorem malloc_payload_aligned_and_sized (M : Nat) (s : AState)
    (h : Reachable M s) (size : Nat) (s' : AState) (p : Nat)
    (hm : mm_malloc s size = (s', some p)) :
    p % 16 = 0 ∧ ∃ z ∈ s'.blocks, z.addr + wsize = p ∧ z.alloc = true ∧
      size ≤ z.size - wsize := by
  obtain ⟨hw', z, hz, hzp, hzal, hzsz⟩ :=
    mm_malloc_success s (reachable_inv M s h) size s' p hm
  obtain ⟨-, -, hmin, -, hal16⟩ :=
    seg_mem s'.blocks 8 true false hw'.chain z hz
  have hws : wsize = 8 := rfl
  have hmb : min_block_size = 16 := rfl
  refine ⟨by omega, z, hz, hzp, hzal, by omega⟩

theorem malloc_payload_aligned_and_sized_witness :
    (16:Nat) % 16 = 0 ∧
    ∃ z ∈ ({ blocks := [⟨8, 16, true, true, false⟩, ⟨24, 496, false, true, true⟩], epiPalloc := false, epiMpalloc := false, miniRoot := [], seglist := [[], [], [], [], [], [], [], [], [24], [], [], [], [], []], heapTop := 520, maxHeap := 4096, initialized := true } : AState).blocks,
      z.addr + wsize = 16 ∧ z.alloc = true ∧ 5 ≤ z.size - wsize :=
  malloc_payload_aligned_and_sized 4096 (freshState 4096) Reachable.base 5
    ({ blocks := [⟨8, 16, true, true, false⟩, ⟨24, 496, false, true, true⟩], epiPalloc := false, epiMpalloc := false, miniRoot := [], seglist := [[], [], [], [], [], [], [], [], [24], [], [], [], [], []], heapTop := 520, maxHeap := 4096, initialized := true } : AState)
    16 (by decide)


lemma whole_finish_layout (s : AState) (hw : Wf s) (P Q : List Block)
    (b : Block) (s3 : AState)
    (hs : s.blocks = P ++ b :: Q)
    (hsucc : (∃ c T, Q = c :: T ∧ c.addr = b.addr + b.size ∧
        c.alloc = true ∧ 0 < c.size ∧ c.addr ≠ s.heapTop ∧
        (∀ y ∈ T, c.addr + c.size ≤ y.addr)) ∨
      (Q = [] ∧ b.addr + b.size = s.heapTop))
    (h3b : (∃ c T d, Q = c :: T ∧ d.addr = c.addr ∧ d.size = c.size ∧
        d.alloc = c.alloc ∧
        s3.blocks = P ++ (⟨b.addr, b.size, true, b.palloc,
          b.mpalloc⟩ : Block) :: d :: T ∧
        s3.epiPalloc = s.epiPalloc ∧ s3.epiMpalloc = s.epiMpalloc) ∨
      (Q = [] ∧ s3.blocks = P ++ [(⟨b.addr, b.size, true, b.palloc,
        b.mpalloc⟩ : Block)]))
    (h3mini : ∀ a ∈ s3.miniRoot, a ∈ s.miniRoot ∧ a ≠ b.addr)
    (h3buck : ∀ k a, a ∈ bucket s3 k → a ∈ bucket s k ∧ a ≠ b.addr)
    (h3ht : s3.heapTop = s.heapTop) :
    sameLayout (update_next_mpalloc (update_next_palloc s3 b.addr)
        b.addr).blocks
      (P ++ (⟨b.addr, b.size, true, b.palloc, b.mpalloc⟩ : Block) :: Q) ∧
    ¬ listedIn (update_next_mpalloc (update_next_palloc s3 b.addr)
        b.addr) b.addr := by
  have hchain := hw.chain
  rw [hs] at hchain
  have hPlt : ∀ y ∈ P, y.addr < b.addr :=
    fun y hy => (seg_front P b Q hchain y hy).2
  obtain ⟨-, -, hbszm, -, -⟩ :=
    seg_mem s.blocks 8 true false hw.chain b (by rw [hs]; simp)
  have hbpos : (0:Nat) < b.size := by
    unfold min_block_size dsize wsize at hbszm
    omega
  set bAL : Block := ⟨b.addr, b.size, true, b.palloc, b.mpalloc⟩
    with hbALdef
  rcases h3b with ⟨c, T, d, hQeq, hda, hdsz, hdal, h3bl, h3ep, h3em⟩ |
    ⟨hQeq, h3bl⟩
  · subst hQeq
    rcases hsucc with ⟨c2, T2, hQ2, hcadj, hcal, hcsz0, hctop, hTge⟩ |
      ⟨hQ2, -⟩
    · rw [List.cons.injEq] at hQ2
      obtain ⟨h1, h2⟩ := hQ2
      rw [← h1] at hcadj hcal hcsz0 hctop hTge
      rw [← h2] at hTge
      have hdadj : d.addr = bAL.addr + bAL.size := by
        show d.addr = b.addr + b.size
        omega
      have hbc : bAL.addr < d.addr := by
        show b.addr < d.addr
        omega
      have hTge2 : ∀ y ∈ T, d.addr + d.size ≤ y.addr := by
        intro y hy
        have := hTge y hy
        omega
      have hdtop : d.addr ≠ s3.heapTop := by
        rw [h3ht, hda]
        exact hctop
      have hdsz0 : 0 < d.size := by omega
      rw [update_pair_mid s3 P T b.addr bAL d rfl h3bl hPlt hdadj hbc
        hTge2 hdtop hdsz0]
      set dU : Block := ⟨d.addr, d.size, d.alloc, bAL.alloc, isMiniSize bAL.size⟩ with hdUdef
      set sF : AState := { s3 with blocks := P ++ bAL :: dU :: T } with hsFdef
      constructor
      · have hbl : sF.blocks = P ++ bAL :: dU :: T := rfl
        unfold sameLayout
        rw [hbl]
        simp [blockLayout, hdUdef, hda, hdsz, hdal]
      · intro hcon
        rcases hcon with hcon | ⟨k, hcon⟩
        · have hm2 : b.addr ∈ s3.miniRoot := by
            simpa [hsFdef] using hcon
          exact (h3mini _ hm2).2 rfl
        · have hb2 : bucket sF k = bucket s3 k := by
            simp [hsFdef, bucket]
          rw [hb2] at hcon
          exact (h3buck k _ hcon).2 rfl
    · cases hQ2
  · subst hQeq
    have htopb : b.addr + b.size = s.heapTop := by
      rcases hsucc with ⟨c2, T2, hQ2, -⟩ | ⟨-, h⟩
      · cases hQ2
      · exact h
    have htop3 : bAL.addr + bAL.size = s3.heapTop := by
      rw [h3ht]
      show b.addr + b.size = s.heapTop
      exact htopb
    rw [update_pair_last s3 P b.addr bAL rfl h3bl hPlt htop3 hbpos]
    set sF : AState := { s3 with epiPalloc := bAL.alloc, epiMpalloc := isMiniSize bAL.size } with hsFdef
    constructor
    · have hbl : sF.blocks = P ++ [bAL] := h3bl
      unfold sameLayout
      rw [hbl]
    · intro hcon
      rcases hcon with hcon | ⟨k, hcon⟩
      · have hm2 : b.addr ∈ s3.miniRoot := by
          simpa [hsFdef] using hcon
        exact (h3mini _ hm2).2 rfl
      · have hb2 : bucket sF k = bucket s3 k := by
          simp [hsFdef, bucket]
        rw [hb2] at hcon
        exact (h3buck k _ hcon).2 rfl


lemma mm_alloc_whole_layout (s : AState) (hw : Wf s) (P Q : List Block)
    (b : Block) (asize : Nat)
    (hs : s.blocks = P ++ b :: Q) (hbal : b.alloc = false)
    (h16 : 16 ≤ asize) (hmod : asize % 16 = 0) (hle : asize ≤ b.size)
    (hsmall : b.size < asize + 16) :
    sameLayout (mm_alloc_finish s b.addr asize).1.blocks
      (P ++ (⟨b.addr, b.size, true, b.palloc, b.mpalloc⟩ : Block) :: Q) ∧
    ¬ listedIn (mm_alloc_finish s b.addr asize).1 b.addr := by
  have hchain := hw.chain
  rw [hs] at hchain
  have hPlt : ∀ y ∈ P, y.addr < b.addr :=
    fun y hy => (seg_front P b Q hchain y hy).2
  have hQge : ∀ y ∈ Q, b.addr + b.size ≤ y.addr := seg_suffix P b Q hchain
  obtain ⟨hchP2, hchB⟩ := (seg_append P (b :: Q) 8 true false).1 hchain
  obtain ⟨hba, hbszm, hbmod, hbpE, hbmE, -, hchQ⟩ := hchB
  have htopfst : (segEnd 8 true false s.blocks).1 = s.heapTop := by
    rw [hw.top]
  have hbpos : (0:Nat) < b.size := by
    unfold min_block_size dsize wsize at hbszm
    omega
  have hbfl := free_listed_unique s hw.chain hw.mini_sound hw.seg_sound b
    (by rw [hs]; simp) hbal
  have hsucc : (∃ c T, Q = c :: T ∧ c.addr = b.addr + b.size ∧
      c.alloc = true ∧ 0 < c.size ∧ c.addr ≠ s.heapTop ∧
      (∀ y ∈ T, c.addr + c.size ≤ y.addr)) ∨
    (Q = [] ∧ b.addr + b.size = s.heapTop) := by
    rcases Q with _ | ⟨c, T⟩
    · right
      refine ⟨rfl, ?_⟩
      have h0 := hw.top
      rw [hs, segEnd_append] at h0
      simp only [segEnd] at h0
      have h1 := congrArg Prod.fst h0
      simp at h1
      omega
    · left
      obtain ⟨hca, hcszm, -, -, -, hcimp, hchT⟩ := hchQ
      obtain ⟨-, hctople', hcsz16, -, -⟩ :=
        seg_mem s.blocks 8 true false hw.chain c (by rw [hs]; simp)
      refine ⟨c, T, rfl, by omega, hcimp hbal, ?_, ?_, ?_⟩
      · unfold min_block_size dsize wsize at hcszm
        omega
      · rw [htopfst] at hctople'
        unfold min_block_size dsize wsize at hcsz16
        omega
      · intro y hy
        have h1 := (seg_mem T _ _ _ hchT y hy).1
        omega
  have hrb : readBlock s b.addr = b :=
    readBlock_decomp s P Q b hs (fun y hy => Nat.ne_of_lt (hPlt y hy))
  have hszb : sizeAt s b.addr = b.size := by
    unfold sizeAt
    rw [hrb]
  have hmpb : mpallocAt s b.addr = b.mpalloc := by
    unfold mpallocAt
    rw [hrb]
  have hpab : pallocAt s b.addr = b.palloc := by
    unfold pallocAt
    rw [hrb]
  set bA : Block := ⟨b.addr, b.size, true, b.palloc, b.mpalloc⟩ with hbAdef
  have hw2 : write_block s b.addr b.size b.mpalloc b.palloc true =
      { s with blocks := P ++ bA :: Q } :=
    write_block_decomp s P [b] Q b.addr b.size b.mpalloc b.palloc true
      (by simpa using hs) hPlt
      (by intro y hy
          simp at hy
          rw [hy]
          exact ⟨Nat.le_refl _, by omega⟩)
      hQge
  have h2 : mm_alloc_finish s b.addr asize =
      (split_block { s with blocks := P ++ bA :: Q } b.addr asize,
        some (b.addr + wsize)) := by
    unfold mm_alloc_finish
    simp only [hszb, hmpb, hpab]
    rw [hw2]
  rw [h2]
  set s2 : AState := { s with blocks := P ++ bA :: Q } with hs2def
  have hPne : ∀ y ∈ P, y.addr ≠ bA.addr :=
    fun y hy => Nat.ne_of_lt (hPlt y hy)
  have hrb2 : readBlock s2 b.addr = bA :=
    readBlock_decomp s2 P Q bA rfl hPne
  have hsz2 : sizeAt s2 b.addr = b.size := by
    unfold sizeAt
    rw [hrb2]
  have hmp2 : mpallocAt s2 b.addr = b.mpalloc := by
    unfold mpallocAt
    rw [hrb2]
  have hpa2 : pallocAt s2 b.addr = b.palloc := by
    unfold pallocAt
    rw [hrb2]
  unfold split_block
  simp only [hsz2]
  rw [if_neg (show ¬ min_block_size ≤ b.size - asize from by
    unfold min_block_size dsize wsize; omega)]
  simp only [hmp2, hpa2]
  by_cases h16b : b.size = 16
  · rw [removeVague_mini s2 P Q b.addr bA rfl rfl hPne
      (show bA.size = 16 from h16b)]
    have hbnl1 : ∀ k, b.addr ∉ bucket s k := hbfl.1 h16b
    rcases hmr : s.miniRoot with _ | ⟨r, rest⟩
    · have hre : remove_mini_block s2 b.addr = s2 := by
        unfold remove_mini_block
        rw [show s2.miniRoot = [] from hmr]
      rw [hre]
      rw [write_block_self s2 P Q bA rfl hPlt hQge hbpos]
      exact whole_finish_layout s hw P Q b s2 hs hsucc
        (by rcases hsucc with ⟨c, T, hQeq, -, -, -, -, -⟩ | ⟨hQeq, -⟩
            · subst hQeq
              exact Or.inl ⟨c, T, c, rfl, rfl, rfl, rfl, rfl, rfl, rfl⟩
            · subst hQeq
              exact Or.inr ⟨rfl, rfl⟩)
        (by intro a ha
            rw [show s2.miniRoot = s.miniRoot from rfl, hmr] at ha
            cases ha)
        (by intro k a ha
            replace ha : a ∈ bucket s k := ha
            exact ⟨ha, fun he => hbnl1 k (he ▸ ha)⟩)
        rfl
    · have hnods := hw.mini_nodup
      rw [hmr] at hnods
      obtain ⟨hrnotin, hrestnd⟩ := List.nodup_cons.1 hnods
      by_cases hr : r = b.addr
      · rw [remove_mini_head s2 b.addr rest
          (show s2.miniRoot = b.addr :: rest from by
            rw [show s2.miniRoot = s.miniRoot from rfl, hmr, hr])]
        set s2m : AState := { s2 with miniRoot := rest } with hs2mdef
        have hminiM : ∀ a ∈ rest, a ∈ s.miniRoot ∧ a ≠ b.addr := by
          intro a ha
          refine ⟨by rw [hmr]; simp [ha], ?_⟩
          intro he
          exact hrnotin (by rw [hr, ← he]; exact ha)
        rcases hsucc with ⟨c, T, hQeq, hcadj, hcal, hcsz0, hctop, hTge⟩ |
          ⟨hQeq, htopb⟩
        · subst hQeq
          rw [update_pair_mid s2m P T b.addr bA c rfl rfl hPlt
            (show c.addr = b.addr + b.size from hcadj)
            (show b.addr < c.addr from by omega) hTge
            (show c.addr ≠ s2m.heapTop from hctop) hcsz0]
          set cU : Block := ⟨c.addr, c.size, c.alloc, bA.alloc, isMiniSize bA.size⟩ with hcUdef
          set s3 : AState := { s2m with blocks := P ++ bA :: cU :: T } with hs3def
          rw [write_block_self s3 P (cU :: T) bA rfl hPlt
            (by intro y hy
                rcases List.mem_cons.1 hy with hy | hy
                · rw [hy]
                  show b.addr + b.size ≤ c.addr
                  omega
                · have := hTge y hy
                  show b.addr + b.size ≤ y.addr
                  omega)
            hbpos]
          exact whole_finish_layout s hw P (c :: T) b s3 hs
            (Or.inl ⟨c, T, rfl, hcadj, hcal, hcsz0, hctop, hTge⟩)
            (Or.inl ⟨c, T, cU, rfl, rfl, rfl, rfl, rfl, rfl, rfl⟩)
            (by intro a ha
                exact hminiM a (by simpa [hs3def, hs2mdef] using ha))
            (by intro k a ha
                replace ha : a ∈ bucket s k := ha
                exact ⟨ha, fun he => hbnl1 k (he ▸ ha)⟩)
            rfl
        · subst hQeq
          rw [update_pair_last s2m P b.addr bA rfl rfl hPlt
            (show b.addr + b.size = s2m.heapTop from htopb) hbpos]
          set s3 : AState := { s2m with epiPalloc := bA.alloc, epiMpalloc := isMiniSize bA.size } with hs3def
          rw [write_block_self s3 P [] bA rfl hPlt
            (by intro y hy; cases hy) hbpos]
          exact whole_finish_layout s hw P [] b s3 hs
            (Or.inr ⟨rfl, htopb⟩) (Or.inr ⟨rfl, rfl⟩)
            (by intro a ha
                exact hminiM a (by simpa [hs3def, hs2mdef] using ha))
            (by intro k a ha
                replace ha : a ∈ bucket s k := ha
                exact ⟨ha, fun he => hbnl1 k (he ▸ ha)⟩)
            rfl
      · by_cases hmem : b.addr ∈ rest
        · rw [remove_mini_tail s2 b.addr r rest
            (show s2.miniRoot = r :: rest from hmr) hr hmem]
          set s2t : AState := { s2 with miniRoot := r :: rest.erase b.addr } with hs2tdef
          rw [write_block_self s2t P Q bA rfl hPlt hQge hbpos]
          exact whole_finish_layout s hw P Q b s2t hs hsucc
            (by rcases hsucc with ⟨c, T, hQeq, -, -, -, -, -⟩ | ⟨hQeq, -⟩
                · subst hQeq
                  exact Or.inl ⟨c, T, c, rfl, rfl, rfl, rfl, rfl, rfl,
                    rfl⟩
                · subst hQeq
                  exact Or.inr ⟨rfl, rfl⟩)
            (by intro a ha
                replace ha : a ∈ r :: rest.erase b.addr := ha
                rcases List.mem_cons.1 ha with ha | ha
                · rw [ha]
                  exact ⟨by rw [hmr]; simp, hr⟩
                · have h2 := (List.Nodup.mem_erase_iff hrestnd).1 ha
                  exact ⟨by rw [hmr]; simp [h2.2], h2.1⟩)
            (by intro k a ha
                replace ha : a ∈ bucket s k := ha
                exact ⟨ha, fun he => hbnl1 k (he ▸ ha)⟩)
            rfl
        · rw [remove_mini_notfound s2 b.addr r rest
            (show s2.miniRoot = r :: rest from hmr) hr hmem]
          have hminiN : ∀ a, a ∈ s.miniRoot → a ≠ b.addr := by
            intro a ha he
            rw [he, hmr] at ha
            rcases List.mem_cons.1 ha with ha | ha
            · exact hr ha.symm
            · exact hmem ha
          rcases hsucc with ⟨c, T, hQeq, hcadj, hcal, hcsz0, hctop,
            hTge⟩ | ⟨hQeq, htopb⟩
          · subst hQeq
            rw [update_pair_mid s2 P T b.addr bA c rfl rfl hPlt
              (show c.addr = b.addr + b.size from hcadj)
              (show b.addr < c.addr from by omega) hTge
              (show c.addr ≠ s2.heapTop from hctop) hcsz0]
            set cU : Block := ⟨c.addr, c.size, c.alloc, bA.alloc, isMiniSize bA.size⟩ with hcUdef
            set s3 : AState := { s2 with blocks := P ++ bA :: cU :: T } with hs3def
            rw [write_block_self s3 P (cU :: T) bA rfl hPlt
              (by intro y hy
                  rcases List.mem_cons.1 hy with hy | hy
                  · rw [hy]
                    show b.addr + b.size ≤ c.addr
                    omega
                  · have := hTge y hy
                    show b.addr + b.size ≤ y.addr
                    omega)
              hbpos]
            exact whole_finish_layout s hw P (c :: T) b s3 hs
              (Or.inl ⟨c, T, rfl, hcadj, hcal, hcsz0, hctop, hTge⟩)
              (Or.inl ⟨c, T, cU, rfl, rfl, rfl, rfl, rfl, rfl, rfl⟩)
              (by intro a ha
                  replace ha : a ∈ s.miniRoot := ha
                  exact ⟨ha, hminiN a ha⟩)
              (by intro k a ha
                  replace ha : a ∈ bucket s k := ha
                  exact ⟨ha, fun he => hbnl1 k (he ▸ ha)⟩)
              rfl
          · subst hQeq
            rw [update_pair_last s2 P b.addr bA rfl rfl hPlt
              (show b.addr + b.size = s2.heapTop from htopb) hbpos]
            set s3 : AState := { s2 with epiPalloc := bA.alloc, epiMpalloc := isMiniSize bA.size } with hs3def
            rw [write_block_self s3 P [] bA rfl hPlt
              (by intro y hy; cases hy) hbpos]
            exact whole_finish_layout s hw P [] b s3 hs
              (Or.inr ⟨rfl, htopb⟩) (Or.inr ⟨rfl, rfl⟩)
              (by intro a ha
                  replace ha : a ∈ s.miniRoot := ha
                  exact ⟨ha, hminiN a ha⟩)
              (by intro k a ha
                  replace ha : a ∈ bucket s k := ha
                  exact ⟨ha, fun he => hbnl1 k (he ▸ ha)⟩)
              rfl
  · have hbnl := hbfl.2 h16b
    rw [show removeVagueBlock s2 b.addr = eraseListed s2 bA from by
      rw [removeVague_normal s2 P Q b.addr bA rfl rfl hPne
        (show bA.size ≠ 16 from h16b)]
      unfold eraseListed
      rw [if_neg (show ¬ bA.size = 16 from h16b)]]
    set sE : AState := eraseListed s2 bA with hsEdef
    have hsEb : sE.blocks = P ++ bA :: Q := by
      rw [hsEdef, eraseListed_blocks]
    have hsEht : sE.heapTop = s.heapTop := by
      rw [hsEdef, eraseListed_heapTop]
    have hsEep : sE.epiPalloc = s.epiPalloc := by
      rw [hsEdef, eraseListed_epiPalloc]
    have hsEem : sE.epiMpalloc = s.epiMpalloc := by
      rw [hsEdef, eraseListed_epiMpalloc]
    have hsEmini : ∀ a ∈ sE.miniRoot, a ∈ s.miniRoot ∧ a ≠ b.addr := by
      intro a ha
      rw [hsEdef] at ha
      exact eraseListed_miniRoot_sub s2 bA hw.mini_nodup
        (fun _ => hbnl.1) a ha
    have hsEbuck : ∀ k a, a ∈ bucket sE k →
        a ∈ bucket s k ∧ a ≠ b.addr := by
      intro k a ha
      rw [hsEdef] at ha
      exact eraseListed_bucket_sub s2 bA hw.seg_len hw.bucket_nodup
        (fun h => absurd h h16b) (fun _ k hk => hbnl.2 k hk) k a ha
    rw [(show write_block sE b.addr b.size b.mpalloc b.palloc true = sE
      from write_block_self sE P Q bA hsEb hPlt hQge hbpos)]
    exact whole_finish_layout s hw P Q b sE hs hsucc
      (by rcases hsucc with ⟨c, T, hQeq, -, -, -, -, -⟩ | ⟨hQeq, -⟩
          · subst hQeq
            exact Or.inl ⟨c, T, c, rfl, rfl, rfl, rfl, hsEb, hsEep,
              hsEem⟩
          · subst hQeq
            exact Or.inr ⟨rfl, hsEb⟩)
      hsEmini hsEbuck hsEht



lemma mm_alloc_split_layout (s : AState) (hw : Wf s) (P Q : List Block)
    (b : Block) (asize : Nat)
    (hs : s.blocks = P ++ b :: Q) (hbal : b.alloc = false)
    (h16 : 16 ≤ asize) (hmod : asize % 16 = 0)
    (hbig : asize + 16 ≤ b.size) :
    sameLayout (mm_alloc_finish s b.addr asize).1.blocks
      (P ++ (⟨b.addr, asize, true, b.palloc, b.mpalloc⟩ : Block) ::
        (⟨b.addr + asize, b.size - asize, false, true,
          isMiniSize asize⟩ : Block) :: Q) ∧
    listedIn (mm_alloc_finish s b.addr asize).1 (b.addr + asize) ∧
    ¬ listedIn (mm_alloc_finish s b.addr asize).1 b.addr := by
  have hchain := hw.chain
  rw [hs] at hchain
  have hPlt : ∀ y ∈ P, y.addr < b.addr :=
    fun y hy => (seg_front P b Q hchain y hy).2
  have hQge : ∀ y ∈ Q, b.addr + b.size ≤ y.addr := seg_suffix P b Q hchain
  obtain ⟨hchP2, hchB⟩ := (seg_append P (b :: Q) 8 true false).1 hchain
  obtain ⟨hba, hbszm, hbmod, hbpE, hbmE, -, hchQ⟩ := hchB
  have htopfst : (segEnd 8 true false s.blocks).1 = s.heapTop := by
    rw [hw.top]
  have hbne16 : b.size ≠ 16 := by omega
  have hbnl := (free_listed_unique s hw.chain hw.mini_sound hw.seg_sound b
    (by rw [hs]; simp) hbal).2 hbne16
  have hnoaddr : ∀ x ∈ s.blocks, x.addr ≠ b.addr + asize := by
    intro x hx
    rw [hs] at hx
    rcases List.mem_append.1 hx with hx | hx
    · have := hPlt x hx
      omega
    · rcases List.mem_cons.1 hx with hx | hx
      · rw [hx]; omega
      · have := hQge x hx
        omega
  have hsucc : (∃ c T, Q = c :: T ∧ c.addr = b.addr + b.size ∧
      c.alloc = true ∧ 0 < c.size ∧ c.addr ≠ s.heapTop ∧
      (∀ y ∈ T, c.addr + c.size ≤ y.addr)) ∨
    (Q = [] ∧ b.addr + b.size = s.heapTop) := by
    rcases Q with _ | ⟨c, T⟩
    · right
      refine ⟨rfl, ?_⟩
      have h0 := hw.top
      rw [hs, segEnd_append] at h0
      simp only [segEnd] at h0
      have h1 := congrArg Prod.fst h0
      simp at h1
      omega
    · left
      obtain ⟨hca, hcszm, -, -, -, hcimp, hchT⟩ := hchQ
      obtain ⟨-, hctople', hcsz16, -, -⟩ :=
        seg_mem s.blocks 8 true false hw.chain c (by rw [hs]; simp)
      refine ⟨c, T, rfl, by omega, hcimp hbal, ?_, ?_, ?_⟩
      · unfold min_block_size dsize wsize at hcszm
        omega
      · rw [htopfst] at hctople'
        unfold min_block_size dsize wsize at hcsz16
        omega
      · intro y hy
        have h1 := (seg_mem T _ _ _ hchT y hy).1
        omega
  have hrb : readBlock s b.addr = b :=
    readBlock_decomp s P Q b hs (fun y hy => Nat.ne_of_lt (hPlt y hy))
  have hszb : sizeAt s b.addr = b.size := by
    unfold sizeAt
    rw [hrb]
  have hmpb : mpallocAt s b.addr = b.mpalloc := by
    unfold mpallocAt
    rw [hrb]
  have hpab : pallocAt s b.addr = b.palloc := by
    unfold pallocAt
    rw [hrb]
  set bA : Block := ⟨b.addr, b.size, true, b.palloc, b.mpalloc⟩ with hbAdef
  have hw2 : write_block s b.addr b.size b.mpalloc b.palloc true =
      { s with blocks := P ++ bA :: Q } :=
    write_block_decomp s P [b] Q b.addr b.size b.mpalloc b.palloc true
      (by simpa using hs) hPlt
      (by intro y hy
          simp at hy
          rw [hy]
          exact ⟨Nat.le_refl _, by omega⟩)
      hQge
  have h2 : mm_alloc_finish s b.addr asize =
      (split_block { s with blocks := P ++ bA :: Q } b.addr asize,
        some (b.addr + wsize)) := by
    unfold mm_alloc_finish
    simp only [hszb, hmpb, hpab]
    rw [hw2]
  rw [h2]
  set s2 : AState := { s with blocks := P ++ bA :: Q } with hs2def
  have hPne : ∀ y ∈ P, y.addr ≠ bA.addr :=
    fun y hy => Nat.ne_of_lt (hPlt y hy)
  have hrb2 : readBlock s2 b.addr = bA :=
    readBlock_decomp s2 P Q bA rfl hPne
  have hsz2 : sizeAt s2 b.addr = b.size := by
    unfold sizeAt
    rw [hrb2]
  have hmp2 : mpallocAt s2 b.addr = b.mpalloc := by
    unfold mpallocAt
    rw [hrb2]
  have hpa2 : pallocAt s2 b.addr = b.palloc := by
    unfold pallocAt
    rw [hrb2]
  unfold split_block
  simp only [hsz2]
  rw [if_pos (show min_block_size ≤ b.size - asize from by
    unfold min_block_size dsize wsize; omega)]
  simp only [hmp2, hpa2]
  have hrmv : removeVagueBlock s2 b.addr = eraseListed s2 bA := by
    rw [removeVague_normal s2 P Q b.addr bA rfl rfl hPne
      (show bA.size ≠ 16 from hbne16)]
    unfold eraseListed
    rw [if_neg (show ¬ bA.size = 16 from hbne16)]
  rw [hrmv]
  set sE : AState := eraseListed s2 bA with hsEdef
  have hsEb : sE.blocks = P ++ bA :: Q := by
    rw [hsEdef, eraseListed_blocks]
  have hsEht : sE.heapTop = s.heapTop := by
    rw [hsEdef, eraseListed_heapTop]
  have hsEep : sE.epiPalloc = s.epiPalloc := by
    rw [hsEdef, eraseListed_epiPalloc]
  have hsEem : sE.epiMpalloc = s.epiMpalloc := by
    rw [hsEdef, eraseListed_epiMpalloc]
  have hsEini : sE.initialized = true := by
    rw [hsEdef, eraseListed_initialized]
    exact hw.init
  have hsEmax : sE.maxHeap = s.maxHeap := by
    rw [hsEdef]
    unfold eraseListed
    split <;> rfl
  have hsElen : sE.seglist.length = 14 := by
    rw [hsEdef]
    exact eraseListed_len s2 bA hw.seg_len
  have hsEmini : ∀ a ∈ sE.miniRoot, a ∈ s.miniRoot ∧ a ≠ b.addr := by
    intro a ha
    rw [hsEdef] at ha
    exact eraseListed_miniRoot_sub s2 bA hw.mini_nodup
      (fun _ => hbnl.1) a ha
  have hsEmnd : sE.miniRoot.Nodup := by
    rw [hsEdef]
    exact eraseListed_mini_nodup s2 bA hw.mini_nodup
  have hsEbuck : ∀ k a, a ∈ bucket sE k →
      a ∈ bucket s k ∧ a ≠ b.addr := by
    intro k a ha
    rw [hsEdef] at ha
    exact eraseListed_bucket_sub s2 bA hw.seg_len hw.bucket_nodup
      (fun h => absurd h hbne16) (fun _ k hk => hbnl.2 k hk) k a ha
  have hsEbnd : ∀ k, (bucket sE k).Nodup := by
    intro k
    rw [hsEdef]
    exact eraseListed_bucket_nodup s2 bA hw.seg_len hw.bucket_nodup k
  have hw4 : write_block sE b.addr asize b.mpalloc b.palloc true =
      { sE with blocks := P ++ (⟨b.addr, asize, true, b.palloc,
        b.mpalloc⟩ : Block) :: Q } :=
    write_block_decomp sE P [bA] Q b.addr asize b.mpalloc b.palloc true
      (by simpa using hsEb) hPlt
      (by intro y hy
          simp at hy
          rw [hy]
          refine ⟨Nat.le_refl _, ?_⟩
          show b.addr < b.addr + asize
          omega)
      (by intro y hy
          have := hQge y hy
          omega)
  rw [hw4]
  set nb : Block := ⟨b.addr, asize, true, b.palloc, b.mpalloc⟩ with hnbdef
  set s4 : AState := { sE with blocks := P ++ nb :: Q } with hs4def
  have hrb4 : readBlock s4 b.addr = nb :=
    readBlock_decomp s4 P Q nb rfl hPne
  have hfn : find_next s4 b.addr = b.addr + asize := by
    unfold find_next sizeAt
    rw [hrb4]
  have hmini4 : isMiniBlockAt s4 b.addr = isMiniSize asize := by
    unfold isMiniBlockAt sizeAt
    rw [hrb4]
  rw [hfn, hmini4]
  have hw5 : write_block s4 (b.addr + asize) (b.size - asize)
      (isMiniSize asize) true false =
      { s4 with blocks := P ++ nb :: (⟨b.addr + asize, b.size - asize,
        false, true, isMiniSize asize⟩ : Block) :: Q } := by
    rw [write_block_decomp s4 (P ++ [nb]) [] Q (b.addr + asize)
      (b.size - asize) (isMiniSize asize) true false (by simp [hs4def])
      (by intro y hy
          rcases List.mem_append.1 hy with hy | hy
          · have := hPlt y hy
            omega
          · simp at hy
            rw [hy]
            show b.addr < b.addr + asize
            omega)
      (by intro y hy; cases hy)
      (by intro y hy
          have := hQge y hy
          show b.addr + asize + (b.size - asize) ≤ y.addr
          omega)]
    simp
  rw [hw5]
  set rem : Block := ⟨b.addr + asize, b.size - asize, false, true,
    isMiniSize asize⟩ with hremdef
  set s5 : AState := { s4 with blocks := P ++ nb :: rem :: Q } with hs5def
  have hPnbne : ∀ y ∈ P ++ [nb], y.addr ≠ rem.addr := by
    intro y hy
    rcases List.mem_append.1 hy with hy | hy
    · have := hPlt y hy
      show y.addr ≠ b.addr + asize
      omega
    · simp at hy
      rw [hy]
      show b.addr ≠ b.addr + asize
      omega
  have hPnblt : ∀ y ∈ P ++ [nb], y.addr < rem.addr := by
    intro y hy
    rcases List.mem_append.1 hy with hy | hy
    · have := hPlt y hy
      show y.addr < b.addr + asize
      omega
    · simp at hy
      rw [hy]
      show b.addr < b.addr + asize
      omega
  have hrempos : 0 < rem.size := by
    show 0 < b.size - asize
    omega
  by_cases h16r : b.size - asize = 16
  · rw [insertVague_mini s5 (P ++ [nb]) Q (b.addr + asize) rem rfl
      (by simp [hs5def]) hPnbne (show rem.size = 16 from h16r)]
    rw [insert_mini_unfold s5 (b.addr + asize)]
    set s6 : AState := { s5 with miniRoot := (b.addr + asize) :: s5.miniRoot } with hs6def
    have hht6 : s6.heapTop = s.heapTop := by
      simp only [hs6def, hs5def, hs4def]
      exact hsEht
    rcases hsucc with ⟨c, T, rfl, hcadj, hcal, hcsz0, hctop, hTge⟩ |
      ⟨rfl, htopb⟩
    · have hcadj2 : c.addr = rem.addr + rem.size := by
        show c.addr = b.addr + asize + (b.size - asize)
        omega
      have hbcR : rem.addr < c.addr := by
        show b.addr + asize < c.addr
        omega
      have hctop6 : c.addr ≠ s6.heapTop := by
        rw [hht6]
        exact hctop
      rw [update_pair_mid s6 (P ++ [nb]) T (b.addr + asize) rem c rfl
        (by simp [hs6def, hs5def]) hPnblt hcadj2 hbcR hTge hctop6 hcsz0]
      set cf1 : Block := ⟨c.addr, c.size, c.alloc, rem.alloc, isMiniSize rem.size⟩ with hcf1def
      set s7 : AState := { s6 with blocks := P ++ [nb] ++ rem :: cf1 :: T } with hs7def
      have hctop7 : cf1.addr ≠ s7.heapTop := by
        show c.addr ≠ s7.heapTop
        have : s7.heapTop = s.heapTop := by
          simp only [hs7def]
          exact hht6
        rw [this]
        exact hctop
      rw [update_pair_mid' s7 (P ++ [nb]) T (b.addr + asize) rem cf1 rfl
        rfl hPnblt hcadj2 hbcR hTge hctop7 hcsz0]
      set cf2 : Block := ⟨cf1.addr, cf1.size, cf1.alloc, rem.alloc, isMiniSize rem.size⟩ with hcf2def
      set s8 : AState := { s7 with blocks := P ++ [nb] ++ rem :: cf2 :: T } with hs8def
      have hbuck8 : ∀ k, bucket s8 k = bucket sE k := by
        intro k
        simp [hs8def, hs7def, hs6def, hs5def, hs4def, bucket]
      refine ⟨?_, ?_, ?_⟩
      · have hbl : s8.blocks = P ++ [nb] ++ rem :: cf2 :: T := rfl
        unfold sameLayout
        rw [hbl]
        simp [blockLayout, hcf2def, hcf1def]
      · refine Or.inl ?_
        have hmr : s8.miniRoot = (b.addr + asize) :: sE.miniRoot := by
          simp [hs8def, hs7def, hs6def, hs5def, hs4def]
        rw [hmr]
        exact List.mem_cons.2 (Or.inl rfl)
      · intro hcon
        rcases hcon with hcon | ⟨k, hcon⟩
        · have hmr : s8.miniRoot = (b.addr + asize) :: sE.miniRoot := by
            simp [hs8def, hs7def, hs6def, hs5def, hs4def]
          rw [hmr] at hcon
          rcases List.mem_cons.1 hcon with hcon | hcon
          · omega
          · exact (hsEmini _ hcon).2 rfl
        · rw [hbuck8] at hcon
          exact (hsEbuck k _ hcon).2 rfl
    · have htop6 : rem.addr + rem.size = s6.heapTop := by
        rw [hht6]
        show b.addr + asize + (b.size - asize) = s.heapTop
        omega
      rw [update_pair_last s6 (P ++ [nb]) (b.addr + asize) rem rfl
        (by simp [hs6def, hs5def]) hPnblt htop6 hrempos]
      set s7 : AState := { s6 with epiPalloc := rem.alloc, epiMpalloc := isMiniSize rem.size } with hs7def
      have htop7 : rem.addr + rem.size = s7.heapTop := by
        have : s7.heapTop = s.heapTop := by
          simp only [hs7def]
          exact hht6
        rw [this]
        show b.addr + asize + (b.size - asize) = s.heapTop
        omega
      rw [update_pair_last' s7 (P ++ [nb]) (b.addr + asize) rem rfl
        (by simp [hs7def, hs6def, hs5def]) hPnblt htop7 hrempos]
      set s8 : AState := { s7 with epiPalloc := rem.alloc, epiMpalloc := isMiniSize rem.size } with hs8def
      have hbuck8 : ∀ k, bucket s8 k = bucket sE k := by
        intro k
        simp [hs8def, hs7def, hs6def, hs5def, hs4def, bucket]
      refine ⟨?_, ?_, ?_⟩
      · have hbl : s8.blocks = P ++ nb :: rem :: [] := rfl
        unfold sameLayout
        rw [hbl]
      · refine Or.inl ?_
        have hmr : s8.miniRoot = (b.addr + asize) :: sE.miniRoot := by
          simp [hs8def, hs7def, hs6def, hs5def, hs4def]
        rw [hmr]
        exact List.mem_cons.2 (Or.inl rfl)
      · intro hcon
        rcases hcon with hcon | ⟨k, hcon⟩
        · have hmr : s8.miniRoot = (b.addr + asize) :: sE.miniRoot := by
            simp [hs8def, hs7def, hs6def, hs5def, hs4def]
          rw [hmr] at hcon
          rcases List.mem_cons.1 hcon with hcon | hcon
          · omega
          · exact (hsEmini _ hcon).2 rfl
        · rw [hbuck8] at hcon
          exact (hsEbuck k _ hcon).2 rfl
  · rw [insertVague_normal s5 (P ++ [nb]) Q (b.addr + asize) rem rfl
      (by simp [hs5def]) hPnbne (show rem.size ≠ 16 from h16r)]
    set s6 : AState := { s5 with seglist := (s5.seglist.set (home_address rem.size) (rem.addr :: bucket s5 (home_address rem.size))) } with hs6def
    have hht6 : s6.heapTop = s.heapTop := by
      simp only [hs6def, hs5def, hs4def]
      exact hsEht
    have hb5 : ∀ j, bucket s5 j = bucket sE j := by
      intro j
      simp [hs5def, hs4def, bucket]
    have hs5len : s5.seglist.length = 14 := by
      simp only [hs5def, hs4def]
      exact hsElen
    have hb6 : ∀ k, bucket s6 k =
        if k = home_address rem.size then
          rem.addr :: bucket s5 (home_address rem.size)
        else bucket s5 k := by
      intro k
      by_cases hk : k = home_address rem.size
      · subst hk
        rw [if_pos rfl, hs6def]
        exact bucket_set_self s5 _ _
          (by rw [hs5len]; exact home_address_lt _)
      · rw [if_neg hk, hs6def]
        exact bucket_set_ne s5 _ k _ (fun he => hk he.symm)
    rcases hsucc with ⟨c, T, rfl, hcadj, hcal, hcsz0, hctop, hTge⟩ |
      ⟨rfl, htopb⟩
    · have hcadj2 : c.addr = rem.addr + rem.size := by
        show c.addr = b.addr + asize + (b.size - asize)
        omega
      have hbcR : rem.addr < c.addr := by
        show b.addr + asize < c.addr
        omega
      have hctop6 : c.addr ≠ s6.heapTop := by
        rw [hht6]
        exact hctop
      rw [update_pair_mid' s6 (P ++ [nb]) T (b.addr + asize) rem c rfl
        (by simp [hs6def, hs5def]) hPnblt hcadj2 hbcR hTge hctop6 hcsz0]
      set cf1 : Block := ⟨c.addr, c.size, c.alloc, rem.alloc, isMiniSize rem.size⟩ with hcf1def
      set s7 : AState := { s6 with blocks := P ++ [nb] ++ rem :: cf1 :: T } with hs7def
      have hbuck7 : ∀ k, bucket s7 k = bucket s6 k := by
        intro k
        simp [hs7def, bucket]
      refine ⟨?_, ?_, ?_⟩
      · have hbl : s7.blocks = P ++ [nb] ++ rem :: cf1 :: T := rfl
        unfold sameLayout
        rw [hbl]
        simp [blockLayout, hcf1def]
      · refine Or.inr ⟨home_address rem.size, ?_⟩
        rw [hbuck7, hb6]
        rw [if_pos rfl]
        exact List.mem_cons.2 (Or.inl rfl)
      · intro hcon
        rcases hcon with hcon | ⟨k, hcon⟩
        · have hmr : s7.miniRoot = sE.miniRoot := by
            simp [hs7def, hs6def, hs5def, hs4def]
          rw [hmr] at hcon
          exact (hsEmini _ hcon).2 rfl
        · rw [hbuck7, hb6] at hcon
          by_cases hk : k = home_address rem.size
          · rw [if_pos hk] at hcon
            rcases List.mem_cons.1 hcon with hcon | hcon
            · have hcon2 : b.addr = b.addr + asize := hcon
              omega
            · rw [hb5] at hcon
              exact (hsEbuck _ _ hcon).2 rfl
          · rw [if_neg hk, hb5] at hcon
            exact (hsEbuck _ _ hcon).2 rfl
    · have htop6 : rem.addr + rem.size = s6.heapTop := by
        rw [hht6]
        show b.addr + asize + (b.size - asize) = s.heapTop
        omega
      rw [update_pair_last' s6 (P ++ [nb]) (b.addr + asize) rem rfl
        (by simp [hs6def, hs5def]) hPnblt htop6 hrempos]
      set s7 : AState := { s6 with epiPalloc := rem.alloc, epiMpalloc := isMiniSize rem.size } with hs7def
      have hbuck7 : ∀ k, bucket s7 k = bucket s6 k := by
        intro k
        simp [hs7def, bucket]
      refine ⟨?_, ?_, ?_⟩
      · have hbl : s7.blocks = P ++ nb :: rem :: [] := rfl
        unfold sameLayout
        rw [hbl]
      · refine Or.inr ⟨home_address rem.size, ?_⟩
        rw [hbuck7, hb6]
        rw [if_pos rfl]
        exact List.mem_cons.2 (Or.inl rfl)
      · intro hcon
        rcases hcon with hcon | ⟨k, hcon⟩
        · have hmr : s7.miniRoot = sE.miniRoot := by
            simp [hs7def, hs6def, hs5def, hs4def]
          rw [hmr] at hcon
          exact (hsEmini _ hcon).2 rfl
        · rw [hbuck7, hb6] at hcon
          by_cases hk : k = home_address rem.size
          · rw [if_pos hk] at hcon
            rcases List.mem_cons.1 hcon with hcon | hcon
            · have hcon2 : b.addr = b.addr + asize := hcon
              omega
            · rw [hb5] at hcon
              exact (hsEbuck _ _ hcon).2 rfl
          · rw [if_neg hk, hb5] at hcon
            exact (hsEbuck _ _ hcon).2 rfl


/-- C5: on a well-formed heap, marking and splitting a free block chosen for
an aligned target size behaves per the spec: when the leftover is at least
the 16-byte minimum block size, the arena layout becomes the prefix, an
allocated block of exactly the target size, a free remainder block of the
leftover size at the following address, and the suffix, with the remainder
inserted into the free structures and the original address de-listed; when
the leftover is below 16 bytes the whole block is allocated as-is and no
remainder block is created. -/
theorem split_block_behavior (s : AState) (hw : Wf s) (P Q : List Block)
    (b : Block) (asize : Nat)
    (hs : s.blocks = P ++ b :: Q) (hbal : b.alloc = false)
    (h16 : 16 ≤ asize) (hmod : asize % 16 = 0) (hle : asize ≤ b.size) :
    (16 ≤ b.size - asize →
      sameLayout (mm_alloc_finish s b.addr asize).1.blocks
        (P ++ (⟨b.addr, asize, true, b.palloc, b.mpalloc⟩ : Block) ::
          (⟨b.addr + asize, b.size - asize, false, true,
            isMiniSize asize⟩ : Block) :: Q) ∧
      listedIn (mm_alloc_finish s b.addr asize).1 (b.addr + asize) ∧
      ¬ listedIn (mm_alloc_finish s b.addr asize).1 b.addr) ∧
    (b.size - asize < 16 →
      sameLayout (mm_alloc_finish s b.addr asize).1.blocks
        (P ++ (⟨b.addr, b.size, true, b.palloc, b.mpalloc⟩ : Block) ::
          Q) ∧
      ¬ listedIn (mm_alloc_finish s b.addr asize).1 b.addr) := by
  constructor
  · intro hbig
    exact mm_alloc_split_layout s hw P Q b asize hs hbal h16 hmod
      (by omega)
  · intro hsmall
    exact mm_alloc_whole_layout s hw P Q b asize hs hbal h16 hmod hle
      (by omega)

theorem split_block_behavior_witness :
    (16 ≤ 512 - 64 →
      sameLayout (mm_alloc_finish (mm_init (freshState 4096)).1 8
          64).1.blocks
        ([] ++ (⟨8, 64, true, true, false⟩ : Block) ::
          (⟨8 + 64, 512 - 64, false, true, isMiniSize 64⟩ : Block) ::
          []) ∧
      listedIn (mm_alloc_finish (mm_init (freshState 4096)).1 8 64).1
        (8 + 64) ∧
      ¬ listedIn (mm_alloc_finish (mm_init (freshState 4096)).1 8 64).1
        8) ∧
    (512 - 64 < 16 →
      sameLayout (mm_alloc_finish (mm_init (freshState 4096)).1 8
          64).1.blocks
        ([] ++ (⟨8, 512, true, true, false⟩ : Block) :: []) ∧
      ¬ listedIn (mm_alloc_finish (mm_init (freshState 4096)).1 8 64).1
        8) :=
  split_block_behavior (mm_init (freshState 4096)).1
    ((mm_init_wf_large 4096 (by decide)).1) [] []
    ⟨8, 512, false, true, false⟩ 64 (by decide) rfl (by decide)
    (by decide) (by decide)
end MallocLab
